import Mathlib

/-! # Traffic-map operations of `graph/telemetry/common.go`

A shallow embedding of the four operations of the telemetry package
(`MergeTrafficMaps`, `MarkOutsideOrInaccessible`, `MarkTrafficGenerators`,
`ReduceToServiceGraph`) and theorems about them.

Modelling conventions
* Go pointers (`*graph.Node`, `*graph.Edge`) are addresses (`Nat`) into a `Heap`;
  every address is allocated (no nil pointers).  Two map entries, or two edge
  lists, may hold the same address: aliasing is part of the model.
* A node owns its `Edges` slice and its `Metadata` map, an edge owns its
  `Metadata` map (no two objects share a slice or a map).
* `graph.TrafficMap` (`map[string]*Node`) is an association list; a `range`
  loop visits the entries in list order, so a statement quantified over all
  lists covers every iteration order.
* `graph.Metadata` (`map[string]interface{}`) is a finite map given as a
  function `String → Option Value`; `Value` is the dynamic type of the stored
  value, so the type assertion `.(bool)` can fail.  No entry stores a nil value.
* Traffic counters (`float64` in Go) are natural numbers.
* Logging (`log.Tracef`) has no effect on the state and is left out.
-/

namespace Kiali

/-! ## Data model (package `graph`) -/

/-- Dynamically typed value stored in a metadata map (`interface{}`). -/
inductive Value where
  | bool (b : Bool)
  | str (s : String)
  | num (n : Nat)
  deriving DecidableEq, Repr

/-- Metadata map `map[string]interface{}`: `none` is an absent key. -/
abbrev Metadata := String → Option Value

/-- Assignment `m[k] = v`. -/
def Metadata.set (m : Metadata) (k : String) (v : Value) : Metadata :=
  fun k' => if k' = k then some v else m k'

/-- The map with no entry. -/
def Metadata.empty : Metadata := fun _ => none

/-- Modelled from the spec: the node-type constant `graph.NodeTypeService`. -/
def NodeTypeService : String := "service"

/-- Modelled from the spec: the node-type constant `graph.NodeTypeWorkload`. -/
def NodeTypeWorkload : String := "workload"

/-- Modelled from the spec: the node-type constant `graph.NodeTypeUnknown`. -/
def NodeTypeUnknown : String := "unknown"

/-- Modelled from the spec: the sentinel `graph.Unknown` for namespace and service names. -/
def Unknown : String := "unknown"

/-- Modelled from the spec: metadata key `graph.IsRoot`. -/
def IsRoot : String := "isRoot"

/-- Modelled from the spec: metadata key `graph.IsOutside`. -/
def IsOutside : String := "isOutside"

/-- Modelled from the spec: metadata key `graph.IsInaccessible`. -/
def IsInaccessible : String := "isInaccessible"

/-- Modelled from the spec: metadata key `graph.IsEgressCluster`. -/
def IsEgressCluster : String := "isEgressCluster"

/-- Modelled from the spec: metadata key `graph.ProtocolKey` of an edge. -/
def ProtocolKey : String := "protocol"

/-- The fields of `graph.Node` read or written by the telemetry package.
`Edges` holds edge addresses. -/
structure Node where
  ID : String
  NodeType : String
  Namespace : String
  Service : String
  Edges : List Nat
  Metadata : Metadata

/-- The fields of `graph.Edge` read or written by the telemetry package.
`Dest` is a node address. -/
structure Edge where
  Dest : Nat
  Metadata : Metadata

/-- Object store: the node and the edge behind every address. -/
structure Heap where
  nodes : Nat → Node
  edges : Nat → Edge

/-- Assignment `n.Edges = es`. -/
def Node.withEdges (n : Node) (es : List Nat) : Node :=
  { n with Edges := es }

/-- Store a node value at address `p`. -/
def Heap.setNode (h : Heap) (p : Nat) (n : Node) : Heap :=
  { h with nodes := fun q => if q = p then n else h.nodes q }

/-- Store an edge value at address `p`. -/
def Heap.setEdge (h : Heap) (p : Nat) (e : Edge) : Heap :=
  { h with edges := fun q => if q = p then e else h.edges q }

/-- Go map `map[string]*Node` as an association list from key to node address. -/
abbrev TrafficMap := List (String × Nat)

/-- Lookup `m[k]` with the comma-ok result. -/
def TrafficMap.get : TrafficMap → String → Option Nat
  | [], _ => none
  | (k', p) :: rest, k => if k' = k then some p else TrafficMap.get rest k

/-- Assignment `m[k] = p`: replaces the entry of an existing key, adds one otherwise. -/
def TrafficMap.set : TrafficMap → String → Nat → TrafficMap
  | [], k, p => [(k, p)]
  | (k', p') :: rest, k, p =>
    if k' = k then (k, p) :: rest else (k', p') :: TrafficMap.set rest k p

/-- Keys of a map. -/
def TrafficMap.keys (m : TrafficMap) : List String := m.map Prod.fst

/-- Result of `graph.NewTrafficMap()`. -/
def NewTrafficMap : TrafficMap := []

/-- The two functions of package `graph` that the telemetry code calls on
metadata; their source is not part of the telemetry package.
`AddOutgoingEdgeToMetadata src edge` is the source-node metadata after the call
`graph.AddOutgoingEdgeToMetadata(src, edge)`; `AggregateEdgeTraffic from to`
is the metadata of `toEdge` after `graph.AggregateEdgeTraffic(fromEdge, toEdge)`. -/
structure GraphLib where
  AddOutgoingEdgeToMetadata : Metadata → Metadata → Metadata
  AggregateEdgeTraffic : Metadata → Metadata → Metadata

/-- Modelled from the spec: `graph.AddOutgoingEdgeToMetadata`, which is not in
the telemetry package: it updates the node's own outgoing-traffic metadata to account for
the newly attached edge: the edge's per-protocol rate is added to the
node's outgoing rate of that protocol. -/
def specAddOutgoingEdgeToMetadata (src edge : Metadata) : Metadata :=
  fun k =>
    let rate : Option Value :=
      if k = "httpOut" then edge "http"
      else if k = "grpcOut" then edge "grpc"
      else if k = "tcpOut" then edge "tcp"
      else none
    match rate, src k with
    | some (Value.num a), some (Value.num b) => some (Value.num (b + a))
    | some (Value.num a), none => some (Value.num a)
    | _, old => old

/-- Modelled from the spec: `graph.AggregateEdgeTraffic`, which is not in the
telemetry package: additive traffic counters are summed: every numeric entry of the
source edge is added to the target edge's entry of the same key; other
entries of the target, and its protocol identifier, are kept. -/
def specAggregateEdgeTraffic (fromMeta toMeta : Metadata) : Metadata :=
  fun k =>
    if k = ProtocolKey then toMeta k
    else
      match fromMeta k, toMeta k with
      | some (Value.num a), some (Value.num b) => some (Value.num (b + a))
      | some (Value.num a), none => some (Value.num a)
      | _, old => old

/-- The `graph` helpers as the spec describes them. -/
def specLib : GraphLib :=
  { AddOutgoingEdgeToMetadata := specAddOutgoingEdgeToMetadata
    AggregateEdgeTraffic := specAggregateEdgeTraffic }

/-- Abnormal termination of a call: `graph.Error` (the fatal graph-consistency
error raised by `checkNodeType`) or a failed type assertion `.(bool)`. -/
inductive Panic where
  | graphError
  | typeAssertion
  deriving DecidableEq, Repr

/-! ## `MergeTrafficMaps` (lines 13-48) -/

/-- Line 33: the two edges have the same destination ID and the same protocol. -/
def sameEdgeKey (h : Heap) (a b : Nat) : Bool :=
  decide ((h.nodes (h.edges a).Dest).ID = (h.nodes (h.edges b).Dest).ID) &&
    decide ((h.edges a).Metadata ProtocolKey = (h.edges b).Metadata ProtocolKey)

/-- Lines 31-42, one donor edge `nsEdge` against the resident `node`. -/
def mergeEdge (G : GraphLib) (node : Nat) (h : Heap) (nsEdge : Nat) : Heap :=
  if (h.nodes node).Edges.any (fun e => sameEdgeKey h nsEdge e) then h
  else
    h.setNode node
      { h.nodes node with
        Edges := (h.nodes node).Edges ++ [nsEdge]
        Metadata := G.AddOutgoingEdgeToMetadata (h.nodes node).Metadata (h.edges nsEdge).Metadata }

/-- Lines 22-46, one entry `(nsID, nsNode)` of the merged-in map. -/
def mergeNode (G : GraphLib) (ns : String) (st : Heap × TrafficMap) (entry : String × Nat) :
    Heap × TrafficMap :=
  match st.2.get entry.1 with
  | some node =>
    if (st.1.nodes entry.2).Namespace = ns then
      -- swap: the incoming instance becomes the resident, the old one the donor
      ((st.1.nodes node).Edges.foldl (mergeEdge G entry.2) st.1, st.2.set entry.1 entry.2)
    else
      ((st.1.nodes entry.2).Edges.foldl (mergeEdge G node) st.1, st.2)
  | none => (st.1, st.2.set entry.1 entry.2)

/-- `MergeTrafficMaps(trafficMap, ns, nsTrafficMap)`: the heap and the
accumulator after the call. -/
def MergeTrafficMaps (G : GraphLib) (h : Heap) (trafficMap : TrafficMap) (ns : String)
    (nsTrafficMap : TrafficMap) : Heap × TrafficMap :=
  nsTrafficMap.foldl (mergeNode G ns) (h, trafficMap)

/-! ## `MarkOutsideOrInaccessible` (lines 50-100) -/

/-- The field of `graph.NamespaceInfo` read by `isOutside`. -/
structure NamespaceInfo where
  Name : String

/-- The fields of `graph.TelemetryOptions` read by the telemetry package;
`AccessibleNamespaces` maps a namespace name to a time stamp. -/
structure TelemetryOptions where
  Namespaces : List (String × NamespaceInfo)
  AccessibleNamespaces : List (String × Nat)

/-- Lines 86-91: the loop over the requested namespaces. -/
def isOutsideLoop (n : Node) : List (String × NamespaceInfo) → Bool
  | [] => true
  | (_, ns) :: rest => if n.Namespace = ns.Name then false else isOutsideLoop n rest

/-- `isOutside` (lines 82-92). -/
def isOutside (n : Node) (namespaces : List (String × NamespaceInfo)) : Bool :=
  if n.Namespace = Unknown then false else isOutsideLoop n namespaces

/-- Lookup in the accessible-namespace map with the comma-ok result. -/
def lookupAccessible : List (String × Nat) → String → Option Nat
  | [], _ => none
  | (k', t) :: rest, k => if k' = k then some t else lookupAccessible rest k

/-- `isInaccessible` (lines 94-100). -/
def isInaccessible (n : Node) (accessibleNamespaces : List (String × Nat)) : Bool :=
  match lookupAccessible accessibleNamespaces n.Namespace with
  | none => true
  | some _ => false

/-- Assignment `n.Metadata[k] = true`. -/
def Node.setFlag (n : Node) (k : String) : Node :=
  { n with Metadata := n.Metadata.set k (Value.bool true) }

/-- Lines 54-71: the `switch` on the node type. -/
def markSwitch (n : Node) (o : TelemetryOptions) : Node :=
  if n.NodeType = NodeTypeUnknown then n.setFlag IsInaccessible
  else if n.NodeType = NodeTypeService then
    if n.Namespace = Unknown ∧ n.Service = Unknown then n.setFlag IsInaccessible
    else if n.Metadata IsEgressCluster = some (Value.bool true) then n.setFlag IsInaccessible
    else if isOutside n o.Namespaces then n.setFlag IsOutside
    else n
  else if isOutside n o.Namespaces then n.setFlag IsOutside
  else n

/-- Lines 72-78: the accessibility check of an outside node; the type assertion
`isOutsider.(bool)` fails on a value that is not a boolean. -/
def markAccess (n : Node) (o : TelemetryOptions) : Except Panic Node :=
  match n.Metadata IsOutside with
  | none => Except.ok n
  | some (Value.bool false) => Except.ok n
  | some (Value.bool true) =>
    match n.Metadata IsInaccessible with
    | some _ => Except.ok n
    | none => if isInaccessible n o.AccessibleNamespaces then Except.ok (n.setFlag IsInaccessible)
              else Except.ok n
  | some _ => Except.error Panic.typeAssertion

/-- Loop body of `MarkOutsideOrInaccessible` for one node value. -/
def markNode (n : Node) (o : TelemetryOptions) : Except Panic Node :=
  markAccess (markSwitch n o) o

/-- `MarkOutsideOrInaccessible(trafficMap, o)`: the heap after the call. -/
def MarkOutsideOrInaccessible (h : Heap) : TrafficMap → TelemetryOptions → Except Panic Heap
  | [], _ => Except.ok h
  | (_, p) :: rest, o =>
    match markNode (h.nodes p) o with
    | Except.error e => Except.error e
    | Except.ok n => MarkOutsideOrInaccessible (h.setNode p n) rest o

/-! ## `MarkTrafficGenerators` (lines 102-118) -/

/-- Lines 106-108: the edges of one node entered into `destMap`. -/
def addDests (h : Heap) (destMap : TrafficMap) (edges : List Nat) : TrafficMap :=
  edges.foldl (fun dm e => dm.set (h.nodes (h.edges e).Dest).ID (h.edges e).Dest) destMap

/-- Lines 104-109: `destMap`, from destination ID to destination node. -/
def buildDestMap (h : Heap) (trafficMap : TrafficMap) : TrafficMap :=
  trafficMap.foldl (fun dm entry => addDests h dm (h.nodes entry.2).Edges) []

/-- Lines 111-116: one node of the second loop. -/
def markGenerator (destMap : TrafficMap) (h : Heap) (entry : String × Nat) : Heap :=
  if (h.nodes entry.2).Edges.length = 0 then h
  else
    match destMap.get (h.nodes entry.2).ID with
    | some _ => h
    | none => h.setNode entry.2 ((h.nodes entry.2).setFlag IsRoot)

/-- `MarkTrafficGenerators(trafficMap)`: the heap after the call. -/
def MarkTrafficGenerators (h : Heap) (trafficMap : TrafficMap) : Heap :=
  trafficMap.foldl (markGenerator (buildDestMap h trafficMap)) h

/-! ## `ReduceToServiceGraph` (lines 120-194) -/

/-- `checkNodeType` (lines 190-194): `graph.Error` aborts the call. -/
def checkNodeType (expected : String) (n : Node) : Except Panic Unit :=
  if expected ≠ n.NodeType then Except.error Panic.graphError else Except.ok ()

/-- `addServiceGraphTraffic` (lines 182-188): `graph.AggregateEdgeTraffic(fromEdge, toEdge)`
rewrites the metadata of `toEdge`. -/
def addServiceGraphTraffic (G : GraphLib) (h : Heap) (toEdge fromEdge : Nat) : Heap :=
  h.setEdge toEdge
    { h.edges toEdge with
      Metadata := G.AggregateEdgeTraffic (h.edges fromEdge).Metadata (h.edges toEdge).Metadata }

/-- Lines 163-169: the first edge of the list with the given destination ID and protocol. -/
def findServiceEdge (h : Heap) (childID : String) (proto : Option Value) : List Nat → Option Nat
  | [] => none
  | e :: es =>
    if childID = (h.nodes (h.edges e).Dest).ID ∧ proto = (h.edges e).Metadata ProtocolKey
    then some e
    else findServiceEdge h childID proto es

/-- Lines 157-174: one second-hop edge `serviceEdge` folded into service node `n`. -/
def reduceServiceEdge (G : GraphLib) (n : Nat) (h : Heap) (serviceEdge : Nat) : Heap :=
  if (h.nodes (h.edges serviceEdge).Dest).NodeType ≠ NodeTypeService then h
  else
    match findServiceEdge h (h.nodes (h.edges serviceEdge).Dest).ID
        ((h.edges serviceEdge).Metadata ProtocolKey) (h.nodes n).Edges with
    | none => h.setNode n ((h.nodes n).withEdges ((h.nodes n).Edges ++ [serviceEdge]))
    | some edge => addServiceGraphTraffic G h edge serviceEdge

/-- Lines 154-175: one direct edge `workloadEdge` of service node `n`. -/
def reduceWorkloadEdge (G : GraphLib) (n : Nat) (h : Heap) (workloadEdge : Nat) :
    Except Panic Heap :=
  match checkNodeType NodeTypeWorkload (h.nodes (h.edges workloadEdge).Dest) with
  | Except.error e => Except.error e
  | Except.ok _ =>
    Except.ok ((h.nodes (h.edges workloadEdge).Dest).Edges.foldl (reduceServiceEdge G n) h)

/-- Lines 153-176: the loop over the direct edges of service node `n`. -/
def reduceWorkloadEdges (G : GraphLib) (n : Nat) : Heap → List Nat → Except Panic Heap
  | h, [] => Except.ok h
  | h, we :: rest =>
    match reduceWorkloadEdge G n h we with
    | Except.error e => Except.error e
    | Except.ok h' => reduceWorkloadEdges G n h' rest

/-- Lines 135-143: the edges of a root node whose destination is a service node. -/
def serviceEdges (h : Heap) (edges : List Nat) : List Nat :=
  edges.filter (fun e => decide ((h.nodes (h.edges e).Dest).NodeType = NodeTypeService))

/-- Lines 127-177: one entry `(id, n)` of the input map. -/
def reduceNode (G : GraphLib) (st : Heap × TrafficMap) (entry : String × Nat) :
    Except Panic (Heap × TrafficMap) :=
  if (st.1.nodes entry.2).NodeType ≠ NodeTypeService then
    match (st.1.nodes entry.2).Metadata IsRoot with
    | none => Except.ok st
    | some (Value.bool false) => Except.ok st
    | some (Value.bool true) =>
      Except.ok
        (st.1.setNode entry.2
            ((st.1.nodes entry.2).withEdges (serviceEdges st.1 (st.1.nodes entry.2).Edges)),
          st.2.set entry.1 entry.2)
    | some _ => Except.error Panic.typeAssertion
  else
    match reduceWorkloadEdges G entry.2
        (st.1.setNode entry.2 ((st.1.nodes entry.2).withEdges []))
        (st.1.nodes entry.2).Edges with
    | Except.error e => Except.error e
    | Except.ok h' => Except.ok (h', st.2.set entry.1 entry.2)

/-- The loop of `ReduceToServiceGraph` from a given state. -/
def reduceLoop (G : GraphLib) : Heap × TrafficMap → TrafficMap → Except Panic (Heap × TrafficMap)
  | st, [] => Except.ok st
  | st, entry :: rest =>
    match reduceNode G st entry with
    | Except.error e => Except.error e
    | Except.ok st' => reduceLoop G st' rest

/-- `ReduceToServiceGraph(trafficMap)`: the heap after the call and the returned map. -/
def ReduceToServiceGraph (G : GraphLib) (h : Heap) (trafficMap : TrafficMap) :
    Except Panic (Heap × TrafficMap) :=
  reduceLoop G (h, NewTrafficMap) trafficMap

/-! ## Builders for concrete graphs -/

/-- Store in which every node and edge is blank. -/
def Heap.blank : Heap :=
  { nodes := fun _ => ⟨"", "", "", "", [], Metadata.empty⟩
    edges := fun _ => ⟨0, Metadata.empty⟩ }

/-- Edge metadata with a protocol and a request counter under the protocol name. -/
def protoMeta (proto : String) (count : Nat) : Metadata :=
  (Metadata.empty.set ProtocolKey (Value.str proto)).set proto (Value.num count)

/-- Build a store from a list of nodes and a list of edges, each with its address. -/
def mkHeap (ns : List (Nat × Node)) (es : List (Nat × Edge)) : Heap :=
  es.foldl (fun h e => h.setEdge e.1 e.2) (ns.foldl (fun h n => h.setNode n.1 n.2) Heap.blank)

/-! ## Predicates and frames used in the statements -/

/-! ### Reduction -/

/-- What a run of the reduction on service node `n` leaves alone: every attribute of
every node except the edge lists, the edge list of every node other than `n`, and every
edge destination. -/
structure ReduceFrame (n : Nat) (h h' : Heap) : Prop where
  id : ∀ q, (h'.nodes q).ID = (h.nodes q).ID
  nodeType : ∀ q, (h'.nodes q).NodeType = (h.nodes q).NodeType
  namespace_ : ∀ q, (h'.nodes q).Namespace = (h.nodes q).Namespace
  service : ∀ q, (h'.nodes q).Service = (h.nodes q).Service
  metadata : ∀ q, (h'.nodes q).Metadata = (h.nodes q).Metadata
  edgesOther : ∀ q, q ≠ n → (h'.nodes q).Edges = (h.nodes q).Edges
  dest : ∀ e, (h'.edges e).Dest = (h.edges e).Dest

/-- The destination of a direct edge is not a workload node: `checkNodeType` aborts. -/
def badDest (h : Heap) (we : Nat) : Prop :=
  (h.nodes (h.edges we).Dest).NodeType ≠ NodeTypeWorkload

/-- A service node one of whose direct edges leads to a node that is not a workload. -/
def badService (h : Heap) (p : Nat) : Prop :=
  (h.nodes p).NodeType = NodeTypeService ∧ ∃ e ∈ (h.nodes p).Edges, badDest h e

/-- The `IsRoot` entry of a node that is not a service node is absent or a boolean, so the
type assertion of line 130 succeeds. -/
def rootFlagBool (h : Heap) (p : Nat) : Prop :=
  (h.nodes p).NodeType ≠ NodeTypeService →
    (h.nodes p).Metadata IsRoot = none ∨ ∃ b, (h.nodes p).Metadata IsRoot = some (Value.bool b)

/-- The node is kept by the reduction: a service node, or a node flagged `IsRoot = true`. -/
def keptByReduce (h : Heap) (p : Nat) : Bool :=
  decide ((h.nodes p).NodeType = NodeTypeService) ||
    decide ((h.nodes p).Metadata IsRoot = some (Value.bool true))

/-- Every attribute of every node except the edge lists, and every edge destination, agree
in the two stores. -/
structure SameAttrs (h h' : Heap) : Prop where
  id : ∀ q, (h'.nodes q).ID = (h.nodes q).ID
  nodeType : ∀ q, (h'.nodes q).NodeType = (h.nodes q).NodeType
  metadata : ∀ q, (h'.nodes q).Metadata = (h.nodes q).Metadata
  dest : ∀ e, (h'.edges e).Dest = (h.edges e).Dest

/-- Assignment of every entry of `l`, in order. -/
def TrafficMap.setAll (acc l : TrafficMap) : TrafficMap :=
  l.foldl (fun a e => a.set e.1 e.2) acc

/-! ### Merge -/

/-- The key `(Dest.ID, protocol)` under which line 33 compares edges. -/
def edgeKey (h : Heap) (e : Nat) : String × Option Value :=
  ((h.nodes (h.edges e).Dest).ID, (h.edges e).Metadata ProtocolKey)

/-- The edges of the node at `p` have pairwise distinct keys. -/
def noDupEdges (h : Heap) (p : Nat) : Prop :=
  ((h.nodes p).Edges.map (edgeKey h)).Nodup

instance (h : Heap) (p : Nat) : Decidable (noDupEdges h p) := by
  unfold noDupEdges
  exact inferInstance

/-- What merging into the resident `node` leaves alone. -/
structure MergeFrame (node : Nat) (h h' : Heap) : Prop where
  edges : h'.edges = h.edges
  id : ∀ q, (h'.nodes q).ID = (h.nodes q).ID
  namespace_ : ∀ q, (h'.nodes q).Namespace = (h.nodes q).Namespace
  other : ∀ q, q ≠ node → h'.nodes q = h.nodes q

/-- The donor edges that the edge loop of lines 30-43 appends to a resident whose edge list is
`resident`: those whose key occurs neither in `resident` nor among the donor edges appended
before. -/
def newEdges (h : Heap) : List Nat → List Nat → List Nat
  | _, [] => []
  | resident, e :: rest =>
    if resident.any (fun x => sameEdgeKey h e x) then newEdges h resident rest
    else e :: newEdges h (resident ++ [e]) rest

/-- The metadata of the resident after `graph.AddOutgoingEdgeToMetadata` has been called for
each appended edge. -/
def addOutgoing (G : GraphLib) (h : Heap) (m : Metadata) (added : List Nat) : Metadata :=
  added.foldl (fun acc e => G.AddOutgoingEdgeToMetadata acc (h.edges e).Metadata) m

/-- Every key of the map is the ID of the node stored under it. -/
def keyedByID (h : Heap) (m : TrafficMap) : Prop :=
  ∀ e ∈ m, (h.nodes e.2).ID = e.1

instance (h : Heap) (m : TrafficMap) : Decidable (keyedByID h m) := by
  unfold keyedByID
  exact inferInstance

/-- What one entry of the merged-in map leaves alone when keys are node IDs. -/
structure MergeStep (k : String) (st st' : Heap × TrafficMap) : Prop where
  edges : st'.1.edges = st.1.edges
  id : ∀ q, (st'.1.nodes q).ID = (st.1.nodes q).ID
  namespace_ : ∀ q, (st'.1.nodes q).Namespace = (st.1.nodes q).Namespace
  other : ∀ q, (st.1.nodes q).ID ≠ k → st'.1.nodes q = st.1.nodes q
  keyed : keyedByID st'.1 st'.2

/-- What a run of the merge loop over `l` leaves alone when keys are node IDs. -/
structure MergeRun (l : TrafficMap) (st st' : Heap × TrafficMap) : Prop where
  edges : st'.1.edges = st.1.edges
  id : ∀ q, (st'.1.nodes q).ID = (st.1.nodes q).ID
  namespace_ : ∀ q, (st'.1.nodes q).Namespace = (st.1.nodes q).Namespace
  other : ∀ q, (st.1.nodes q).ID ∉ l.keys → st'.1.nodes q = st.1.nodes q
  keyed : keyedByID st'.1 st'.2

/-! ### Classification and traffic generators -/

/-- The nodes flagged inaccessible by the `switch` itself: a node of unknown type, a service
node with unknown namespace and unknown service, a service node flagged as egress cluster. -/
def alwaysInaccessible (n : Node) : Prop :=
  n.NodeType = NodeTypeUnknown ∨
    (n.NodeType = NodeTypeService ∧ n.Namespace = Unknown ∧ n.Service = Unknown) ∨
    (n.NodeType = NodeTypeService ∧ n.Metadata IsEgressCluster = some (Value.bool true))

instance (n : Node) : Decidable (alwaysInaccessible n) := by
  unfold alwaysInaccessible
  exact inferInstance

/-- The entry under `k` is absent or a boolean. -/
def boolOrAbsent (m : Metadata) (k : String) : Prop :=
  m k = none ∨ ∃ b, m k = some (Value.bool b)

/-- Facts about one pass of the loop body over a node value. -/
structure MarkedNode (o : TelemetryOptions) (n n' : Node) : Prop where
  id : n'.ID = n.ID
  nodeType : n'.NodeType = n.NodeType
  namespace_ : n'.Namespace = n.Namespace
  service : n'.Service = n.Service
  edges : n'.Edges = n.Edges
  metadata : ∀ k, k ≠ IsOutside → k ≠ IsInaccessible → n'.Metadata k = n.Metadata k
  inaccessibleKept : n.Metadata IsInaccessible = some (Value.bool true) →
    n'.Metadata IsInaccessible = some (Value.bool true)
  inaccessibleSet : alwaysInaccessible n → n'.Metadata IsInaccessible = some (Value.bool true)
  outside : n'.Metadata IsOutside =
    if ¬ alwaysInaccessible n ∧ isOutside n o.Namespaces = true then some (Value.bool true)
    else n.Metadata IsOutside

/-- The `IsOutside` flag of a node outside the always-inaccessible class says whether the
node is outside, once the node has been visited. -/
def outsideDecided (o : TelemetryOptions) (n : Node) : Prop :=
  n.Metadata IsOutside = some (Value.bool true) ↔
    (n.Namespace ≠ Unknown ∧ ∀ x ∈ o.Namespaces, x.2.Name ≠ n.Namespace)

/-- The node is marked by lines 111-116: it has an edge and its ID is not in `destMap`. -/
def isGenerator (destMap : TrafficMap) (n : Node) : Prop :=
  n.Edges ≠ [] ∧ destMap.get n.ID = none

/-- What the second loop leaves alone, and the `IsRoot` entry it produces. -/
structure GeneratorsMarked (destMap : TrafficMap) (l : TrafficMap) (h h' : Heap) : Prop where
  edgeStore : h'.edges = h.edges
  id : ∀ q, (h'.nodes q).ID = (h.nodes q).ID
  nodeType : ∀ q, (h'.nodes q).NodeType = (h.nodes q).NodeType
  namespace_ : ∀ q, (h'.nodes q).Namespace = (h.nodes q).Namespace
  service : ∀ q, (h'.nodes q).Service = (h.nodes q).Service
  edges : ∀ q, (h'.nodes q).Edges = (h.nodes q).Edges
  metadata : ∀ q k, k ≠ IsRoot → (h'.nodes q).Metadata k = (h.nodes q).Metadata k
  unmarked : ∀ q, ¬ (q ∈ l.map Prod.snd ∧ isGenerator destMap (h.nodes q)) → h'.nodes q = h.nodes q
  marked : ∀ q, q ∈ l.map Prod.snd → isGenerator destMap (h.nodes q) →
    (h'.nodes q).Metadata IsRoot = some (Value.bool true)

/-! ## Concrete graphs used as examples -/

/-- Node value with empty metadata; the service name is the ID. -/
def mkNode (id ty ns : String) (es : List Nat) : Node :=
  ⟨id, ty, ns, id, es, Metadata.empty⟩

/-- Two service nodes, the first with a direct edge to the second. -/
def serviceOnlyHeap : Heap :=
  mkHeap [(0, mkNode "S1" "service" "ns1" [0]), (1, mkNode "S2" "service" "ns1" [])]
    [(0, ⟨1, protoMeta "http" 5⟩)]

/-- Map of `serviceOnlyHeap`. -/
def serviceOnlyMap : TrafficMap := [("S1", 0), ("S2", 1)]

/-- Two service nodes without edges. -/
def isolatedHeap : Heap :=
  mkHeap [(0, mkNode "S1" "service" "ns1" []), (1, mkNode "S2" "service" "ns1" [])] []

/-- The two scopes of the merge example: the ns1 graph `unknown -> ns1:A -> ns2:B` at
addresses 0, 1, 2 and the ns2 graph `ns1:A -> ns2:B -> ns2:C` at addresses 3, 4, 5. -/
def mergeHeap : Heap :=
  mkHeap
    [(0, mkNode "unknown" "unknown" "unknown" [0]), (1, mkNode "A" "workload" "ns1" [1]),
      (2, mkNode "B" "workload" "ns2" []), (3, mkNode "A" "workload" "ns1" [2]),
      (4, mkNode "B" "workload" "ns2" [3]), (5, mkNode "C" "workload" "ns2" [])]
    [(0, ⟨1, protoMeta "http" 1⟩), (1, ⟨2, protoMeta "http" 2⟩), (2, ⟨4, protoMeta "http" 2⟩),
      (3, ⟨5, protoMeta "http" 3⟩)]

/-- The ns1 map of the merge example. -/
def ns1Map : TrafficMap := [("unknown", 0), ("A", 1), ("B", 2)]

/-- The ns2 map of the merge example. -/
def ns2Map : TrafficMap := [("A", 3), ("B", 4), ("C", 5)]

/-- Resident `B` (address 0) with one tcp edge to `D`, incoming `B` (address 1) of scope ns2
with one http edge to `C`. -/
def ownedDupHeap : Heap :=
  mkHeap
    [(0, mkNode "B" "workload" "ns2" [0]), (1, mkNode "B" "workload" "ns2" [1]),
      (2, mkNode "D" "workload" "ns3" []), (3, mkNode "C" "workload" "ns2" [])]
    [(0, ⟨2, protoMeta "tcp" 7⟩), (1, ⟨3, protoMeta "http" 3⟩)]

/-- The heap after a completed reduction, the input heap after an aborted one. -/
def reducedHeap (G : GraphLib) (h : Heap) (tm : TrafficMap) : Heap :=
  match ReduceToServiceGraph G h tm with
  | Except.ok r => r.1
  | Except.error _ => h

/-- The map returned by a completed reduction, the empty map after an aborted one. -/
def reducedMap (G : GraphLib) (h : Heap) (tm : TrafficMap) : TrafficMap :=
  match ReduceToServiceGraph G h tm with
  | Except.ok r => r.2
  | Except.error _ => []

/-- Metadata of a node flagged `IsRoot = true`. -/
def rootMeta : Metadata := Metadata.empty.set IsRoot (Value.bool true)

/-- Workload graph with injected service nodes: services `S1` (address 0), `S2` (3), `S3` (4),
workloads `W1` (1), `W2` (2) and the root workload `R` (5).  Direct edges `S1 -> W1` (edge 0),
`S1 -> W2` (1), `S3 -> W1` (4); second-hop edges `W1 -> S2` (edge 2, 5 http requests) and
`W2 -> S2` (edge 3, 7 http requests); `R -> S1` (edge 5) and `R -> W1` (edge 6). -/
def reduceHeap : Heap :=
  mkHeap
    [(0, mkNode "S1" "service" "ns1" [0, 1]), (1, mkNode "W1" "workload" "ns1" [2]),
      (2, mkNode "W2" "workload" "ns1" [3]), (3, mkNode "S2" "service" "ns1" []),
      (4, mkNode "S3" "service" "ns1" [4]),
      (5, ⟨"R", "workload", "ns1", "R", [5, 6], rootMeta⟩)]
    [(0, ⟨1, protoMeta "http" 9⟩), (1, ⟨2, protoMeta "http" 7⟩), (2, ⟨3, protoMeta "http" 5⟩),
      (3, ⟨3, protoMeta "http" 7⟩), (4, ⟨1, protoMeta "http" 4⟩), (5, ⟨0, protoMeta "http" 1⟩),
      (6, ⟨1, protoMeta "http" 1⟩)]

/-- Map of `reduceHeap`. -/
def reduceMap : TrafficMap :=
  [("S1", 0), ("W1", 1), ("W2", 2), ("S2", 3), ("S3", 4), ("R", 5)]

instance (h : Heap) (we : Nat) : Decidable (badDest h we) := by
  unfold badDest
  exact inferInstance

instance (h : Heap) (p : Nat) : Decidable (badService h p) := by
  unfold badService
  exact inferInstance

instance (m : Metadata) (k : String) : Decidable (boolOrAbsent m k) :=
  match hv : m k with
  | none => isTrue (Or.inl hv)
  | some (Value.bool b) => isTrue (Or.inr ⟨b, hv⟩)
  | some (Value.str s) => isFalse (by
      rintro (h0 | ⟨b, hb⟩)
      · rw [hv] at h0; cases h0
      · rw [hv] at hb; cases hb)
  | some (Value.num n) => isFalse (by
      rintro (h0 | ⟨b, hb⟩)
      · rw [hv] at h0; cases h0
      · rw [hv] at hb; cases hb)

instance (h : Heap) (p : Nat) : Decidable (rootFlagBool h p) := by
  unfold rootFlagBool
  exact inferInstanceAs (Decidable (_ → boolOrAbsent _ _))

/-- The heap after a completed classification, the input heap after an aborted one. -/
def markedHeap (h : Heap) (tm : TrafficMap) (o : TelemetryOptions) : Heap :=
  match MarkOutsideOrInaccessible h tm o with
  | Except.ok h' => h'
  | Except.error _ => h

/-- Nodes to classify: the unknown node (address 0), the service with unknown namespace and
service (1), an egress-cluster service (2), a workload of the requested namespace ns1 (3), a
workload of the accessible namespace ns2 (4) and a workload of the namespace ns9 (5). -/
def classifyHeap : Heap :=
  mkHeap
    [(0, ⟨"unknown", "unknown", "unknown", "", [], Metadata.empty⟩),
      (1, ⟨"svc-unknown", "service", "unknown", "unknown", [], Metadata.empty⟩),
      (2, ⟨"egress", "service", "ns1", "egress", [],
        Metadata.empty.set IsEgressCluster (Value.bool true)⟩),
      (3, mkNode "w1" "workload" "ns1" []), (4, mkNode "w2" "workload" "ns2" []),
      (5, mkNode "w9" "workload" "ns9" [])]
    []

/-- Map of `classifyHeap`. -/
def classifyMap : TrafficMap :=
  [("unknown", 0), ("svc-unknown", 1), ("egress", 2), ("w1", 3), ("w2", 4), ("w9", 5)]

/-- Options requesting namespace ns1, with ns1 and ns2 accessible. -/
def classifyOptions : TelemetryOptions :=
  { Namespaces := [("ns1", ⟨"ns1"⟩)]
    AccessibleNamespaces := [("ns1", 0), ("ns2", 0)] }

/-- The chain `A -> B -> C` of workloads at addresses 0, 1, 2. -/
def chainHeap : Heap :=
  mkHeap
    [(0, mkNode "A" "workload" "ns1" [0]), (1, mkNode "B" "workload" "ns1" [1]),
      (2, mkNode "C" "workload" "ns1" [])]
    [(0, ⟨1, protoMeta "http" 1⟩), (1, ⟨2, protoMeta "http" 1⟩)]

/-- Map of `chainHeap`. -/
def chainMap : TrafficMap := [("A", 0), ("B", 1), ("C", 2)]

/-! ## Invariants of the reduction loop -/

/-- The second-hop edges reached through the direct edges `l`, in the order of lines 153-156:
for each direct edge the edges of its destination that lead to a service node. -/
def twoHopFrom (h : Heap) : List Nat → List Nat
  | [] => []
  | we :: rest => serviceEdges h (h.nodes (h.edges we).Dest).Edges ++ twoHopFrom h rest

/-- The second-hop edges of all two-hop paths `p -> W -> D` with `D` a service node. -/
def twoHopEdges (h : Heap) (p : Nat) : List Nat :=
  twoHopFrom h (h.nodes p).Edges

/-- Node types and edge destinations agree in the two stores, so the service filter and the
check of `checkNodeType` agree too. -/
structure DestStable (h h' : Heap) : Prop where
  nodeType : ∀ q, (h'.nodes q).NodeType = (h.nodes q).NodeType
  dest : ∀ e, (h'.edges e).Dest = (h.edges e).Dest

/-- The edge list `es` of service node `p` after its visit: the direct edges of the input all
lead to workloads, and `es` consists of second-hop edges of the input. -/
structure ServiceReduced (h : Heap) (p : Nat) (es : List Nat) : Prop where
  directOK : ∀ e ∈ (h.nodes p).Edges, ¬ badDest h e
  sub : ∀ e ∈ es, e ∈ twoHopEdges h p

/-- Invariant of the loop of `ReduceToServiceGraph` between the input store `h` and the
current store `hc`. -/
structure ReduceInv (h hc : Heap) : Prop where
  attrs : SameAttrs h hc
  nonService : ∀ q, (h.nodes q).NodeType ≠ NodeTypeService →
    (hc.nodes q).Edges = (h.nodes q).Edges ∨
      (hc.nodes q).Edges = serviceEdges h (h.nodes q).Edges
  service : ∀ q, (h.nodes q).NodeType = NodeTypeService →
    (hc.nodes q).Edges = (h.nodes q).Edges ∨ ServiceReduced h q (hc.nodes q).Edges

/-- What folding the second-hop edges `ws` into node `n` does to the edge list of `n`. -/
structure Folded (h : Heap) (n : Nat) (ws : List Nat) (h' : Heap) : Prop where
  frame : ReduceFrame n h h'
  keep : ∀ e ∈ (h.nodes n).Edges, e ∈ (h'.nodes n).Edges
  new : ∀ e ∈ (h'.nodes n).Edges, e ∈ (h.nodes n).Edges ∨ e ∈ serviceEdges h ws

/-- What processing the direct edges `l` of service node `n` does to the edge list of `n`. -/
structure Hopped (hs : Heap) (n : Nat) (l : List Nat) (h2 : Heap) : Prop where
  frame : ReduceFrame n hs h2
  good : ∀ we ∈ l, ¬ badDest hs we
  keep : ∀ e ∈ (hs.nodes n).Edges, e ∈ (h2.nodes n).Edges
  new : ∀ e ∈ (h2.nodes n).Edges, e ∈ (hs.nodes n).Edges ∨ e ∈ twoHopFrom hs l

/-- What a completed run of the loop over `tm` establishes. -/
structure Reduced (h : Heap) (tm : TrafficMap) (hc hc' : Heap) : Prop where
  inv : ReduceInv h hc'
  service : ∀ e ∈ tm, (h.nodes e.2).NodeType = NodeTypeService →
    ServiceReduced h e.2 (hc'.nodes e.2).Edges
  root : ∀ e ∈ tm, (h.nodes e.2).NodeType ≠ NodeTypeService →
    (h.nodes e.2).Metadata IsRoot = some (Value.bool true) →
    (hc'.nodes e.2).Edges = serviceEdges h (h.nodes e.2).Edges
  serviceKept : ∀ q, (h.nodes q).NodeType = NodeTypeService →
    ServiceReduced h q (hc.nodes q).Edges → ServiceReduced h q (hc'.nodes q).Edges
  rootKept : ∀ q, (h.nodes q).NodeType ≠ NodeTypeService →
    (hc.nodes q).Edges = serviceEdges h (h.nodes q).Edges →
    (hc'.nodes q).Edges = serviceEdges h (h.nodes q).Edges

/-- The start of the visit of a service node `p`: what the completion of the loop over its
direct edges says about the input store. -/
structure ServiceVisit (h : Heap) (p : Nat) (hc h2 : Heap) : Prop where
  hop : Hopped (hc.setNode p ((hc.nodes p).withEdges [])) p (hc.nodes p).Edges h2
  good : ∀ we ∈ (hc.nodes p).Edges, ¬ badDest h we
  twoHop : twoHopFrom (hc.setNode p ((hc.nodes p).withEdges [])) (hc.nodes p).Edges =
    twoHopFrom h (hc.nodes p).Edges
  reduced : ServiceReduced h p (h2.nodes p).Edges
  empty : ServiceReduced h p (hc.nodes p).Edges → (hc.nodes p).Edges = []

/-! ### Edge keys of the rebuilt service nodes -/

/-- `graph.AggregateEdgeTraffic` leaves the protocol identifier of the target edge as it
is. -/
def KeepsProtocol (G : GraphLib) : Prop :=
  ∀ fromMeta toMeta, G.AggregateEdgeTraffic fromMeta toMeta ProtocolKey = toMeta ProtocolKey

/-- Node identities, edge destinations and edge protocols agree in the two stores, so edge
keys agree too. -/
structure KeysStable (h h' : Heap) : Prop where
  id : ∀ q, (h'.nodes q).ID = (h.nodes q).ID
  dest : ∀ e, (h'.edges e).Dest = (h.edges e).Dest
  proto : ∀ e, (h'.edges e).Metadata ProtocolKey = (h.edges e).Metadata ProtocolKey

/-- The keys of the edge list `es` of service node `p` after its visit: pairwise distinct,
and every key of a second-hop edge of the input is among them. -/
structure ServiceKeys (h : Heap) (p : Nat) (es : List Nat) : Prop where
  nodup : (es.map (edgeKey h)).Nodup
  keys : ∀ e ∈ twoHopEdges h p, edgeKey h e ∈ es.map (edgeKey h)

/-- What folding the second-hop edges `ws` into node `n` does to the keys of `n`. -/
structure FoldedKeys (h : Heap) (n : Nat) (ws : List Nat) (h' : Heap) : Prop where
  stable : KeysStable h h'
  covers : ∀ e ∈ serviceEdges h ws, edgeKey h e ∈ (h'.nodes n).Edges.map (edgeKey h)
  nodup : ((h.nodes n).Edges.map (edgeKey h)).Nodup →
    ((h'.nodes n).Edges.map (edgeKey h)).Nodup

/-- What processing the direct edges `l` of service node `n` does to the keys of `n`. -/
structure HoppedKeys (hs : Heap) (n : Nat) (l : List Nat) (h2 : Heap) : Prop where
  stable : KeysStable hs h2
  covers : ∀ e ∈ twoHopFrom hs l, edgeKey hs e ∈ (h2.nodes n).Edges.map (edgeKey hs)
  nodup : ((hs.nodes n).Edges.map (edgeKey hs)).Nodup →
    ((h2.nodes n).Edges.map (edgeKey hs)).Nodup

/-- Invariant of the loop of `ReduceToServiceGraph` on edge keys. -/
structure ReduceKeysInv (h hc : Heap) : Prop where
  proto : ∀ e, (hc.edges e).Metadata ProtocolKey = (h.edges e).Metadata ProtocolKey
  service : ∀ q, (h.nodes q).NodeType = NodeTypeService →
    (hc.nodes q).Edges = (h.nodes q).Edges ∨ ServiceKeys h q (hc.nodes q).Edges

/-- What a completed run of the loop over `tm` establishes on edge keys. -/
structure ReducedKeys (h : Heap) (tm : TrafficMap) (hc hc' : Heap) : Prop where
  inv : ReduceKeysInv h hc'
  service : ∀ e ∈ tm, (h.nodes e.2).NodeType = NodeTypeService →
    ServiceKeys h e.2 (hc'.nodes e.2).Edges
  serviceKept : ∀ q, (h.nodes q).NodeType = NodeTypeService →
    ServiceKeys h q (hc.nodes q).Edges → ServiceKeys h q (hc'.nodes q).Edges

/-! ## Further examples, edge keys of a node, and the edge relation -/

/-- Root workload `R` (address 0) whose only edge leads to the workload `W` (address 1). -/
def rootOnlyHeap : Heap :=
  mkHeap
    [(0, ⟨"R", "workload", "ns1", "R", [0], rootMeta⟩), (1, mkNode "W" "workload" "ns1" [])]
    [(0, ⟨1, protoMeta "http" 3⟩)]

/-- Map of `rootOnlyHeap`. -/
def rootOnlyMap : TrafficMap := [("R", 0), ("W", 1)]

/-- A workload of the requested namespace ns1 that carries a stale `IsOutside = true`, and a
workload of the accessible namespace ns2 that carries a stale `IsInaccessible = true`. -/
def staleHeap : Heap :=
  mkHeap
    [(0, ⟨"w1", "workload", "ns1", "w1", [], Metadata.empty.set IsOutside (Value.bool true)⟩),
      (1, ⟨"w2", "workload", "ns2", "w2", [],
        Metadata.empty.set IsInaccessible (Value.bool true)⟩)]
    []

/-- Map of `staleHeap`. -/
def staleMap : TrafficMap := [("w1", 0), ("w2", 1)]

/-- The `(Dest.ID, protocol)` keys of the edges of the node at `q`. -/
def keysOf (h : Heap) (q : Nat) : List (String × Option Value) :=
  (h.nodes q).Edges.map (edgeKey h)

/-- Third scope for the merge example: the ns3 graph `ns2:B -> ns3:D` at addresses 6, 7. -/
def mergeHeap3 : Heap :=
  ((mergeHeap.setNode 6 (mkNode "B" "workload" "ns2" [4])).setNode 7
      (mkNode "D" "workload" "ns3" [])).setEdge 4 ⟨7, protoMeta "tcp" 9⟩

/-- The ns3 map of the merge example. -/
def ns3Map : TrafficMap := [("B", 6), ("D", 7)]

/-- The edge relation of a map on node IDs: `a -> b` when a node of the map with ID `a` has
an edge whose destination has ID `b`. -/
def edgeRel (h : Heap) (tm : TrafficMap) (a b : String) : Prop :=
  ∃ x ∈ tm, (h.nodes x.2).ID = a ∧ ∃ e ∈ (h.nodes x.2).Edges, (h.nodes (h.edges e).Dest).ID = b

/-- The edge relation of the map contains no cycle. -/
def acyclic (h : Heap) (tm : TrafficMap) : Prop :=
  ∀ a, ¬ Relation.TransGen (edgeRel h tm) a a

/-- The cycle `A -> B -> A` of workloads at addresses 0, 1. -/
def cycleHeap : Heap :=
  mkHeap [(0, mkNode "A" "workload" "ns1" [0]), (1, mkNode "B" "workload" "ns1" [1])]
    [(0, ⟨1, protoMeta "http" 1⟩), (1, ⟨0, protoMeta "http" 1⟩)]

/-- Map of `cycleHeap`. -/
def cycleMap : TrafficMap := [("A", 0), ("B", 1)]

/-- Position of an ID in the chain `A -> B -> C`. -/
def chainRank (s : String) : Nat :=
  if s = "A" then 0 else if s = "B" then 1 else 2

/-! # Theorems -/

/-! ## Maps: lookup and assignment -/

theorem TrafficMap.get_set_same (m : TrafficMap) (k : String) (p : Nat) :
    (m.set k p).get k = some p := by
  induction m with
  | nil => simp [TrafficMap.set, TrafficMap.get]
  | cons a rest ih =>
    obtain ⟨k', p'⟩ := a
    by_cases hk : k' = k
    · simp [TrafficMap.set, TrafficMap.get, hk]
    · simp [TrafficMap.set, TrafficMap.get, hk, ih]

theorem TrafficMap.get_set_other (m : TrafficMap) (k k2 : String) (p : Nat) (hne : k2 ≠ k) :
    (m.set k p).get k2 = m.get k2 := by
  induction m with
  | nil =>
    have : k ≠ k2 := fun h => hne h.symm
    simp [TrafficMap.set, TrafficMap.get, this]
  | cons a rest ih =>
    obtain ⟨k', p'⟩ := a
    by_cases hk : k' = k
    · subst hk
      have : k' ≠ k2 := fun h => hne h.symm
      simp [TrafficMap.set, TrafficMap.get, this]
    · by_cases hk2 : k' = k2
      · subst hk2
        simp [TrafficMap.set, TrafficMap.get, hk]
      · simp [TrafficMap.set, TrafficMap.get, hk, hk2, ih]

theorem TrafficMap.get_eq_none_iff (m : TrafficMap) (k : String) :
    m.get k = none ↔ k ∉ m.keys := by
  induction m with
  | nil => simp [TrafficMap.get, TrafficMap.keys]
  | cons a rest ih =>
    obtain ⟨k', p'⟩ := a
    by_cases hk : k' = k
    · simp [TrafficMap.get, TrafficMap.keys, hk]
    · have hk' : ¬ k = k' := fun h => hk h.symm
      simp only [TrafficMap.keys] at ih
      simp [TrafficMap.get, TrafficMap.keys, hk, hk', ih]

theorem TrafficMap.get_isSome_iff (m : TrafficMap) (k : String) :
    (∃ p, m.get k = some p) ↔ k ∈ m.keys := by
  rw [← not_iff_not, ← TrafficMap.get_eq_none_iff]
  cases m.get k <;> simp

theorem TrafficMap.mem_keys_set (m : TrafficMap) (k k2 : String) (p : Nat) :
    k2 ∈ (m.set k p).keys ↔ k2 = k ∨ k2 ∈ m.keys := by
  rw [← TrafficMap.get_isSome_iff, ← TrafficMap.get_isSome_iff]
  by_cases h : k2 = k
  · subst h
    simp [TrafficMap.get_set_same]
  · simp [TrafficMap.get_set_other _ _ _ _ h, h]

theorem TrafficMap.get_of_mem (m : TrafficMap) (hnd : m.keys.Nodup) (k : String) (p : Nat)
    (hmem : (k, p) ∈ m) : m.get k = some p := by
  induction m with
  | nil => simp at hmem
  | cons a rest ih =>
    obtain ⟨k', p'⟩ := a
    simp only [TrafficMap.keys, List.map_cons, List.nodup_cons] at hnd
    rcases List.mem_cons.mp hmem with heq | hin
    · cases heq
      simp [TrafficMap.get]
    · have hne : k' ≠ k := by
        intro h
        subst h
        exact hnd.1 (List.mem_map.mpr ⟨(k', p), hin, rfl⟩)
      simp only [TrafficMap.get, hne, if_false]
      exact ih hnd.2 hin

theorem TrafficMap.mem_of_get (m : TrafficMap) (k : String) (p : Nat)
    (hget : m.get k = some p) : (k, p) ∈ m := by
  induction m with
  | nil => simp [TrafficMap.get] at hget
  | cons a rest ih =>
    obtain ⟨k', p'⟩ := a
    by_cases hk : k' = k
    · simp [TrafficMap.get, hk] at hget
      simp [hk, hget]
    · simp only [TrafficMap.get, hk, if_false] at hget
      exact List.mem_cons_of_mem _ (ih hget)

theorem TrafficMap.set_of_not_mem (m : TrafficMap) (k : String) (p : Nat) (hk : k ∉ m.keys) :
    m.set k p = m ++ [(k, p)] := by
  induction m with
  | nil => simp [TrafficMap.set]
  | cons a rest ih =>
    obtain ⟨k', p'⟩ := a
    simp only [TrafficMap.keys, List.map_cons, List.mem_cons, not_or] at hk
    have hne : k' ≠ k := fun h => hk.1 h.symm
    simp only [TrafficMap.set, hne, if_false, List.cons_append]
    rw [ih hk.2]

theorem TrafficMap.length_set_of_mem (m : TrafficMap) (k : String) (p : Nat) (hk : k ∈ m.keys) :
    (m.set k p).length = m.length := by
  induction m with
  | nil => simp [TrafficMap.keys] at hk
  | cons a rest ih =>
    obtain ⟨k', p'⟩ := a
    by_cases hne : k' = k
    · simp [TrafficMap.set, hne]
    · simp only [TrafficMap.keys, List.map_cons, List.mem_cons] at hk
      have hk2 : k ∈ TrafficMap.keys rest := by
        rcases hk with h | h
        · exact absurd h.symm hne
        · exact h
      simp [TrafficMap.set, hne, ih hk2]

theorem TrafficMap.mem_set (m : TrafficMap) (k : String) (p : Nat) (e : String × Nat)
    (he : e ∈ m.set k p) : e = (k, p) ∨ e ∈ m := by
  induction m with
  | nil => simp [TrafficMap.set] at he; exact Or.inl he
  | cons a rest ih =>
    obtain ⟨k', p'⟩ := a
    by_cases hne : k' = k
    · simp only [TrafficMap.set, hne, if_true, List.mem_cons] at he
      rcases he with h | h
      · exact Or.inl h
      · exact Or.inr (List.mem_cons_of_mem _ h)
    · simp only [TrafficMap.set, hne, if_false, List.mem_cons] at he
      rcases he with h | h
      · exact Or.inr (by simp [h])
      · rcases ih h with h2 | h2
        · exact Or.inl h2
        · exact Or.inr (List.mem_cons_of_mem _ h2)

/-! ## `ReduceToServiceGraph`: frame and abort conditions -/

theorem reduceFrame_refl (n : Nat) (h : Heap) : ReduceFrame n h h :=
  ⟨fun _ => rfl, fun _ => rfl, fun _ => rfl, fun _ => rfl, fun _ => rfl, fun _ _ => rfl,
    fun _ => rfl⟩

theorem reduceFrame_trans {n : Nat} {h1 h2 h3 : Heap} (a : ReduceFrame n h1 h2)
    (b : ReduceFrame n h2 h3) : ReduceFrame n h1 h3 :=
  ⟨fun q => (b.id q).trans (a.id q), fun q => (b.nodeType q).trans (a.nodeType q),
    fun q => (b.namespace_ q).trans (a.namespace_ q), fun q => (b.service q).trans (a.service q),
    fun q => (b.metadata q).trans (a.metadata q),
    fun q hq => (b.edgesOther q hq).trans (a.edgesOther q hq),
    fun e => (b.dest e).trans (a.dest e)⟩

theorem ReduceFrame.setEdges (n : Nat) (h : Heap) (es : List Nat) :
    ReduceFrame n h (h.setNode n ((h.nodes n).withEdges es)) := by
  refine ⟨?_, ?_, ?_, ?_, ?_, ?_, fun _ => rfl⟩
  all_goals intro q
  all_goals by_cases hq : q = n
  all_goals simp [Heap.setNode, Node.withEdges, hq]

theorem reduceServiceEdge_frame (G : GraphLib) (n : Nat) (h : Heap) (se : Nat) :
    ReduceFrame n h (reduceServiceEdge G n h se) := by
  unfold reduceServiceEdge
  split
  · exact reduceFrame_refl n h
  · split
    · exact ReduceFrame.setEdges n h _
    · refine ⟨fun _ => rfl, fun _ => rfl, fun _ => rfl, fun _ => rfl, fun _ => rfl,
        fun _ _ => rfl, ?_⟩
      intro e
      simp only [addServiceGraphTraffic, Heap.setEdge]
      split
      · next he => rw [he]
      · rfl

theorem reduceServiceEdges_frame (G : GraphLib) (n : Nat) (l : List Nat) (h : Heap) :
    ReduceFrame n h (l.foldl (reduceServiceEdge G n) h) := by
  induction l generalizing h with
  | nil => exact reduceFrame_refl n h
  | cons se rest ih =>
    exact reduceFrame_trans (reduceServiceEdge_frame G n h se) (ih _)

theorem badDest_frame {n : Nat} {h h' : Heap} (f : ReduceFrame n h h') (we : Nat) :
    badDest h' we ↔ badDest h we := by
  unfold badDest
  rw [f.dest, f.nodeType]

theorem reduceWorkloadEdge_bad (G : GraphLib) (n : Nat) (h : Heap) (we : Nat)
    (hb : badDest h we) : reduceWorkloadEdge G n h we = Except.error Panic.graphError := by
  unfold badDest at hb
  have hb' : NodeTypeWorkload ≠ (h.nodes (h.edges we).Dest).NodeType := fun e => hb e.symm
  simp [reduceWorkloadEdge, checkNodeType, hb']

theorem reduceWorkloadEdge_good (G : GraphLib) (n : Nat) (h : Heap) (we : Nat)
    (hb : ¬ badDest h we) :
    reduceWorkloadEdge G n h we =
      Except.ok ((h.nodes (h.edges we).Dest).Edges.foldl (reduceServiceEdge G n) h) := by
  unfold badDest at hb
  have hb' : NodeTypeWorkload = (h.nodes (h.edges we).Dest).NodeType := by
    by_contra hc
    exact hb (fun e => hc e.symm)
  simp [reduceWorkloadEdge, checkNodeType, hb']

theorem reduceWorkloadEdges_bad (G : GraphLib) (n : Nat) (l : List Nat) (h : Heap)
    (hb : ∃ we ∈ l, badDest h we) :
    reduceWorkloadEdges G n h l = Except.error Panic.graphError := by
  induction l generalizing h with
  | nil => simp at hb
  | cons we rest ih =>
    by_cases hwe : badDest h we
    · simp [reduceWorkloadEdges, reduceWorkloadEdge_bad G n h we hwe]
    · simp only [reduceWorkloadEdges, reduceWorkloadEdge_good G n h we hwe]
      apply ih
      obtain ⟨x, hx, hbx⟩ := hb
      rcases List.mem_cons.mp hx with rfl | hx'
      · exact absurd hbx hwe
      · exact ⟨x, hx', (badDest_frame (reduceServiceEdges_frame G n _ h) x).mpr hbx⟩

theorem reduceWorkloadEdges_good (G : GraphLib) (n : Nat) (l : List Nat) (h : Heap)
    (hb : ∀ we ∈ l, ¬ badDest h we) :
    ∃ h', reduceWorkloadEdges G n h l = Except.ok h' ∧ ReduceFrame n h h' := by
  induction l generalizing h with
  | nil => exact ⟨h, rfl, reduceFrame_refl n h⟩
  | cons we rest ih =>
    have hwe : ¬ badDest h we := hb we (List.mem_cons_self _ _)
    have f := reduceServiceEdges_frame G n (h.nodes (h.edges we).Dest).Edges h
    obtain ⟨h', hr, f'⟩ := ih ((h.nodes (h.edges we).Dest).Edges.foldl (reduceServiceEdge G n) h)
      (fun x hx hbx => hb x (List.mem_cons_of_mem _ hx) ((badDest_frame f x).mp hbx))
    refine ⟨h', ?_, reduceFrame_trans f f'⟩
    simp only [reduceWorkloadEdges, reduceWorkloadEdge_good G n h we hwe]
    exact hr

theorem reduceNode_service_bad (G : GraphLib) (st : Heap × TrafficMap) (entry : String × Nat)
    (hb : badService st.1 entry.2) : reduceNode G st entry = Except.error Panic.graphError := by
  obtain ⟨hs, e, he, hbe⟩ := hb
  have hbad : ∃ we ∈ (st.1.nodes entry.2).Edges,
      badDest (st.1.setNode entry.2 ((st.1.nodes entry.2).withEdges [])) we :=
    ⟨e, he, (badDest_frame (ReduceFrame.setEdges entry.2 st.1 []) e).mpr hbe⟩
  unfold reduceNode
  rw [if_neg (by simpa using hs), reduceWorkloadEdges_bad G entry.2 _ _ hbad]

theorem reduceNode_service_good (G : GraphLib) (st : Heap × TrafficMap) (entry : String × Nat)
    (hs : (st.1.nodes entry.2).NodeType = NodeTypeService)
    (hg : ∀ e ∈ (st.1.nodes entry.2).Edges, ¬ badDest st.1 e) :
    ∃ h', reduceNode G st entry = Except.ok (h', st.2.set entry.1 entry.2) ∧
      ReduceFrame entry.2 st.1 h' := by
  have f0 := ReduceFrame.setEdges entry.2 st.1 []
  obtain ⟨h', hr, f⟩ := reduceWorkloadEdges_good G entry.2 (st.1.nodes entry.2).Edges
    (st.1.setNode entry.2 ((st.1.nodes entry.2).withEdges []))
    (fun x hx hbx => hg x hx ((badDest_frame f0 x).mp hbx))
  refine ⟨h', ?_, reduceFrame_trans f0 f⟩
  unfold reduceNode
  rw [if_neg (by simpa using hs), hr]

/-- A successful step of the reduction: the frame, and the entry is stored exactly when the
node is kept. -/
theorem reduceNode_ok (G : GraphLib) (st st' : Heap × TrafficMap) (entry : String × Nat)
    (hr : reduceNode G st entry = Except.ok st') :
    ReduceFrame entry.2 st.1 st'.1 ∧
      st'.2 = (if keptByReduce st.1 entry.2 then st.2.set entry.1 entry.2 else st.2) ∧
      ¬ badService st.1 entry.2 := by
  by_cases hs : (st.1.nodes entry.2).NodeType = NodeTypeService
  · by_cases hb : ∃ e ∈ (st.1.nodes entry.2).Edges, badDest st.1 e
    · rw [reduceNode_service_bad G st entry ⟨hs, hb⟩] at hr
      cases hr
    · obtain ⟨h', hr', f⟩ := reduceNode_service_good G st entry hs
        (fun e he hbe => hb ⟨e, he, hbe⟩)
      rw [hr'] at hr
      cases hr
      refine ⟨f, ?_, fun hbad => hb hbad.2⟩
      simp [keptByReduce, hs]
  · have hnb : ¬ badService st.1 entry.2 := fun hbad => hs hbad.1
    unfold reduceNode at hr
    simp only [ne_eq, hs, not_false_eq_true, if_true] at hr
    split at hr
    · cases hr
      refine ⟨reduceFrame_refl _ _, ?_, hnb⟩
      next hroot => simp [keptByReduce, hs, hroot]
    · cases hr
      refine ⟨reduceFrame_refl _ _, ?_, hnb⟩
      next hroot => simp [keptByReduce, hs, hroot]
    · cases hr
      refine ⟨ReduceFrame.setEdges _ _ _, ?_, hnb⟩
      next hroot => simp [keptByReduce, hs, hroot]
    · cases hr

theorem reduceNode_not_typeAssertion (G : GraphLib) (st : Heap × TrafficMap)
    (entry : String × Nat) (hflag : rootFlagBool st.1 entry.2) :
    reduceNode G st entry ≠ Except.error Panic.typeAssertion := by
  by_cases hs : (st.1.nodes entry.2).NodeType = NodeTypeService
  · by_cases hb : ∃ e ∈ (st.1.nodes entry.2).Edges, badDest st.1 e
    · rw [reduceNode_service_bad G st entry ⟨hs, hb⟩]
      simp
    · obtain ⟨h', hr', _⟩ := reduceNode_service_good G st entry hs
        (fun e he hbe => hb ⟨e, he, hbe⟩)
      rw [hr']
      simp
  · unfold reduceNode
    simp only [ne_eq, hs, not_false_eq_true, if_true]
    rcases hflag hs with h0 | ⟨b, hb⟩
    · rw [h0]; simp
    · rw [hb]
      cases b <;> simp

theorem sameAttrs_refl (h : Heap) : SameAttrs h h :=
  ⟨fun _ => rfl, fun _ => rfl, fun _ => rfl, fun _ => rfl⟩

theorem SameAttrs.step {n : Nat} {h h1 h2 : Heap} (a : SameAttrs h h1) (f : ReduceFrame n h1 h2) :
    SameAttrs h h2 :=
  ⟨fun q => (f.id q).trans (a.id q), fun q => (f.nodeType q).trans (a.nodeType q),
    fun q => (f.metadata q).trans (a.metadata q), fun e => (f.dest e).trans (a.dest e)⟩

theorem SameAttrs.kept {h h' : Heap} (a : SameAttrs h h') (p : Nat) :
    keptByReduce h' p = keptByReduce h p := by
  unfold keptByReduce
  rw [a.nodeType, a.metadata]

theorem TrafficMap.setAll_of_nodup (l acc : TrafficMap)
    (hnd : (acc.keys ++ l.keys).Nodup) : TrafficMap.setAll acc l = acc ++ l := by
  induction l generalizing acc with
  | nil => simp [TrafficMap.setAll]
  | cons e rest ih =>
    have hk : e.1 ∉ acc.keys := by
      intro hmem
      have := List.disjoint_of_nodup_append hnd hmem
      exact this (by simp [TrafficMap.keys])
    have hset := TrafficMap.set_of_not_mem acc e.1 e.2 hk
    have hnd' : ((acc ++ [e]).keys ++ TrafficMap.keys rest).Nodup := by
      simpa [TrafficMap.keys] using hnd
    have := ih (acc ++ [e]) hnd'
    simp only [TrafficMap.setAll, List.foldl_cons] at this ⊢
    rw [hset, this]
    simp

/-- A successful run of the loop stores exactly the kept entries and keeps every node
attribute. -/
theorem reduceLoop_ok (G : GraphLib) (h : Heap) (tm : TrafficMap) (st st' : Heap × TrafficMap)
    (ha : SameAttrs h st.1) (hr : reduceLoop G st tm = Except.ok st') :
    SameAttrs h st'.1 ∧
      st'.2 = TrafficMap.setAll st.2 (tm.filter (fun e => keptByReduce h e.2)) := by
  induction tm generalizing st with
  | nil =>
    simp only [reduceLoop] at hr
    cases hr
    exact ⟨ha, rfl⟩
  | cons entry rest ih =>
    simp only [reduceLoop] at hr
    cases hstep : reduceNode G st entry with
    | error e => rw [hstep] at hr; cases hr
    | ok st1 =>
      rw [hstep] at hr
      obtain ⟨f, hmap, _⟩ := reduceNode_ok G st st1 entry hstep
      obtain ⟨ha', hout⟩ := ih st1 (ha.step f) hr
      refine ⟨ha', ?_⟩
      rw [hout, hmap, ha.kept]
      by_cases hk : keptByReduce h entry.2
      · simp [TrafficMap.setAll, List.filter_cons, hk]
      · simp [TrafficMap.setAll, List.filter_cons, hk]

theorem filter_keys_nodup (tm : TrafficMap) (f : String × Nat → Bool) (hnd : tm.keys.Nodup) :
    (TrafficMap.keys (tm.filter f)).Nodup := by
  unfold TrafficMap.keys at *
  exact List.Nodup.sublist (List.Sublist.map _ (List.filter_sublist tm)) hnd

/-- The loop aborts with the graph error when one of the entries still to visit is a service
node with a direct edge to a node that is not a workload. -/
theorem reduceLoop_graphError_of_bad (G : GraphLib) (tm : TrafficMap) (st : Heap × TrafficMap)
    (hflag : ∀ e ∈ tm, rootFlagBool st.1 e.2) (hbad : ∃ e ∈ tm, badService st.1 e.2) :
    reduceLoop G st tm = Except.error Panic.graphError := by
  induction tm generalizing st with
  | nil => simp at hbad
  | cons entry rest ih =>
    simp only [reduceLoop]
    cases hstep : reduceNode G st entry with
    | error e =>
      cases e with
      | graphError => rfl
      | typeAssertion =>
        exact absurd hstep
          (reduceNode_not_typeAssertion G st entry (hflag entry (List.mem_cons_self _ _)))
    | ok st1 =>
      obtain ⟨f, _, hnb⟩ := reduceNode_ok G st st1 entry hstep
      apply ih st1
      · intro e he hs
        have := hflag e (List.mem_cons_of_mem _ he)
        unfold rootFlagBool at this
        rw [f.metadata]
        exact this (by rw [← f.nodeType]; exact hs)
      · obtain ⟨x, hx, hxb⟩ := hbad
        rcases List.mem_cons.mp hx with rfl | hx'
        · exact absurd hxb hnb
        · have hne : x.2 ≠ entry.2 := by
            intro heq
            rw [heq] at hxb
            exact hnb hxb
          refine ⟨x, hx', ?_⟩
          obtain ⟨hs, e, he, hbe⟩ := hxb
          refine ⟨by rw [f.nodeType]; exact hs, e, ?_, (badDest_frame f e).mpr hbe⟩
          rw [f.edgesOther x.2 hne]
          exact he

/-- When the loop aborts with the graph error and no node object is visited twice, one of
the entries is a service node with a direct edge to a node that is not a workload. -/
theorem reduceLoop_bad_of_graphError (G : GraphLib) (tm : TrafficMap) (st : Heap × TrafficMap)
    (hnd : (tm.map Prod.snd).Nodup) (hr : reduceLoop G st tm = Except.error Panic.graphError) :
    ∃ e ∈ tm, badService st.1 e.2 := by
  induction tm generalizing st with
  | nil => simp [reduceLoop] at hr
  | cons entry rest ih =>
    simp only [List.map_cons, List.nodup_cons] at hnd
    by_cases hb : badService st.1 entry.2
    · exact ⟨entry, List.mem_cons_self _ _, hb⟩
    · simp only [reduceLoop] at hr
      cases hstep : reduceNode G st entry with
      | error e =>
        rw [hstep] at hr
        simp only [Except.error.injEq] at hr
        subst hr
        exfalso
        by_cases hs : (st.1.nodes entry.2).NodeType = NodeTypeService
        · obtain ⟨h', hr', _⟩ := reduceNode_service_good G st entry hs
            (fun e he hbe => hb ⟨hs, e, he, hbe⟩)
          rw [hr'] at hstep
          cases hstep
        · unfold reduceNode at hstep
          simp only [ne_eq, hs, not_false_eq_true, if_true] at hstep
          split at hstep <;> cases hstep
      | ok st1 =>
        rw [hstep] at hr
        obtain ⟨f, _, _⟩ := reduceNode_ok G st st1 entry hstep
        obtain ⟨x, hx, hs, e, he, hbe⟩ := ih st1 hnd.2 hr
        have hne : x.2 ≠ entry.2 := by
          intro heq
          exact hnd.1 (heq ▸ List.mem_map_of_mem Prod.snd hx)
        refine ⟨x, List.mem_cons_of_mem _ hx, by rw [← f.nodeType]; exact hs, e, ?_,
          (badDest_frame f e).mp hbe⟩
        rw [← f.edgesOther x.2 hne]
        exact he

/-- The loop completes when no entry is a bad service node, no node object is visited twice
and the root flags are booleans. -/
theorem reduceLoop_completes (G : GraphLib) (tm : TrafficMap) (st : Heap × TrafficMap)
    (hnd : (tm.map Prod.snd).Nodup) (hflag : ∀ e ∈ tm, rootFlagBool st.1 e.2)
    (hgood : ¬ ∃ e ∈ tm, badService st.1 e.2) :
    ∃ r, reduceLoop G st tm = Except.ok r := by
  induction tm generalizing st with
  | nil => exact ⟨st, rfl⟩
  | cons entry rest ih =>
    simp only [List.map_cons, List.nodup_cons] at hnd
    simp only [reduceLoop]
    cases hstep : reduceNode G st entry with
    | error e =>
      exfalso
      cases e with
      | graphError =>
        have hr : reduceLoop G st (entry :: rest) = Except.error Panic.graphError := by
          simp [reduceLoop, hstep]
        exact hgood (reduceLoop_bad_of_graphError G (entry :: rest) st
          (by simp [List.nodup_cons, hnd.1, hnd.2]) hr)
      | typeAssertion =>
        exact reduceNode_not_typeAssertion G st entry (hflag entry (List.mem_cons_self _ _)) hstep
    | ok st1 =>
      obtain ⟨f, _, _⟩ := reduceNode_ok G st st1 entry hstep
      apply ih st1 hnd.2
      · intro e he hs
        have := hflag e (List.mem_cons_of_mem _ he)
        unfold rootFlagBool at this
        rw [f.metadata]
        exact this (by rw [← f.nodeType]; exact hs)
      · rintro ⟨x, hx, hs, e, he, hbe⟩
        have hne : x.2 ≠ entry.2 := by
          intro heq
          exact hnd.1 (heq ▸ List.mem_map_of_mem Prod.snd hx)
        refine hgood ⟨x, List.mem_cons_of_mem _ hx, by rw [← f.nodeType]; exact hs, e, ?_,
          (badDest_frame f e).mp hbe⟩
        rw [← f.edgesOther x.2 hne]
        exact he

theorem Heap.setNode_self (h : Heap) (p : Nat) : h.setNode p (h.nodes p) = h := by
  cases h with
  | mk nodes edges =>
    simp only [Heap.setNode, Heap.mk.injEq, and_true]
    funext q
    by_cases hq : q = p
    · simp [hq]
    · simp [hq]

/-- On service nodes without edges the loop changes nothing in the store. -/
theorem reduceLoop_no_edges (G : GraphLib) (h : Heap) (tm acc : TrafficMap)
    (hs : ∀ e ∈ tm, (h.nodes e.2).NodeType = NodeTypeService ∧ (h.nodes e.2).Edges = []) :
    reduceLoop G (h, acc) tm = Except.ok (h, TrafficMap.setAll acc tm) := by
  induction tm generalizing acc with
  | nil => rfl
  | cons entry rest ih =>
    obtain ⟨hty, hed⟩ := hs entry (List.mem_cons_self _ _)
    have hn : (h.nodes entry.2).withEdges [] = h.nodes entry.2 := by
      cases hnode : h.nodes entry.2 with
      | mk i t n s es m =>
        rw [hnode] at hed
        simp only at hed
        simp [Node.withEdges, hed]
    have hstep : reduceNode G (h, acc) entry = Except.ok (h, acc.set entry.1 entry.2) := by
      unfold reduceNode
      rw [if_neg (by simpa using hty)]
      simp only [hed, hn, Heap.setNode_self, reduceWorkloadEdges]
    simp only [reduceLoop, hstep]
    rw [ih (acc.set entry.1 entry.2) (fun e he => hs e (List.mem_cons_of_mem _ he))]
    rfl

/-! ## `MergeTrafficMaps`: edge keys, frame and keys of the accumulator -/

theorem sameEdgeKey_iff (h : Heap) (a b : Nat) :
    sameEdgeKey h a b = true ↔ edgeKey h a = edgeKey h b := by
  simp [sameEdgeKey, edgeKey, Prod.ext_iff]

theorem any_sameEdgeKey_iff (h : Heap) (e : Nat) (l : List Nat) :
    l.any (fun x => sameEdgeKey h e x) = true ↔ edgeKey h e ∈ l.map (edgeKey h) := by
  simp only [List.any_eq_true, sameEdgeKey_iff, List.mem_map]
  constructor
  · rintro ⟨x, hx, hk⟩
    exact ⟨x, hx, hk.symm⟩
  · rintro ⟨x, hx, hk⟩
    exact ⟨x, hx, hk.symm⟩

theorem mergeFrame_refl (node : Nat) (h : Heap) : MergeFrame node h h :=
  ⟨rfl, fun _ => rfl, fun _ => rfl, fun _ _ => rfl⟩

theorem mergeFrame_trans {node : Nat} {h1 h2 h3 : Heap} (a : MergeFrame node h1 h2)
    (b : MergeFrame node h2 h3) : MergeFrame node h1 h3 :=
  ⟨b.edges.trans a.edges, fun q => (b.id q).trans (a.id q),
    fun q => (b.namespace_ q).trans (a.namespace_ q),
    fun q hq => (b.other q hq).trans (a.other q hq)⟩

theorem edgeKey_congr {h h' : Heap} (hed : h'.edges = h.edges)
    (hid : ∀ q, (h'.nodes q).ID = (h.nodes q).ID) : edgeKey h' = edgeKey h := by
  funext e
  simp [edgeKey, hed, hid]

theorem sameEdgeKey_congr {h h' : Heap} (hed : h'.edges = h.edges)
    (hid : ∀ q, (h'.nodes q).ID = (h.nodes q).ID) : sameEdgeKey h' = sameEdgeKey h := by
  funext a b
  simp [sameEdgeKey, hed, hid]

theorem mergeEdge_frame (G : GraphLib) (node : Nat) (h : Heap) (e : Nat) :
    MergeFrame node h (mergeEdge G node h e) := by
  unfold mergeEdge
  split
  · exact mergeFrame_refl node h
  · refine ⟨rfl, ?_, ?_, ?_⟩
    · intro q
      by_cases hq : q = node
      · simp [Heap.setNode, hq]
      · simp [Heap.setNode, hq]
    · intro q
      by_cases hq : q = node
      · simp [Heap.setNode, hq]
      · simp [Heap.setNode, hq]
    · intro q hq
      simp [Heap.setNode, hq]

theorem mergeEdges_frame (G : GraphLib) (node : Nat) (l : List Nat) (h : Heap) :
    MergeFrame node h (l.foldl (mergeEdge G node) h) := by
  induction l generalizing h with
  | nil => exact mergeFrame_refl node h
  | cons e rest ih => exact mergeFrame_trans (mergeEdge_frame G node h e) (ih _)

theorem mergeEdge_noDup (G : GraphLib) (node : Nat) (h : Heap) (e : Nat) (q : Nat)
    (hq : noDupEdges h q) : noDupEdges (mergeEdge G node h e) q := by
  have f := mergeEdge_frame G node h e
  unfold noDupEdges at *
  rw [edgeKey_congr f.edges f.id]
  by_cases hqn : q = node
  · subst hqn
    unfold mergeEdge
    by_cases hany : (h.nodes q).Edges.any (fun x => sameEdgeKey h e x) = true
    · simp only [hany, if_true]
      exact hq
    · simp only [hany]
      have hnew : edgeKey h e ∉ (h.nodes q).Edges.map (edgeKey h) :=
        fun hmem => hany ((any_sameEdgeKey_iff h e _).mpr hmem)
      simp only [Heap.setNode, if_true, Bool.false_eq_true, if_false, List.map_append,
        List.map_cons, List.map_nil]
      rw [List.nodup_append]
      refine ⟨hq, by simp, ?_⟩
      intro a ha hb
      simp only [List.mem_singleton] at hb
      subst hb
      exact hnew ha
  · rw [f.other q hqn]
    exact hq

theorem mergeEdges_noDup (G : GraphLib) (node : Nat) (l : List Nat) (h : Heap) (q : Nat)
    (hq : noDupEdges h q) : noDupEdges (l.foldl (mergeEdge G node) h) q := by
  induction l generalizing h with
  | nil => exact hq
  | cons e rest ih => exact ih _ (mergeEdge_noDup G node h e q hq)

theorem mergeNode_noDup (G : GraphLib) (ns : String) (st : Heap × TrafficMap)
    (entry : String × Nat) (q : Nat) (hq : noDupEdges st.1 q) :
    noDupEdges (mergeNode G ns st entry).1 q := by
  unfold mergeNode
  split
  · split
    · exact mergeEdges_noDup G _ _ _ q hq
    · exact mergeEdges_noDup G _ _ _ q hq
  · exact hq

theorem mergeNode_mem (G : GraphLib) (ns : String) (st : Heap × TrafficMap)
    (entry : String × Nat) (e : String × Nat) (he : e ∈ (mergeNode G ns st entry).2) :
    e = entry ∨ e ∈ st.2 := by
  unfold mergeNode at he
  split at he
  · split at he
    · exact TrafficMap.mem_set _ _ _ _ he
    · exact Or.inr he
  · exact TrafficMap.mem_set _ _ _ _ he

theorem mergeLoop_noDup (G : GraphLib) (ns : String) (l : TrafficMap) (st : Heap × TrafficMap)
    (q : Nat) (hq : noDupEdges st.1 q) : noDupEdges (l.foldl (mergeNode G ns) st).1 q := by
  induction l generalizing st with
  | nil => exact hq
  | cons entry rest ih => exact ih _ (mergeNode_noDup G ns st entry q hq)

theorem mergeLoop_mem (G : GraphLib) (ns : String) (l : TrafficMap) (st : Heap × TrafficMap)
    (e : String × Nat) (he : e ∈ (l.foldl (mergeNode G ns) st).2) : e ∈ l ∨ e ∈ st.2 := by
  induction l generalizing st with
  | nil => exact Or.inr he
  | cons entry rest ih =>
    rcases ih _ he with h1 | h1
    · exact Or.inl (List.mem_cons_of_mem _ h1)
    · rcases mergeNode_mem G ns st entry e h1 with h2 | h2
      · exact Or.inl (h2 ▸ List.mem_cons_self _ _)
      · exact Or.inr h2

theorem mergeNode_get_other (G : GraphLib) (ns : String) (st : Heap × TrafficMap)
    (entry : String × Nat) (k : String) (hk : k ≠ entry.1) :
    (mergeNode G ns st entry).2.get k = st.2.get k := by
  unfold mergeNode
  split
  · split
    · exact TrafficMap.get_set_other _ _ _ _ hk
    · rfl
  · exact TrafficMap.get_set_other _ _ _ _ hk

theorem mergeNode_mem_keys (G : GraphLib) (ns : String) (st : Heap × TrafficMap)
    (entry : String × Nat) (k : String) :
    k ∈ (mergeNode G ns st entry).2.keys ↔ k = entry.1 ∨ k ∈ st.2.keys := by
  unfold mergeNode
  split
  · next node hget =>
    have hin : entry.1 ∈ st.2.keys := (TrafficMap.get_isSome_iff _ _).mp ⟨node, hget⟩
    split
    · exact TrafficMap.mem_keys_set _ _ _ _
    · constructor
      · exact Or.inr
      · rintro (h | h)
        · exact h ▸ hin
        · exact h
  · exact TrafficMap.mem_keys_set _ _ _ _

theorem mergeNode_length (G : GraphLib) (ns : String) (st : Heap × TrafficMap)
    (entry : String × Nat) (hk : entry.1 ∈ st.2.keys) :
    (mergeNode G ns st entry).2.length = st.2.length := by
  unfold mergeNode
  split
  · split
    · exact TrafficMap.length_set_of_mem _ _ _ hk
    · rfl
  · next hget =>
    exact absurd hk ((TrafficMap.get_eq_none_iff _ _).mp hget)

theorem mergeNode_get_new (G : GraphLib) (ns : String) (st : Heap × TrafficMap)
    (entry : String × Nat) (hk : entry.1 ∉ st.2.keys) :
    (mergeNode G ns st entry).2.get entry.1 = some entry.2 := by
  unfold mergeNode
  rw [(TrafficMap.get_eq_none_iff _ _).mpr hk]
  exact TrafficMap.get_set_same _ _ _

theorem mergeLoop_mem_keys (G : GraphLib) (ns : String) (l : TrafficMap)
    (st : Heap × TrafficMap) (k : String) :
    k ∈ (l.foldl (mergeNode G ns) st).2.keys ↔ k ∈ st.2.keys ∨ k ∈ l.keys := by
  induction l generalizing st with
  | nil => simp [TrafficMap.keys]
  | cons entry rest ih =>
    simp only [List.foldl_cons]
    rw [ih, mergeNode_mem_keys]
    simp only [TrafficMap.keys, List.map_cons, List.mem_cons]
    tauto

theorem mergeLoop_get_other (G : GraphLib) (ns : String) (l : TrafficMap)
    (st : Heap × TrafficMap) (k : String) (hk : k ∉ l.keys) :
    (l.foldl (mergeNode G ns) st).2.get k = st.2.get k := by
  induction l generalizing st with
  | nil => rfl
  | cons entry rest ih =>
    simp only [TrafficMap.keys, List.map_cons, List.mem_cons, not_or] at hk
    simp only [List.foldl_cons]
    rw [ih _ hk.2, mergeNode_get_other G ns st entry k hk.1]

theorem mergeLoop_length (G : GraphLib) (ns : String) (l : TrafficMap)
    (st : Heap × TrafficMap) (hk : ∀ k ∈ l.keys, k ∈ st.2.keys) :
    (l.foldl (mergeNode G ns) st).2.length = st.2.length := by
  induction l generalizing st with
  | nil => rfl
  | cons entry rest ih =>
    simp only [List.foldl_cons]
    have h1 : entry.1 ∈ st.2.keys := hk entry.1 (by simp [TrafficMap.keys])
    rw [ih, mergeNode_length G ns st entry h1]
    intro k hkr
    rw [mergeNode_mem_keys]
    exact Or.inr (hk k (by
      simp only [TrafficMap.keys, List.map_cons, List.mem_cons]
      exact Or.inr hkr))

theorem mergeLoop_get_new (G : GraphLib) (ns : String) (l : TrafficMap)
    (st : Heap × TrafficMap) (hnd : l.keys.Nodup) (k : String) (p : Nat) (hmem : (k, p) ∈ l)
    (hk : k ∉ st.2.keys) : (l.foldl (mergeNode G ns) st).2.get k = some p := by
  induction l generalizing st with
  | nil => simp at hmem
  | cons entry rest ih =>
    simp only [TrafficMap.keys, List.map_cons, List.nodup_cons] at hnd
    simp only [List.foldl_cons]
    rcases List.mem_cons.mp hmem with heq | hin
    · subst heq
      rw [mergeLoop_get_other G ns rest _ _ hnd.1]
      exact mergeNode_get_new G ns st _ hk
    · have hne : k ≠ entry.1 := by
        intro h
        exact hnd.1 (h ▸ List.mem_map_of_mem Prod.fst hin)
      apply ih _ hnd.2 hin
      rw [mergeNode_mem_keys]
      rintro (h | h)
      · exact hne h
      · exact hk h

theorem newEdges_congr {h h' : Heap} (hk : sameEdgeKey h' = sameEdgeKey h)
    (resident donor : List Nat) : newEdges h' resident donor = newEdges h resident donor := by
  induction donor generalizing resident with
  | nil => rfl
  | cons e rest ih => simp only [newEdges, hk, ih]

theorem addOutgoing_congr (G : GraphLib) {h h' : Heap} (hed : h'.edges = h.edges) (m : Metadata)
    (added : List Nat) : addOutgoing G h' m added = addOutgoing G h m added := by
  simp only [addOutgoing, hed]

theorem newEdges_eq_nil (h : Heap) (resident donor : List Nat)
    (hall : ∀ e ∈ donor, ∃ x ∈ resident, edgeKey h e = edgeKey h x) :
    newEdges h resident donor = [] := by
  induction donor with
  | nil => rfl
  | cons e rest ih =>
    have hany : resident.any (fun x => sameEdgeKey h e x) = true := by
      rw [any_sameEdgeKey_iff]
      obtain ⟨x, hx, hk⟩ := hall e (List.mem_cons_self _ _)
      exact List.mem_map.mpr ⟨x, hx, hk.symm⟩
    simp only [newEdges, hany, if_true]
    exact ih (fun e he => hall e (List.mem_cons_of_mem _ he))

/-- The resident after the edge loop of lines 30-43. -/
theorem mergeEdges_node (G : GraphLib) (node : Nat) (donor : List Nat) (h : Heap) :
    ((donor.foldl (mergeEdge G node) h).nodes node).Edges =
        (h.nodes node).Edges ++ newEdges h (h.nodes node).Edges donor ∧
      ((donor.foldl (mergeEdge G node) h).nodes node).Metadata =
        addOutgoing G h (h.nodes node).Metadata (newEdges h (h.nodes node).Edges donor) := by
  induction donor generalizing h with
  | nil => simp [newEdges, addOutgoing]
  | cons e rest ih =>
    have f := mergeEdge_frame G node h e
    have hk := sameEdgeKey_congr f.edges f.id
    obtain ⟨ihE, ihM⟩ := ih (mergeEdge G node h e)
    simp only [List.foldl_cons]
    rw [ihE, ihM, newEdges_congr hk, addOutgoing_congr G f.edges]
    by_cases hany : (h.nodes node).Edges.any (fun x => sameEdgeKey h e x) = true
    · have hm : mergeEdge G node h e = h := by simp [mergeEdge, hany]
      simp only [hm, newEdges, hany, if_true, and_self]
    · have hE : ((mergeEdge G node h e).nodes node).Edges = (h.nodes node).Edges ++ [e] := by
        simp [mergeEdge, hany, Heap.setNode]
      have hM : ((mergeEdge G node h e).nodes node).Metadata =
          G.AddOutgoingEdgeToMetadata (h.nodes node).Metadata (h.edges e).Metadata := by
        simp [mergeEdge, hany, Heap.setNode]
      simp only [hE, hM, newEdges, hany, Bool.false_eq_true, if_false, addOutgoing,
        List.foldl_cons, List.append_assoc, List.singleton_append, and_self]

theorem keyedByID_congr {h h' : Heap} (hid : ∀ q, (h'.nodes q).ID = (h.nodes q).ID)
    (m : TrafficMap) (hm : keyedByID h m) : keyedByID h' m :=
  fun e he => (hid e.2).trans (hm e he)

theorem keyedByID_set (h : Heap) (m : TrafficMap) (k : String) (p : Nat)
    (hm : keyedByID h m) (hp : (h.nodes p).ID = k) : keyedByID h (m.set k p) := by
  intro e he
  rcases TrafficMap.mem_set m k p e he with heq | hin
  · subst heq
    exact hp
  · exact hm e hin

theorem mergeNode_step (G : GraphLib) (ns : String) (st : Heap × TrafficMap)
    (entry : String × Nat) (hm : keyedByID st.1 st.2) (he : (st.1.nodes entry.2).ID = entry.1) :
    MergeStep entry.1 st (mergeNode G ns st entry) := by
  unfold mergeNode
  split
  · next node hget =>
    have hnode : (st.1.nodes node).ID = entry.1 := hm _ (TrafficMap.mem_of_get _ _ _ hget)
    split
    · have f := mergeEdges_frame G entry.2 (st.1.nodes node).Edges st.1
      refine ⟨f.edges, f.id, f.namespace_, ?_, ?_⟩
      · intro q hq
        exact f.other q (fun heq => hq (heq ▸ he))
      · exact keyedByID_congr f.id _ (keyedByID_set _ _ _ _ hm he)
    · have f := mergeEdges_frame G node (st.1.nodes entry.2).Edges st.1
      refine ⟨f.edges, f.id, f.namespace_, ?_, ?_⟩
      · intro q hq
        exact f.other q (fun heq => hq (heq ▸ hnode))
      · exact keyedByID_congr f.id _ hm
  · exact ⟨rfl, fun _ => rfl, fun _ => rfl, fun _ _ => rfl, keyedByID_set _ _ _ _ hm he⟩

theorem mergeLoop_run (G : GraphLib) (ns : String) (l : TrafficMap) (st : Heap × TrafficMap)
    (hm : keyedByID st.1 st.2) (hl : keyedByID st.1 l) :
    MergeRun l st (l.foldl (mergeNode G ns) st) := by
  induction l generalizing st with
  | nil => exact ⟨rfl, fun _ => rfl, fun _ => rfl, fun _ _ => rfl, hm⟩
  | cons entry rest ih =>
    have s := mergeNode_step G ns st entry hm (hl entry (List.mem_cons_self _ _))
    have r := ih (mergeNode G ns st entry) s.keyed
      (keyedByID_congr s.id rest (fun e he => hl e (List.mem_cons_of_mem _ he)))
    simp only [List.foldl_cons]
    refine ⟨r.edges.trans s.edges, fun q => (r.id q).trans (s.id q),
      fun q => (r.namespace_ q).trans (s.namespace_ q), ?_, r.keyed⟩
    intro q hq
    simp only [TrafficMap.keys, List.map_cons, List.mem_cons, not_or] at hq
    rw [r.other q (by rw [s.id]; exact hq.2), s.other q hq.1]

/-- The duplicate owned by the merged-in scope: the incoming instance replaces the resident
and receives the resident's new edges. -/
theorem mergeLoop_owned (G : GraphLib) (ns : String) (l : TrafficMap) (st : Heap × TrafficMap)
    (hm : keyedByID st.1 st.2) (hl : keyedByID st.1 l) (hnd : l.keys.Nodup)
    (k : String) (pin pold : Nat) (hin : (k, pin) ∈ l) (hold : st.2.get k = some pold)
    (hns : (st.1.nodes pin).Namespace = ns) :
    (l.foldl (mergeNode G ns) st).2.get k = some pin ∧
      ((l.foldl (mergeNode G ns) st).1.nodes pin).Edges =
        (st.1.nodes pin).Edges ++ newEdges st.1 (st.1.nodes pin).Edges (st.1.nodes pold).Edges ∧
      ((l.foldl (mergeNode G ns) st).1.nodes pin).Metadata =
        addOutgoing G st.1 (st.1.nodes pin).Metadata
          (newEdges st.1 (st.1.nodes pin).Edges (st.1.nodes pold).Edges) := by
  induction l generalizing st with
  | nil => simp at hin
  | cons entry rest ih =>
    simp only [TrafficMap.keys, List.map_cons, List.nodup_cons] at hnd
    have s := mergeNode_step G ns st entry hm (hl entry (List.mem_cons_self _ _))
    have hrest : keyedByID (mergeNode G ns st entry).1 rest :=
      keyedByID_congr s.id rest (fun e he => hl e (List.mem_cons_of_mem _ he))
    have hpin : (st.1.nodes pin).ID = k := hl (k, pin) hin
    have hpold : (st.1.nodes pold).ID = k := hm _ (TrafficMap.mem_of_get _ _ _ hold)
    simp only [List.foldl_cons]
    rcases List.mem_cons.mp hin with heq | hin'
    · subst heq
      have r := mergeLoop_run G ns rest (mergeNode G ns st (k, pin)) s.keyed hrest
      have hk : (k, pin).1 ∉ TrafficMap.keys rest := hnd.1
      rw [mergeLoop_get_other G ns rest _ k hk,
        r.other pin (by rw [s.id, hpin]; exact hk)]
      have hstep : mergeNode G ns st (k, pin) =
          ((st.1.nodes pold).Edges.foldl (mergeEdge G pin) st.1, st.2.set k pin) := by
        simp [mergeNode, hold, hns]
      rw [hstep]
      obtain ⟨hE, hM⟩ := mergeEdges_node G pin (st.1.nodes pold).Edges st.1
      exact ⟨TrafficMap.get_set_same _ _ _, hE, hM⟩
    · have hne : k ≠ entry.1 := by
        intro h
        exact hnd.1 (h ▸ List.mem_map_of_mem Prod.fst hin')
      have hget : (mergeNode G ns st entry).2.get k = some pold := by
        rw [mergeNode_get_other G ns st entry k hne]
        exact hold
      have hns' : ((mergeNode G ns st entry).1.nodes pin).Namespace = ns := by
        rw [s.namespace_]
        exact hns
      obtain ⟨h1, h2, h3⟩ := ih (mergeNode G ns st entry) s.keyed hrest hnd.2 hin' hget hns'
      have e1 : (mergeNode G ns st entry).1.nodes pin = st.1.nodes pin :=
        s.other pin (by rw [hpin]; exact hne)
      have e2 : (mergeNode G ns st entry).1.nodes pold = st.1.nodes pold :=
        s.other pold (by rw [hpold]; exact hne)
      have ek := sameEdgeKey_congr s.edges s.id
      rw [e1, e2, newEdges_congr ek] at h2 h3
      rw [addOutgoing_congr G s.edges] at h3
      exact ⟨h1, h2, h3⟩

/-! ## `MarkOutsideOrInaccessible` -/

theorem isOutsideLoop_iff (n : Node) (l : List (String × NamespaceInfo)) :
    isOutsideLoop n l = true ↔ ∀ x ∈ l, x.2.Name ≠ n.Namespace := by
  induction l with
  | nil => simp [isOutsideLoop]
  | cons a rest ih =>
    obtain ⟨k, ns⟩ := a
    by_cases hk : n.Namespace = ns.Name
    · simp [isOutsideLoop, hk]
    · have hk' : ¬ ns.Name = n.Namespace := fun h => hk h.symm
      simp [isOutsideLoop, hk, hk', ih]

theorem isOutside_iff (n : Node) (l : List (String × NamespaceInfo)) :
    isOutside n l = true ↔ n.Namespace ≠ Unknown ∧ ∀ x ∈ l, x.2.Name ≠ n.Namespace := by
  unfold isOutside
  by_cases hu : n.Namespace = Unknown
  · simp [hu]
  · simp only [hu, if_false, ne_eq, not_false_eq_true, true_and]
    exact isOutsideLoop_iff n l

theorem setFlag_get_same (n : Node) (k : String) :
    (n.setFlag k).Metadata k = some (Value.bool true) := by
  simp [Node.setFlag, Metadata.set]

theorem setFlag_get_other (n : Node) (k k2 : String) (hne : k2 ≠ k) :
    (n.setFlag k).Metadata k2 = n.Metadata k2 := by
  simp [Node.setFlag, Metadata.set, hne]

/-- The `switch` of lines 54-71 on a node of the always-inaccessible class. -/
theorem markSwitch_always (n : Node) (o : TelemetryOptions) (ha : alwaysInaccessible n) :
    markSwitch n o = n.setFlag IsInaccessible := by
  unfold markSwitch
  by_cases h1 : n.NodeType = NodeTypeUnknown
  · rw [if_pos h1]
  · rw [if_neg h1]
    rcases ha with ha | ⟨hs, hn, hv⟩ | ⟨hs, he⟩
    · exact absurd ha h1
    · rw [if_pos hs, if_pos ⟨hn, hv⟩]
    · rw [if_pos hs]
      by_cases h2 : n.Namespace = Unknown ∧ n.Service = Unknown
      · rw [if_pos h2]
      · rw [if_neg h2, if_pos he]

/-- The `switch` of lines 54-71 on any other node. -/
theorem markSwitch_other (n : Node) (o : TelemetryOptions) (ha : ¬ alwaysInaccessible n) :
    markSwitch n o = if isOutside n o.Namespaces then n.setFlag IsOutside else n := by
  unfold alwaysInaccessible at ha
  simp only [not_or, not_and] at ha
  obtain ⟨h1, h2, h3⟩ := ha
  unfold markSwitch
  rw [if_neg h1]
  by_cases hs : n.NodeType = NodeTypeService
  · have h2' : ¬ (n.Namespace = Unknown ∧ n.Service = Unknown) := fun h => h2 hs h.1 h.2
    rw [if_pos hs, if_neg h2', if_neg (h3 hs)]
  · rw [if_neg hs]

theorem IsOutside_ne_IsInaccessible : IsOutside ≠ IsInaccessible := by decide

theorem IsEgressCluster_ne_IsOutside : IsEgressCluster ≠ IsOutside := by decide

theorem IsEgressCluster_ne_IsInaccessible : IsEgressCluster ≠ IsInaccessible := by decide

theorem markAccess_cases (n n' : Node) (o : TelemetryOptions)
    (hr : markAccess n o = Except.ok n') : n' = n ∨ n' = n.setFlag IsInaccessible := by
  unfold markAccess at hr
  split at hr
  · cases hr; exact Or.inl rfl
  · cases hr; exact Or.inl rfl
  · split at hr
    · cases hr; exact Or.inl rfl
    · split at hr
      · cases hr; exact Or.inr rfl
      · cases hr; exact Or.inl rfl
  · cases hr

theorem markSwitch_cases (n : Node) (o : TelemetryOptions) :
    (alwaysInaccessible n ∧ markSwitch n o = n.setFlag IsInaccessible) ∨
      (¬ alwaysInaccessible n ∧ isOutside n o.Namespaces = true ∧
        markSwitch n o = n.setFlag IsOutside) ∨
      (¬ alwaysInaccessible n ∧ isOutside n o.Namespaces = false ∧ markSwitch n o = n) := by
  by_cases ha : alwaysInaccessible n
  · exact Or.inl ⟨ha, markSwitch_always n o ha⟩
  · have := markSwitch_other n o ha
    cases ho : isOutside n o.Namespaces with
    | true => exact Or.inr (Or.inl ⟨ha, rfl, by simp [this, ho]⟩)
    | false => exact Or.inr (Or.inr ⟨ha, rfl, by simp [this, ho]⟩)

theorem markNode_spec (n n' : Node) (o : TelemetryOptions)
    (hr : markNode n o = Except.ok n') : MarkedNode o n n' := by
  unfold markNode at hr
  have hio := IsOutside_ne_IsInaccessible
  have hio' := IsOutside_ne_IsInaccessible.symm
  rcases markSwitch_cases n o with ⟨ha, hsw⟩ | ⟨ha, ho, hsw⟩ | ⟨ha, ho, hsw⟩ <;>
    rw [hsw] at hr <;>
    rcases markAccess_cases _ _ o hr with rfl | rfl <;>
    clear hr hsw <;>
    refine ⟨rfl, rfl, rfl, rfl, rfl, fun k hk1 hk2 => ?_, fun hf => ?_, fun hf => ?_, ?_⟩ <;>
    simp_all [Node.setFlag, Metadata.set]

theorem markNode_completes (n : Node) (o : TelemetryOptions)
    (hb : boolOrAbsent n.Metadata IsOutside) : ∃ n', markNode n o = Except.ok n' := by
  have hio := IsOutside_ne_IsInaccessible
  have key : ∀ m : Node, boolOrAbsent m.Metadata IsOutside → ∃ n', markAccess m o = Except.ok n' := by
    intro m hm
    unfold markAccess
    rcases hm with h0 | ⟨b, hb⟩
    · rw [h0]; exact ⟨_, rfl⟩
    · rw [hb]
      cases b
      · exact ⟨_, rfl⟩
      · simp only
        split
        · exact ⟨_, rfl⟩
        · split
          · exact ⟨_, rfl⟩
          · exact ⟨_, rfl⟩
  unfold markNode
  apply key
  rcases markSwitch_cases n o with ⟨_, hsw⟩ | ⟨_, _, hsw⟩ | ⟨_, _, hsw⟩ <;> rw [hsw]
  · unfold boolOrAbsent at *
    rw [setFlag_get_other n IsInaccessible IsOutside hio]
    exact hb
  · exact Or.inr ⟨true, setFlag_get_same n IsOutside⟩
  · exact hb

theorem alwaysInaccessible_marked {o : TelemetryOptions} {n n' : Node} (m : MarkedNode o n n') :
    alwaysInaccessible n' ↔ alwaysInaccessible n := by
  unfold alwaysInaccessible
  rw [m.nodeType, m.namespace_, m.service,
    m.metadata IsEgressCluster IsEgressCluster_ne_IsOutside IsEgressCluster_ne_IsInaccessible]

theorem Heap.setNode_get_same (h : Heap) (p : Nat) (n : Node) : (h.setNode p n).nodes p = n := by
  simp [Heap.setNode]

theorem Heap.setNode_get_other (h : Heap) (p q : Nat) (n : Node) (hq : q ≠ p) :
    (h.setNode p n).nodes q = h.nodes q := by
  simp [Heap.setNode, hq]

/-- Flags of the always-inaccessible class after the whole loop. -/
theorem markLoop_inaccessible (o : TelemetryOptions) (tm : TrafficMap) (h h' : Heap)
    (hr : MarkOutsideOrInaccessible h tm o = Except.ok h') (p : Nat) :
    ((h.nodes p).Metadata IsInaccessible = some (Value.bool true) →
        (h'.nodes p).Metadata IsInaccessible = some (Value.bool true)) ∧
      (p ∈ tm.map Prod.snd → alwaysInaccessible (h.nodes p) →
        (h'.nodes p).Metadata IsInaccessible = some (Value.bool true)) := by
  induction tm generalizing h with
  | nil =>
    simp only [MarkOutsideOrInaccessible] at hr
    cases hr
    simp
  | cons entry rest ih =>
    obtain ⟨k, q⟩ := entry
    simp only [MarkOutsideOrInaccessible] at hr
    cases hstep : markNode (h.nodes q) o with
    | error e => rw [hstep] at hr; cases hr
    | ok n' =>
      rw [hstep] at hr
      have m := markNode_spec _ _ o hstep
      obtain ⟨ih1, ih2⟩ := ih (h.setNode q n') hr
      by_cases hpq : p = q
      · subst hpq
        rw [Heap.setNode_get_same] at ih1 ih2
        refine ⟨fun hf => ih1 (m.inaccessibleKept hf), fun _ ha => ih1 (m.inaccessibleSet ha)⟩
      · rw [Heap.setNode_get_other _ _ _ _ hpq] at ih1 ih2
        refine ⟨ih1, fun hmem ha => ih2 ?_ ha⟩
        simp only [List.map_cons, List.mem_cons] at hmem
        rcases hmem with h1 | h1
        · exact absurd h1 hpq
        · exact h1

/-- The call completes when every `IsOutside` entry of the map is absent or a boolean. -/
theorem markLoop_completes (o : TelemetryOptions) (tm : TrafficMap) (h : Heap)
    (hb : ∀ e ∈ tm, boolOrAbsent (h.nodes e.2).Metadata IsOutside) :
    ∃ h', MarkOutsideOrInaccessible h tm o = Except.ok h' := by
  induction tm generalizing h with
  | nil => exact ⟨h, rfl⟩
  | cons entry rest ih =>
    obtain ⟨k, q⟩ := entry
    obtain ⟨n', hstep⟩ := markNode_completes (h.nodes q) o (hb (k, q) (List.mem_cons_self _ _))
    simp only [MarkOutsideOrInaccessible, hstep]
    apply ih
    intro e he
    by_cases hq : e.2 = q
    · rw [hq, Heap.setNode_get_same]
      have m := markNode_spec _ _ o hstep
      unfold boolOrAbsent
      rw [m.outside]
      split
      · exact Or.inr ⟨true, rfl⟩
      · exact hb (k, q) (List.mem_cons_self _ _)
    · rw [Heap.setNode_get_other _ _ _ _ hq]
      exact hb e (List.mem_cons_of_mem _ he)

theorem markLoop_outside (o : TelemetryOptions) (tm : TrafficMap) (h h' : Heap)
    (hr : MarkOutsideOrInaccessible h tm o = Except.ok h') (p : Nat)
    (hna : ¬ alwaysInaccessible (h.nodes p)) :
    (outsideDecided o (h.nodes p) → outsideDecided o (h'.nodes p)) ∧
      (p ∈ tm.map Prod.snd → (h.nodes p).Metadata IsOutside = none →
        outsideDecided o (h'.nodes p)) := by
  induction tm generalizing h with
  | nil =>
    simp only [MarkOutsideOrInaccessible] at hr
    cases hr
    simp
  | cons entry rest ih =>
    obtain ⟨k, q⟩ := entry
    simp only [MarkOutsideOrInaccessible] at hr
    cases hstep : markNode (h.nodes q) o with
    | error e => rw [hstep] at hr; cases hr
    | ok n' =>
      rw [hstep] at hr
      have m := markNode_spec _ _ o hstep
      by_cases hpq : p = q
      · subst hpq
        have hna' : ¬ alwaysInaccessible ((h.setNode p n').nodes p) := by
          rw [Heap.setNode_get_same, alwaysInaccessible_marked m]
          exact hna
        obtain ⟨ih1, _⟩ := ih (h.setNode p n') hr hna'
        rw [Heap.setNode_get_same] at ih1
        have hout := m.outside
        have hiff := isOutside_iff (h.nodes p) o.Namespaces
        have hdec : (h.nodes p).Metadata IsOutside = none ∨ outsideDecided o (h.nodes p) →
            outsideDecided o n' := by
          intro hpre
          unfold outsideDecided
          rw [m.namespace_, hout]
          by_cases ho : isOutside (h.nodes p) o.Namespaces = true
          · rw [if_pos ⟨hna, ho⟩]
            exact ⟨fun _ => hiff.mp ho, fun _ => rfl⟩
          · rw [if_neg (fun hc => ho hc.2)]
            rcases hpre with h0 | hd
            · rw [h0]
              exact ⟨fun hc => (by cases hc), fun hc => absurd (hiff.mpr hc) ho⟩
            · exact hd
        exact ⟨fun hd => ih1 (hdec (Or.inr hd)), fun _ h0 => ih1 (hdec (Or.inl h0))⟩
      · have hna' : ¬ alwaysInaccessible ((h.setNode q n').nodes p) := by
          rw [Heap.setNode_get_other _ _ _ _ hpq]
          exact hna
        obtain ⟨ih1, ih2⟩ := ih (h.setNode q n') hr hna'
        rw [Heap.setNode_get_other _ _ _ _ hpq] at ih1 ih2
        refine ⟨ih1, fun hmem h0 => ih2 ?_ h0⟩
        simp only [List.map_cons, List.mem_cons] at hmem
        rcases hmem with h1 | h1
        · exact absurd h1 hpq
        · exact h1

/-! ## `MarkTrafficGenerators` -/

theorem addDests_mem_keys (h : Heap) (es : List Nat) (dm : TrafficMap) (k : String) :
    k ∈ (addDests h dm es).keys ↔
      k ∈ dm.keys ∨ ∃ e ∈ es, (h.nodes (h.edges e).Dest).ID = k := by
  induction es generalizing dm with
  | nil => simp [addDests]
  | cons e rest ih =>
    have := ih (dm.set (h.nodes (h.edges e).Dest).ID (h.edges e).Dest)
    simp only [addDests, List.foldl_cons] at this ⊢
    rw [this, TrafficMap.mem_keys_set]
    simp only [List.mem_cons, exists_eq_or_imp]
    constructor
    · rintro ((h1 | h1) | h1)
      · exact Or.inr (Or.inl h1.symm)
      · exact Or.inl h1
      · exact Or.inr (Or.inr h1)
    · rintro (h1 | h1 | h1)
      · exact Or.inl (Or.inr h1)
      · exact Or.inl (Or.inl h1.symm)
      · exact Or.inr h1

theorem destLoop_mem_keys (h : Heap) (tm : TrafficMap) (dm : TrafficMap) (k : String) :
    k ∈ (tm.foldl (fun dm entry => addDests h dm (h.nodes entry.2).Edges) dm).keys ↔
      k ∈ dm.keys ∨ ∃ x ∈ tm, ∃ e ∈ (h.nodes x.2).Edges, (h.nodes (h.edges e).Dest).ID = k := by
  induction tm generalizing dm with
  | nil => simp
  | cons entry rest ih =>
    simp only [List.foldl_cons]
    rw [ih, addDests_mem_keys]
    simp only [List.mem_cons, exists_eq_or_imp]
    constructor
    · rintro ((h1 | h1) | h1)
      · exact Or.inl h1
      · exact Or.inr (Or.inl h1)
      · exact Or.inr (Or.inr h1)
    · rintro (h1 | h1 | h1)
      · exact Or.inl (Or.inl h1)
      · exact Or.inl (Or.inr h1)
      · exact Or.inr h1

/-- A key is missing from `destMap` exactly when no edge of the map leads to a node with
that ID. -/
theorem buildDestMap_get_none (h : Heap) (tm : TrafficMap) (k : String) :
    (buildDestMap h tm).get k = none ↔
      ∀ x ∈ tm, ∀ e ∈ (h.nodes x.2).Edges, (h.nodes (h.edges e).Dest).ID ≠ k := by
  rw [TrafficMap.get_eq_none_iff]
  unfold buildDestMap
  rw [destLoop_mem_keys]
  simp [TrafficMap.keys]

theorem markGenerator_eq (destMap : TrafficMap) (h : Heap) (entry : String × Nat) :
    (isGenerator destMap (h.nodes entry.2) ∧
        markGenerator destMap h entry = h.setNode entry.2 ((h.nodes entry.2).setFlag IsRoot)) ∨
      (¬ isGenerator destMap (h.nodes entry.2) ∧ markGenerator destMap h entry = h) := by
  unfold markGenerator isGenerator
  by_cases he : (h.nodes entry.2).Edges = []
  · right
    simp [he]
  · have hl : ¬ (h.nodes entry.2).Edges.length = 0 := by
      simpa [List.length_eq_zero] using he
    cases hg : destMap.get (h.nodes entry.2).ID with
    | none => left; simp [hl, he]
    | some p => right; simp [hl]

theorem markGenerators_spec (destMap : TrafficMap) (l : TrafficMap) (h : Heap) :
    GeneratorsMarked destMap l h (l.foldl (markGenerator destMap) h) := by
  induction l generalizing h with
  | nil =>
    exact ⟨rfl, fun _ => rfl, fun _ => rfl, fun _ => rfl, fun _ => rfl, fun _ => rfl,
      fun _ _ _ => rfl, fun _ _ => rfl, fun q hq => by simp at hq⟩
  | cons entry rest ih =>
    simp only [List.foldl_cons]
    rcases markGenerator_eq destMap h entry with ⟨hg, heq⟩ | ⟨hg, heq⟩
    · have r := ih (markGenerator destMap h entry)
      rw [heq] at r ⊢
      have hnode : ∀ q, ((h.setNode entry.2 ((h.nodes entry.2).setFlag IsRoot)).nodes q).ID =
            (h.nodes q).ID ∧
          ((h.setNode entry.2 ((h.nodes entry.2).setFlag IsRoot)).nodes q).NodeType =
            (h.nodes q).NodeType ∧
          ((h.setNode entry.2 ((h.nodes entry.2).setFlag IsRoot)).nodes q).Namespace =
            (h.nodes q).Namespace ∧
          ((h.setNode entry.2 ((h.nodes entry.2).setFlag IsRoot)).nodes q).Service =
            (h.nodes q).Service ∧
          ((h.setNode entry.2 ((h.nodes entry.2).setFlag IsRoot)).nodes q).Edges =
            (h.nodes q).Edges ∧
          ∀ k, k ≠ IsRoot →
            ((h.setNode entry.2 ((h.nodes entry.2).setFlag IsRoot)).nodes q).Metadata k =
              (h.nodes q).Metadata k := by
        intro q
        by_cases hq : q = entry.2
        · subst hq
          simp only [Heap.setNode_get_same]
          refine ⟨rfl, rfl, rfl, rfl, rfl, fun k hk => setFlag_get_other _ _ _ hk⟩
        · rw [Heap.setNode_get_other _ _ _ _ hq]
          exact ⟨rfl, rfl, rfl, rfl, rfl, fun _ _ => rfl⟩
      have hgen : ∀ q, isGenerator destMap
          ((h.setNode entry.2 ((h.nodes entry.2).setFlag IsRoot)).nodes q) ↔
          isGenerator destMap (h.nodes q) := by
        intro q
        unfold isGenerator
        rw [(hnode q).1, (hnode q).2.2.2.2.1]
      refine ⟨r.edgeStore, fun q => (r.id q).trans (hnode q).1,
        fun q => (r.nodeType q).trans (hnode q).2.1,
        fun q => (r.namespace_ q).trans (hnode q).2.2.1,
        fun q => (r.service q).trans (hnode q).2.2.2.1,
        fun q => (r.edges q).trans (hnode q).2.2.2.2.1,
        fun q k hk => (r.metadata q k hk).trans ((hnode q).2.2.2.2.2 k hk), ?_, ?_⟩
      · intro q hq
        have hne : q ≠ entry.2 := by
          intro heq2
          subst heq2
          exact hq ⟨by simp, hg⟩
        rw [r.unmarked q, Heap.setNode_get_other _ _ _ _ hne]
        rintro ⟨hmem, hgq⟩
        exact hq ⟨by simp [hmem], (hgen q).mp hgq⟩
      · intro q hmem hgq
        by_cases hin : q ∈ rest.map Prod.snd
        · exact r.marked q hin ((hgen q).mpr hgq)
        · have hqe : q = entry.2 := by
            simp only [List.map_cons, List.mem_cons] at hmem
            rcases hmem with h1 | h1
            · exact h1
            · exact absurd h1 hin
          rw [r.unmarked q (fun hc => hin hc.1), hqe, Heap.setNode_get_same]
          exact setFlag_get_same _ _
    · have r := ih (markGenerator destMap h entry)
      rw [heq] at r ⊢
      refine ⟨r.edgeStore, r.id, r.nodeType, r.namespace_, r.service, r.edges, r.metadata, ?_, ?_⟩
      · intro q hq
        apply r.unmarked
        rintro ⟨hmem, hgq⟩
        exact hq ⟨by simp [hmem], hgq⟩
      · intro q hmem hgq
        apply r.marked q _ hgq
        simp only [List.map_cons, List.mem_cons] at hmem
        rcases hmem with h1 | h1
        · subst h1
          exact absurd hgq hg
        · exact h1

/-! ## The claims -/

/-- C1 (as stated) fails: a map of two service nodes `S1 -> S2` is not reduced to itself, the
call aborts in `checkNodeType`. -/
theorem C1_service_only_map_raises :
    (∀ e ∈ serviceOnlyMap, (serviceOnlyHeap.nodes e.2).NodeType = NodeTypeService) ∧
      ReduceToServiceGraph specLib serviceOnlyHeap serviceOnlyMap =
        Except.error Panic.graphError := by
  constructor
  · decide
  · rfl

/-- C1 (amended): on a map with distinct keys that holds only service nodes, the reduction
is a no-op when no node has an outgoing edge (same entries, store unchanged, hence same edge
lists and metadata), and raises the graph error when some node has an edge to a service
node. -/
theorem C1_service_only_reduce (G : GraphLib) (h : Heap) (tm : TrafficMap)
    (hkeys : tm.keys.Nodup)
    (hs : ∀ e ∈ tm, (h.nodes e.2).NodeType = NodeTypeService) :
    ((∀ e ∈ tm, (h.nodes e.2).Edges = []) →
        ReduceToServiceGraph G h tm = Except.ok (h, tm)) ∧
      ((∃ e ∈ tm, ∃ ed ∈ (h.nodes e.2).Edges,
          (h.nodes (h.edges ed).Dest).NodeType = NodeTypeService) →
        ReduceToServiceGraph G h tm = Except.error Panic.graphError) := by
  constructor
  · intro hed
    unfold ReduceToServiceGraph
    rw [reduceLoop_no_edges G h tm NewTrafficMap (fun e he => ⟨hs e he, hed e he⟩),
      TrafficMap.setAll_of_nodup tm NewTrafficMap (by simpa [NewTrafficMap, TrafficMap.keys] using hkeys)]
    rfl
  · rintro ⟨e, he, ed, hed, hty⟩
    apply reduceLoop_graphError_of_bad
    · intro x hx hns
      exact absurd (hs x hx) hns
    · refine ⟨e, he, hs e he, ed, hed, ?_⟩
      unfold badDest
      rw [hty]
      decide

/-- C1 (amended), at two isolated service nodes and at `S1 -> S2`. -/
theorem C1_service_only_reduce_witness :
    ReduceToServiceGraph specLib isolatedHeap serviceOnlyMap =
        Except.ok (isolatedHeap, serviceOnlyMap) ∧
      ReduceToServiceGraph specLib serviceOnlyHeap serviceOnlyMap =
        Except.error Panic.graphError :=
  ⟨(C1_service_only_reduce specLib isolatedHeap serviceOnlyMap (by decide) (by decide)).1
      (by decide),
    (C1_service_only_reduce specLib serviceOnlyHeap serviceOnlyMap (by decide) (by decide)).2
      (by decide)⟩

/-- C2: `MergeTrafficMaps` preserves the no-duplicate-edge invariant: when every node of the
accumulator and of the merged-in map has edges with pairwise distinct `(Dest.ID, protocol)`
keys, so has every node of the accumulator after the call. -/
theorem C2_merge_preserves_distinct_edge_keys (G : GraphLib) (h : Heap)
    (trafficMap : TrafficMap) (ns : String) (nsTrafficMap : TrafficMap)
    (hacc : ∀ e ∈ trafficMap, noDupEdges h e.2)
    (hns : ∀ e ∈ nsTrafficMap, noDupEdges h e.2) :
    ∀ e ∈ (MergeTrafficMaps G h trafficMap ns nsTrafficMap).2,
      noDupEdges (MergeTrafficMaps G h trafficMap ns nsTrafficMap).1 e.2 := by
  intro e he
  unfold MergeTrafficMaps at he ⊢
  apply mergeLoop_noDup
  rcases mergeLoop_mem G ns nsTrafficMap (h, trafficMap) e he with h1 | h1
  · exact hns e h1
  · exact hacc e h1

/-- C2 at the merge example: merging the ns2 map into the ns1 map gives the nodes
`unknown, A, B, C`, node `A` has the single edge `A -> B`, and every node has distinct edge
keys. -/
theorem C2_merge_example :
    (MergeTrafficMaps specLib mergeHeap ns1Map "ns2" ns2Map).2.keys = ["unknown", "A", "B", "C"] ∧
      (((MergeTrafficMaps specLib mergeHeap ns1Map "ns2" ns2Map).1.nodes 1).Edges.map
          (edgeKey (MergeTrafficMaps specLib mergeHeap ns1Map "ns2" ns2Map).1)) =
        [("B", some (Value.str "http"))] ∧
      ∀ e ∈ (MergeTrafficMaps specLib mergeHeap ns1Map "ns2" ns2Map).2,
        noDupEdges (MergeTrafficMaps specLib mergeHeap ns1Map "ns2" ns2Map).1 e.2 :=
  ⟨by decide, by decide,
    C2_merge_preserves_distinct_edge_keys specLib mergeHeap ns1Map "ns2" ns2Map (by decide)
      (by decide)⟩

/-- C3 (as stated) fails: the incoming instance of `B` is owned by the merged-in scope and
replaces the resident, but its metadata after the merge is not the metadata it was passed in
with: the resident's edge `B -> D` is appended and its traffic added to `tcpOut`. -/
theorem C3_owned_duplicate_metadata_changes :
    (ownedDupHeap.nodes 1).Namespace = "ns2" ∧
      (MergeTrafficMaps specLib ownedDupHeap [("B", 0)] "ns2" [("B", 1)]).2 = [("B", 1)] ∧
      (ownedDupHeap.nodes 1).Metadata "tcpOut" = none ∧
      ((MergeTrafficMaps specLib ownedDupHeap [("B", 0)] "ns2" [("B", 1)]).1.nodes 1).Metadata
          "tcpOut" = some (Value.num 7) := by
  decide

/-- C3 (amended): for maps keyed by node ID and a node ID present in both maps whose
incoming instance belongs to the merged-in scope, the accumulator afterwards stores the
incoming instance; its edge list is its own followed by the resident's edges with a new key,
and its metadata is its own metadata updated by `AddOutgoingEdgeToMetadata` once per appended
edge; so it equals the incoming metadata when every key of the resident's edges already
occurs among the incoming edges. -/
theorem C3_owned_duplicate_is_incoming (G : GraphLib) (h : Heap) (trafficMap : TrafficMap)
    (ns : String) (nsTrafficMap : TrafficMap) (nsID : String) (nsNode node : Nat)
    (hacc : keyedByID h trafficMap) (hpart : keyedByID h nsTrafficMap)
    (hkeys : nsTrafficMap.keys.Nodup) (hin : (nsID, nsNode) ∈ nsTrafficMap)
    (hdup : trafficMap.get nsID = some node) (hown : (h.nodes nsNode).Namespace = ns) :
    (MergeTrafficMaps G h trafficMap ns nsTrafficMap).2.get nsID = some nsNode ∧
      ((MergeTrafficMaps G h trafficMap ns nsTrafficMap).1.nodes nsNode).Edges =
        (h.nodes nsNode).Edges ++ newEdges h (h.nodes nsNode).Edges (h.nodes node).Edges ∧
      ((MergeTrafficMaps G h trafficMap ns nsTrafficMap).1.nodes nsNode).Metadata =
        addOutgoing G h (h.nodes nsNode).Metadata
          (newEdges h (h.nodes nsNode).Edges (h.nodes node).Edges) ∧
      ((∀ e ∈ (h.nodes node).Edges, ∃ x ∈ (h.nodes nsNode).Edges, edgeKey h e = edgeKey h x) →
        ((MergeTrafficMaps G h trafficMap ns nsTrafficMap).1.nodes nsNode).Metadata =
          (h.nodes nsNode).Metadata) := by
  obtain ⟨h1, h2, h3⟩ := mergeLoop_owned G ns nsTrafficMap (h, trafficMap) hacc hpart hkeys
    nsID nsNode node hin hdup hown
  refine ⟨h1, h2, h3, ?_⟩
  intro hall
  unfold MergeTrafficMaps
  rw [h3, newEdges_eq_nil h _ _ hall]
  rfl

/-- C3 (amended) at the merge example: `B` of the ns2 map replaces `B` of the ns1 map and
keeps its metadata, the resident having no edge. -/
theorem C3_owned_duplicate_is_incoming_witness :
    (MergeTrafficMaps specLib mergeHeap ns1Map "ns2" ns2Map).2.get "B" = some 4 ∧
      ((MergeTrafficMaps specLib mergeHeap ns1Map "ns2" ns2Map).1.nodes 4).Metadata =
        (mergeHeap.nodes 4).Metadata :=
  ⟨(C3_owned_duplicate_is_incoming specLib mergeHeap ns1Map "ns2" ns2Map "B" 4 2 (by decide)
      (by decide) (by decide) (by decide) (by decide) (by decide)).1,
    (C3_owned_duplicate_is_incoming specLib mergeHeap ns1Map "ns2" ns2Map "B" 4 2 (by decide)
      (by decide) (by decide) (by decide) (by decide) (by decide)).2.2.2 (by decide)⟩

/-- A node of the merged-in map whose key is new is stored untouched. -/
theorem mergeLoop_new_node (G : GraphLib) (ns : String) (l : TrafficMap) (st : Heap × TrafficMap)
    (hm : keyedByID st.1 st.2) (hl : keyedByID st.1 l) (hnd : l.keys.Nodup)
    (k : String) (p : Nat) (hin : (k, p) ∈ l) (hnew : st.2.get k = none) :
    (l.foldl (mergeNode G ns) st).1.nodes p = st.1.nodes p := by
  induction l generalizing st with
  | nil => simp at hin
  | cons entry rest ih =>
    simp only [TrafficMap.keys, List.map_cons, List.nodup_cons] at hnd
    have s := mergeNode_step G ns st entry hm (hl entry (List.mem_cons_self _ _))
    have hrest : keyedByID (mergeNode G ns st entry).1 rest :=
      keyedByID_congr s.id rest (fun e he => hl e (List.mem_cons_of_mem _ he))
    have hp : (st.1.nodes p).ID = k := hl (k, p) hin
    simp only [List.foldl_cons]
    rcases List.mem_cons.mp hin with heq | hin'
    · subst heq
      have r := mergeLoop_run G ns rest (mergeNode G ns st (k, p)) s.keyed hrest
      have hk : (k, p).1 ∉ TrafficMap.keys rest := hnd.1
      rw [r.other p (by rw [s.id, hp]; exact hk)]
      simp [mergeNode, hnew]
    · have hne : k ≠ entry.1 := by
        intro h
        exact hnd.1 (h ▸ List.mem_map_of_mem Prod.fst hin')
      rw [ih (mergeNode G ns st entry) s.keyed hrest hnd.2 hin'
        (by rw [mergeNode_get_other G ns st entry k hne]; exact hnew)]
      exact s.other p (by rw [hp]; exact hne)

/-- C4: after `MergeTrafficMaps` the keys of the accumulator are the keys it had before
together with the keys of the merged-in map; a node whose key was absent from the
accumulator is stored as given (the same object, and, in maps keyed by node ID, with the
value it had); when every key of the merged-in map is already present the number of
nodes does not change; and maps keyed by node ID are merged into a map keyed by node ID,
so the keys are the node IDs throughout. -/
theorem C4_merge_node_ids (G : GraphLib) (h : Heap) (trafficMap : TrafficMap) (ns : String)
    (nsTrafficMap : TrafficMap) :
    (∀ k, k ∈ (MergeTrafficMaps G h trafficMap ns nsTrafficMap).2.keys ↔
        k ∈ trafficMap.keys ∨ k ∈ nsTrafficMap.keys) ∧
      (nsTrafficMap.keys.Nodup → ∀ nsID nsNode, (nsID, nsNode) ∈ nsTrafficMap →
        nsID ∉ trafficMap.keys →
        (MergeTrafficMaps G h trafficMap ns nsTrafficMap).2.get nsID = some nsNode) ∧
      (nsTrafficMap.keys.Nodup → keyedByID h trafficMap → keyedByID h nsTrafficMap →
        ∀ nsID nsNode, (nsID, nsNode) ∈ nsTrafficMap → nsID ∉ trafficMap.keys →
        (MergeTrafficMaps G h trafficMap ns nsTrafficMap).1.nodes nsNode = h.nodes nsNode) ∧
      ((∀ k ∈ nsTrafficMap.keys, k ∈ trafficMap.keys) →
        (MergeTrafficMaps G h trafficMap ns nsTrafficMap).2.length = trafficMap.length) ∧
      (keyedByID h trafficMap → keyedByID h nsTrafficMap →
        keyedByID (MergeTrafficMaps G h trafficMap ns nsTrafficMap).1
          (MergeTrafficMaps G h trafficMap ns nsTrafficMap).2) := by
  unfold MergeTrafficMaps
  refine ⟨fun k => mergeLoop_mem_keys G ns nsTrafficMap (h, trafficMap) k, ?_, ?_, ?_,
    fun hacc hpart => (mergeLoop_run G ns nsTrafficMap (h, trafficMap) hacc hpart).keyed⟩
  · intro hnd nsID nsNode hmem hk
    exact mergeLoop_get_new G ns nsTrafficMap (h, trafficMap) hnd nsID nsNode hmem hk
  · intro hnd hacc hpart nsID nsNode hmem hk
    exact mergeLoop_new_node G ns nsTrafficMap (h, trafficMap) hacc hpart hnd nsID nsNode hmem
      ((TrafficMap.get_eq_none_iff _ _).mpr hk)
  · intro hk
    exact mergeLoop_length G ns nsTrafficMap (h, trafficMap) hk

/-- C4 at the merge example: `C` is new and stored as given; merging the map `A, B` of
already present keys leaves three nodes. -/
theorem C4_merge_node_ids_witness :
    (MergeTrafficMaps specLib mergeHeap ns1Map "ns2" ns2Map).2.get "C" = some 5 ∧
      (MergeTrafficMaps specLib mergeHeap ns1Map "ns2" ns2Map).1.nodes 5 = mergeHeap.nodes 5 ∧
      (MergeTrafficMaps specLib mergeHeap ns1Map "ns2" [("A", 3), ("B", 4)]).2.length = 3 :=
  ⟨(C4_merge_node_ids specLib mergeHeap ns1Map "ns2" ns2Map).2.1 (by decide) "C" 5 (by decide)
      (by decide),
    (C4_merge_node_ids specLib mergeHeap ns1Map "ns2" ns2Map).2.2.1 (by decide) (by decide)
      (by decide) "C" 5 (by decide) (by decide),
    (C4_merge_node_ids specLib mergeHeap ns1Map "ns2" [("A", 3), ("B", 4)]).2.2.2.1
      (by decide)⟩

/-- C5: when `ReduceToServiceGraph` completes on a map (with distinct keys), the returned map
holds exactly the entries of the input whose node is a service node or carries
`IsRoot = true`, in input order, so its node IDs are exactly the IDs of those nodes; a
node that is neither is absent from the returned map. -/
theorem C5_reduce_node_ids (G : GraphLib) (h : Heap) (tm : TrafficMap) (h' : Heap)
    (out : TrafficMap) (hkeys : tm.keys.Nodup)
    (hr : ReduceToServiceGraph G h tm = Except.ok (h', out)) :
    out = tm.filter (fun e => keptByReduce h e.2) ∧
      out.map (fun e => (h'.nodes e.2).ID) =
        (tm.filter (fun e => keptByReduce h e.2)).map (fun e => (h.nodes e.2).ID) ∧
      ∀ e ∈ tm, (h.nodes e.2).NodeType ≠ NodeTypeService →
        (h.nodes e.2).Metadata IsRoot ≠ some (Value.bool true) → e.2 ∉ out.map Prod.snd := by
  unfold ReduceToServiceGraph at hr
  obtain ⟨ha, hout⟩ := reduceLoop_ok G h tm (h, NewTrafficMap) (h', out) (sameAttrs_refl h) hr
  have hout' : out = tm.filter (fun e => keptByReduce h e.2) := by
    simp only at hout
    rw [hout, TrafficMap.setAll_of_nodup _ NewTrafficMap
      (by simpa [NewTrafficMap, TrafficMap.keys] using filter_keys_nodup tm _ hkeys)]
    rfl
  refine ⟨hout', ?_, ?_⟩
  · rw [hout']
    apply List.map_congr_left
    intro e _
    exact ha.id e.2
  · intro e _ hty hroot hmem
    rw [hout'] at hmem
    obtain ⟨x, hx, hxe⟩ := List.mem_map.mp hmem
    have hk := (List.mem_filter.mp hx).2
    simp only [keptByReduce, hxe, Bool.or_eq_true, decide_eq_true_eq] at hk
    rcases hk with hk | hk
    · exact hty hk
    · exact hroot hk

/-- C5 at `reduceMap`: the services `S1`, `S2`, `S3` and the root workload `R` are returned,
the workloads `W1` and `W2` are not. -/
theorem C5_reduce_node_ids_witness :
    reducedMap specLib reduceHeap reduceMap = [("S1", 0), ("S2", 3), ("S3", 4), ("R", 5)] ∧
      1 ∉ (reducedMap specLib reduceHeap reduceMap).map Prod.snd :=
  ⟨(C5_reduce_node_ids specLib reduceHeap reduceMap (reducedHeap specLib reduceHeap reduceMap)
      (reducedMap specLib reduceHeap reduceMap) (by decide) rfl).1.trans (by decide),
    (C5_reduce_node_ids specLib reduceHeap reduceMap (reducedHeap specLib reduceHeap reduceMap)
      (reducedMap specLib reduceHeap reduceMap) (by decide) rfl).2.2 ("W1", 1) (by decide)
      (by decide) (by decide)⟩

/-- A map keyed by node ID with distinct keys stores no node object under two keys. -/
theorem keyedByID_distinct_nodes (h : Heap) (tm : TrafficMap) (hk : keyedByID h tm)
    (hn : tm.keys.Nodup) : (tm.map Prod.snd).Nodup := by
  induction tm with
  | nil => exact List.nodup_nil
  | cons x rest ih =>
    have hn' : x.1 ∉ rest.map Prod.fst ∧ (rest.map Prod.fst).Nodup := by
      simpa [TrafficMap.keys] using hn
    rw [List.map_cons, List.nodup_cons]
    refine ⟨?_, ih (fun e he => hk e (List.mem_cons_of_mem _ he)) hn'.2⟩
    intro hmem
    obtain ⟨y, hy, hyx⟩ := List.mem_map.mp hmem
    apply hn'.1
    refine List.mem_map.mpr ⟨y, hy, ?_⟩
    rw [← hk y (List.mem_cons_of_mem _ hy), hyx]
    exact hk x (List.mem_cons_self _ _)

/-- C6: on a map that stores no node object under two keys (as every map keyed by node ID
does, see `keyedByID_distinct_nodes`) and in which the `IsRoot` entry of every node that is
not a service node is absent or a boolean (the only values `MarkTrafficGenerators` writes),
`ReduceToServiceGraph` raises the graph error if and only if some service node of the map has
a direct edge whose destination is not a workload node, and it completes otherwise: edges of
nodes that are not service nodes and second-hop edges never raise it. -/
theorem C6_graph_error_iff (G : GraphLib) (h : Heap) (tm : TrafficMap)
    (hdistinct : (tm.map Prod.snd).Nodup) (hflags : ∀ e ∈ tm, rootFlagBool h e.2) :
    (ReduceToServiceGraph G h tm = Except.error Panic.graphError ↔
        ∃ e ∈ tm, badService h e.2) ∧
      ((¬ ∃ e ∈ tm, badService h e.2) → ∃ r, ReduceToServiceGraph G h tm = Except.ok r) := by
  unfold ReduceToServiceGraph
  refine ⟨⟨fun hr => reduceLoop_bad_of_graphError G tm _ hdistinct hr,
    fun hb => reduceLoop_graphError_of_bad G tm _ hflags hb⟩,
    fun hg => reduceLoop_completes G tm _ hdistinct hflags hg⟩

/-- C6 at `S1 -> S2`, which raises the graph error, and at `reduceMap`, a map keyed by node ID
where every direct edge of a service leads to a workload and the root workload `R` has an
edge to the workload `W1`: the call completes. -/
theorem C6_graph_error_iff_witness :
    ReduceToServiceGraph specLib serviceOnlyHeap serviceOnlyMap =
        Except.error Panic.graphError ∧
      ∃ r, ReduceToServiceGraph specLib reduceHeap reduceMap = Except.ok r :=
  ⟨(C6_graph_error_iff specLib serviceOnlyHeap serviceOnlyMap
      (keyedByID_distinct_nodes serviceOnlyHeap serviceOnlyMap (by decide) (by decide))
      (by decide)).1.mpr (by decide),
    (C6_graph_error_iff specLib reduceHeap reduceMap
      (keyedByID_distinct_nodes reduceHeap reduceMap (by decide) (by decide))
      (by decide)).2 (by decide)⟩

/-- C7 fails on `reduceMap`.  For `S1` the claim holds: its single edge to `S2` carries
5 + 7 = 12 requests.  But that edge is the edge object `W1 -> S2` of the input, which is also
the single edge of `S3`: the only two-hop path `S3 -> W1 -> S2` carries 5 requests in the
input, and the edge of `S3` carries 12 after the reduction, in either order of visit. -/
theorem C7_shared_edge_overcounts :
    (reduceHeap.edges 2).Metadata "http" = some (Value.num 5) ∧
      (reduceHeap.edges 3).Metadata "http" = some (Value.num 7) ∧
      ((reducedHeap specLib reduceHeap reduceMap).nodes 0).Edges = [2] ∧
      ((reducedHeap specLib reduceHeap reduceMap).nodes 4).Edges = [2] ∧
      ((reducedHeap specLib reduceHeap reduceMap).edges 2).Metadata "http" =
        some (Value.num 12) ∧
      ((reducedHeap specLib reduceHeap reduceMap.reverse).nodes 4).Edges = [2] ∧
      ((reducedHeap specLib reduceHeap reduceMap.reverse).edges 2).Metadata "http" =
        some (Value.num 12) := by
  decide

/-- C8: after `MarkOutsideOrInaccessible` every node of the map that is of unknown type, or a
service node with unknown namespace and unknown service, or a service node whose
`IsEgressCluster` entry is true, carries `IsInaccessible = true`, whatever the requested and
accessible namespaces; and the call completes on every map whose `IsOutside` entries are
absent or booleans. -/
theorem C8_always_inaccessible (h : Heap) (tm : TrafficMap) (o : TelemetryOptions) :
    (∀ h', MarkOutsideOrInaccessible h tm o = Except.ok h' →
        ∀ e ∈ tm, alwaysInaccessible (h.nodes e.2) →
          (h'.nodes e.2).Metadata IsInaccessible = some (Value.bool true)) ∧
      ((∀ e ∈ tm, boolOrAbsent (h.nodes e.2).Metadata IsOutside) →
        ∃ h', MarkOutsideOrInaccessible h tm o = Except.ok h') := by
  refine ⟨?_, markLoop_completes o tm h⟩
  intro h' hr e he ha
  exact (markLoop_inaccessible o tm h h' hr e.2).2 (List.mem_map_of_mem Prod.snd he) ha

/-- C8 at `classifyMap`: the call completes and the unknown/unknown service is inaccessible. -/
theorem C8_always_inaccessible_witness :
    (∃ h', MarkOutsideOrInaccessible classifyHeap classifyMap classifyOptions = Except.ok h') ∧
      ((markedHeap classifyHeap classifyMap classifyOptions).nodes 1).Metadata IsInaccessible =
        some (Value.bool true) :=
  ⟨(C8_always_inaccessible classifyHeap classifyMap classifyOptions).2 (by decide),
    (C8_always_inaccessible classifyHeap classifyMap classifyOptions).1
      (markedHeap classifyHeap classifyMap classifyOptions) rfl ("svc-unknown", 1) (by decide)
      (by decide)⟩

/-- The classification never changes a namespace. -/
theorem markLoop_namespace (o : TelemetryOptions) (tm : TrafficMap) (h h' : Heap)
    (hr : MarkOutsideOrInaccessible h tm o = Except.ok h') (p : Nat) :
    (h'.nodes p).Namespace = (h.nodes p).Namespace := by
  induction tm generalizing h with
  | nil =>
    simp only [MarkOutsideOrInaccessible] at hr
    cases hr
    rfl
  | cons entry rest ih =>
    obtain ⟨k, q⟩ := entry
    simp only [MarkOutsideOrInaccessible] at hr
    cases hstep : markNode (h.nodes q) o with
    | error e => rw [hstep] at hr; cases hr
    | ok n' =>
      rw [hstep] at hr
      have m := markNode_spec _ _ o hstep
      rw [ih (h.setNode q n') hr]
      by_cases hpq : p = q
      · rw [hpq, Heap.setNode_get_same]
        exact m.namespace_
      · rw [Heap.setNode_get_other _ _ _ _ hpq]

/-- C9: for a node of the map that carries no `IsOutside` entry on entry and is not in the
always-inaccessible class, after `MarkOutsideOrInaccessible` the node carries
`IsOutside = true` if and only if its namespace is not the sentinel `unknown` and is not the
name of a requested namespace. -/
theorem C9_outside_iff (h : Heap) (tm : TrafficMap) (o : TelemetryOptions) (h' : Heap)
    (hr : MarkOutsideOrInaccessible h tm o = Except.ok h') (e : String × Nat) (he : e ∈ tm)
    (hno : (h.nodes e.2).Metadata IsOutside = none)
    (hclass : ¬ alwaysInaccessible (h.nodes e.2)) :
    (h'.nodes e.2).Metadata IsOutside = some (Value.bool true) ↔
      ((h.nodes e.2).Namespace ≠ Unknown ∧
        ∀ x ∈ o.Namespaces, x.2.Name ≠ (h.nodes e.2).Namespace) := by
  have hd := (markLoop_outside o tm h h' hr e.2 hclass).2 (List.mem_map_of_mem Prod.snd he) hno
  have hns := markLoop_namespace o tm h h' hr e.2
  unfold outsideDecided at hd
  rw [hns] at hd
  exact hd

/-- C9 at `classifyMap`: the workload of the requested namespace ns1 is not marked outside,
the workload of namespace ns2 is. -/
theorem C9_outside_iff_witness :
    ((markedHeap classifyHeap classifyMap classifyOptions).nodes 3).Metadata IsOutside ≠
        some (Value.bool true) ∧
      ((markedHeap classifyHeap classifyMap classifyOptions).nodes 4).Metadata IsOutside =
        some (Value.bool true) :=
  ⟨fun hc => absurd
      ((C9_outside_iff classifyHeap classifyMap classifyOptions
        (markedHeap classifyHeap classifyMap classifyOptions) rfl ("w1", 3) (by decide)
        (by decide) (by decide)).mp hc)
      (by decide),
    (C9_outside_iff classifyHeap classifyMap classifyOptions
      (markedHeap classifyHeap classifyMap classifyOptions) rfl ("w2", 4) (by decide)
      (by decide) (by decide)).mpr (by decide)⟩

/-- C10: on a map whose nodes carry no `IsRoot` entry, after `MarkTrafficGenerators` a node
of the map carries `IsRoot = true` if and only if it has an outgoing edge and its ID is
not the ID of the destination of any edge of any node of the map.  (That the keys are the
node IDs is not needed.) -/
theorem C10_root_iff (h : Heap) (tm : TrafficMap)
    (hno : ∀ e ∈ tm, (h.nodes e.2).Metadata IsRoot = none) (e : String × Nat) (he : e ∈ tm) :
    ((MarkTrafficGenerators h tm).nodes e.2).Metadata IsRoot = some (Value.bool true) ↔
      ((h.nodes e.2).Edges ≠ [] ∧
        ∀ x ∈ tm, ∀ ed ∈ (h.nodes x.2).Edges,
          (h.nodes (h.edges ed).Dest).ID ≠ (h.nodes e.2).ID) := by
  have r := markGenerators_spec (buildDestMap h tm) tm h
  have hmem : e.2 ∈ tm.map Prod.snd := List.mem_map_of_mem Prod.snd he
  unfold MarkTrafficGenerators
  rw [← buildDestMap_get_none]
  by_cases hg : isGenerator (buildDestMap h tm) (h.nodes e.2)
  · exact ⟨fun _ => hg, fun _ => r.marked e.2 hmem hg⟩
  · rw [r.unmarked e.2 (fun hc => hg hc.2), hno e he]
    exact ⟨fun hc => (by cases hc), fun hc => absurd hc hg⟩

/-- C10 at `A -> B -> C`: `A` is a root, `B` and `C` are not. -/
theorem C10_root_iff_witness :
    ((MarkTrafficGenerators chainHeap chainMap).nodes 0).Metadata IsRoot =
        some (Value.bool true) ∧
      ((MarkTrafficGenerators chainHeap chainMap).nodes 1).Metadata IsRoot ≠
        some (Value.bool true) ∧
      ((MarkTrafficGenerators chainHeap chainMap).nodes 2).Metadata IsRoot ≠
        some (Value.bool true) :=
  ⟨(C10_root_iff chainHeap chainMap (by decide) ("A", 0) (by decide)).mpr (by decide),
    fun hc => absurd
      ((C10_root_iff chainHeap chainMap (by decide) ("B", 1) (by decide)).mp hc) (by decide),
    fun hc => absurd
      ((C10_root_iff chainHeap chainMap (by decide) ("C", 2) (by decide)).mp hc) (by decide)⟩

/-! ## `ReduceToServiceGraph`: what the loop leaves in root and service nodes -/

theorem destStable_refl (h : Heap) : DestStable h h :=
  ⟨fun _ => rfl, fun _ => rfl⟩

theorem destStable_trans {h1 h2 h3 : Heap} (a : DestStable h1 h2) (b : DestStable h2 h3) :
    DestStable h1 h3 :=
  ⟨fun q => (b.nodeType q).trans (a.nodeType q), fun e => (b.dest e).trans (a.dest e)⟩

theorem DestStable.serviceEdges_eq {h h' : Heap} (s : DestStable h h') (l : List Nat) :
    serviceEdges h' l = serviceEdges h l := by
  unfold Kiali.serviceEdges
  apply List.filter_congr
  intro e _
  rw [s.dest, s.nodeType]

theorem DestStable.badDest_iff {h h' : Heap} (s : DestStable h h') (e : Nat) :
    badDest h' e ↔ badDest h e := by
  unfold Kiali.badDest
  rw [s.dest, s.nodeType]

theorem ReduceFrame.destStable {n : Nat} {h h' : Heap} (f : ReduceFrame n h h') :
    DestStable h h' :=
  ⟨f.nodeType, f.dest⟩

theorem SameAttrs.toDest {h h' : Heap} (a : SameAttrs h h') : DestStable h h' :=
  ⟨a.nodeType, a.dest⟩

theorem mem_serviceEdges (h : Heap) (l : List Nat) (e : Nat) :
    e ∈ serviceEdges h l ↔ e ∈ l ∧ (h.nodes (h.edges e).Dest).NodeType = NodeTypeService := by
  simp [serviceEdges, List.mem_filter]

theorem serviceEdges_idem (h : Heap) (l : List Nat) :
    serviceEdges h (serviceEdges h l) = serviceEdges h l := by
  simp [serviceEdges, List.filter_filter]

theorem serviceEdges_append (h : Heap) (l1 l2 : List Nat) :
    serviceEdges h (l1 ++ l2) = serviceEdges h l1 ++ serviceEdges h l2 := by
  simp [serviceEdges]

theorem mem_twoHopFrom (h : Heap) (l : List Nat) (e : Nat) :
    e ∈ twoHopFrom h l ↔
      ∃ we ∈ l, e ∈ serviceEdges h (h.nodes (h.edges we).Dest).Edges := by
  induction l with
  | nil => simp [twoHopFrom]
  | cons we rest ih => simp [twoHopFrom, ih]

theorem twoHopFrom_congr {h h' : Heap} (s : DestStable h h') (l : List Nat)
    (hl : ∀ we ∈ l, serviceEdges h (h'.nodes (h.edges we).Dest).Edges =
      serviceEdges h (h.nodes (h.edges we).Dest).Edges) :
    twoHopFrom h' l = twoHopFrom h l := by
  induction l with
  | nil => rfl
  | cons we rest ih =>
    simp only [twoHopFrom]
    rw [ih (fun x hx => hl x (List.mem_cons_of_mem _ hx)), s.serviceEdges_eq, s.dest,
      hl we (List.mem_cons_self _ _)]

theorem NodeTypeWorkload_ne_Service : NodeTypeWorkload ≠ NodeTypeService := by decide

/-- The edge list of `n` after one second-hop edge. -/
theorem reduceServiceEdge_edges (G : GraphLib) (n : Nat) (h : Heap) (se : Nat) :
    ((reduceServiceEdge G n h se).nodes n).Edges =
      if (h.nodes (h.edges se).Dest).NodeType = NodeTypeService ∧
          findServiceEdge h (h.nodes (h.edges se).Dest).ID
            ((h.edges se).Metadata ProtocolKey) (h.nodes n).Edges = none
      then (h.nodes n).Edges ++ [se] else (h.nodes n).Edges := by
  by_cases hty : (h.nodes (h.edges se).Dest).NodeType = NodeTypeService
  · cases hf : findServiceEdge h (h.nodes (h.edges se).Dest).ID
        ((h.edges se).Metadata ProtocolKey) (h.nodes n).Edges with
    | none => simp [reduceServiceEdge, hty, hf, Heap.setNode, Node.withEdges]
    | some edge => simp [reduceServiceEdge, hty, hf, addServiceGraphTraffic, Heap.setEdge]
  · simp [reduceServiceEdge, hty]

theorem reduceServiceEdge_folded (G : GraphLib) (n : Nat) (h : Heap) (se : Nat) :
    Folded h n [se] (reduceServiceEdge G n h se) := by
  have fr := reduceServiceEdge_frame G n h se
  have hE := reduceServiceEdge_edges G n h se
  refine ⟨fr, ?_, ?_⟩
  · intro e he
    rw [hE]
    split
    · exact List.mem_append_left _ he
    · exact he
  · intro e he
    rw [hE] at he
    split at he
    · next hc =>
      rcases List.mem_append.mp he with h1 | h1
      · exact Or.inl h1
      · right
        rw [List.mem_singleton] at h1
        subst h1
        exact (mem_serviceEdges h _ _).mpr ⟨List.mem_singleton.mpr rfl, hc.1⟩
    · exact Or.inl he

theorem Folded.append {h h1 h2 : Heap} {n : Nat} {ws1 ws2 : List Nat}
    (a : Folded h n ws1 h1) (b : Folded h1 n ws2 h2) : Folded h n (ws1 ++ ws2) h2 := by
  refine ⟨reduceFrame_trans a.frame b.frame, fun e he => b.keep e (a.keep e he), ?_⟩
  intro e he
  rw [serviceEdges_append]
  rcases b.new e he with h1' | h1'
  · rcases a.new e h1' with h2' | h2'
    · exact Or.inl h2'
    · exact Or.inr (List.mem_append_left _ h2')
  · rw [a.frame.destStable.serviceEdges_eq] at h1'
    exact Or.inr (List.mem_append_right _ h1')

theorem folded_refl (h : Heap) (n : Nat) : Folded h n [] h :=
  ⟨reduceFrame_refl n h, fun _ he => he, fun _ he => Or.inl he⟩

theorem reduceServiceEdges_folded (G : GraphLib) (n : Nat) (ws : List Nat) (h : Heap) :
    Folded h n ws (ws.foldl (reduceServiceEdge G n) h) := by
  induction ws generalizing h with
  | nil => exact folded_refl h n
  | cons se rest ih =>
    exact Folded.append (reduceServiceEdge_folded G n h se) (ih (reduceServiceEdge G n h se))

/-- The second-hop edges seen from the store reached after one direct edge are those of the
store before it. -/
theorem twoHopFrom_after (n : Nat) (hs h1 : Heap) (fr : ReduceFrame n hs h1)
    (hty : (hs.nodes n).NodeType = NodeTypeService) (rest : List Nat)
    (hgood : ∀ x ∈ rest, ¬ badDest hs x) : twoHopFrom h1 rest = twoHopFrom hs rest := by
  apply twoHopFrom_congr fr.destStable
  intro x hx
  have hne : (hs.edges x).Dest ≠ n := by
    intro heq
    have hx' := hgood x hx
    unfold badDest at hx'
    rw [heq, hty] at hx'
    exact hx' (fun hc => NodeTypeWorkload_ne_Service hc.symm)
  rw [fr.edgesOther _ hne]

theorem reduceWorkloadEdges_hopped (G : GraphLib) (n : Nat) (l : List Nat) (hs h2 : Heap)
    (hty : (hs.nodes n).NodeType = NodeTypeService)
    (hr : reduceWorkloadEdges G n hs l = Except.ok h2) : Hopped hs n l h2 := by
  induction l generalizing hs with
  | nil =>
    simp only [reduceWorkloadEdges, Except.ok.injEq] at hr
    subst hr
    exact ⟨reduceFrame_refl _ _, fun _ hx => by simp at hx, fun _ he => he,
      fun _ he => Or.inl he⟩
  | cons we rest ih =>
    by_cases hb : badDest hs we
    · simp [reduceWorkloadEdges, reduceWorkloadEdge_bad G n hs we hb] at hr
    · simp only [reduceWorkloadEdges, reduceWorkloadEdge_good G n hs we hb] at hr
      have a := reduceServiceEdges_folded G n (hs.nodes (hs.edges we).Dest).Edges hs
      have b := ih _ (by rw [a.frame.nodeType]; exact hty) hr
      have hgood : ∀ x ∈ rest, ¬ badDest hs x :=
        fun x hx hbx => b.good x hx ((a.frame.destStable.badDest_iff x).mpr hbx)
      have htwo := twoHopFrom_after n hs _ a.frame hty rest hgood
      refine ⟨reduceFrame_trans a.frame b.frame, ?_, fun e he => b.keep e (a.keep e he), ?_⟩
      · intro x hx
        rcases List.mem_cons.mp hx with rfl | hx'
        · exact hb
        · exact hgood x hx'
      · intro e he
        simp only [twoHopFrom, List.mem_append]
        rcases b.new e he with h1 | h1
        · rcases a.new e h1 with h2' | h2'
          · exact Or.inl h2'
          · exact Or.inr (Or.inl h2')
        · rw [htwo] at h1
          exact Or.inr (Or.inr h1)

theorem reduceInv_refl (h : Heap) : ReduceInv h h :=
  ⟨sameAttrs_refl h, fun _ _ => Or.inl rfl, fun _ _ => Or.inl rfl⟩

theorem reduceWorkloadEdges_visit (G : GraphLib) (h hc h2 : Heap) (p : Nat)
    (inv : ReduceInv h hc) (hty : (h.nodes p).NodeType = NodeTypeService)
    (hw : reduceWorkloadEdges G p (hc.setNode p ((hc.nodes p).withEdges []))
      (hc.nodes p).Edges = Except.ok h2) : ServiceVisit h p hc h2 := by
  have hty' : (hc.nodes p).NodeType = NodeTypeService := by
    rw [inv.attrs.nodeType]; exact hty
  have hop := reduceWorkloadEdges_hopped G p _ _ h2
    (by simp [Heap.setNode, Node.withEdges, hty']) hw
  have s0 : DestStable h (hc.setNode p ((hc.nodes p).withEdges [])) :=
    destStable_trans inv.attrs.toDest (ReduceFrame.setEdges p hc []).destStable
  have hnil : ((hc.setNode p ((hc.nodes p).withEdges [])).nodes p).Edges = [] := by
    simp [Heap.setNode, Node.withEdges]
  have hgood : ∀ we ∈ (hc.nodes p).Edges, ¬ badDest h we :=
    fun we hwe hb => hop.good we hwe ((s0.badDest_iff we).mpr hb)
  have htwo : twoHopFrom (hc.setNode p ((hc.nodes p).withEdges [])) (hc.nodes p).Edges =
      twoHopFrom h (hc.nodes p).Edges := by
    apply twoHopFrom_congr s0
    intro we hwe
    have hwty : (h.nodes (h.edges we).Dest).NodeType = NodeTypeWorkload := by
      have := hgood we hwe
      unfold badDest at this
      exact not_not.mp this
    have hne : (h.edges we).Dest ≠ p := by
      intro heq
      rw [heq, hty] at hwty
      exact NodeTypeWorkload_ne_Service hwty.symm
    have hns : (h.nodes (h.edges we).Dest).NodeType ≠ NodeTypeService := by
      rw [hwty]; exact NodeTypeWorkload_ne_Service
    rw [Heap.setNode_get_other _ _ _ _ hne]
    rcases inv.nonService _ hns with h1 | h1
    · rw [h1]
    · rw [h1, serviceEdges_idem]
  have hempty : ServiceReduced h p (hc.nodes p).Edges → (hc.nodes p).Edges = [] := by
    intro hB
    apply List.eq_nil_iff_forall_not_mem.mpr
    intro we hwe
    have h1 := hB.sub we hwe
    unfold twoHopEdges at h1
    obtain ⟨x, _, hx⟩ := (mem_twoHopFrom h _ we).mp h1
    have h2' := ((mem_serviceEdges h _ we).mp hx).2
    have h3 := hgood we hwe
    unfold badDest at h3
    rw [h2'] at h3
    exact h3 (fun hc => NodeTypeWorkload_ne_Service hc.symm)
  refine ⟨hop, hgood, htwo, ?_, hempty⟩
  rcases inv.service p hty with hA | hB
  · refine ⟨by rw [← hA]; exact hgood, ?_⟩
    intro e he
    rcases hop.new e he with h1 | h1
    · rw [hnil] at h1; simp at h1
    · rw [htwo, hA] at h1
      exact h1
  · have he := hempty hB
    refine ⟨hB.directOK, ?_⟩
    intro e he'
    rcases hop.new e he' with h1 | h1
    · rw [hnil] at h1; simp at h1
    · rw [he] at h1; simp [twoHopFrom] at h1

/-- The store after the visit of a service node is the store after the loop over its direct
edges. -/
theorem reduceNode_service_ok (G : GraphLib) (st st' : Heap × TrafficMap)
    (entry : String × Nat) (hty : (st.1.nodes entry.2).NodeType = NodeTypeService)
    (hr : reduceNode G st entry = Except.ok st') :
    reduceWorkloadEdges G entry.2 (st.1.setNode entry.2 ((st.1.nodes entry.2).withEdges []))
      (st.1.nodes entry.2).Edges = Except.ok st'.1 := by
  unfold reduceNode at hr
  rw [if_neg (by simpa using hty)] at hr
  cases hw : reduceWorkloadEdges G entry.2
      (st.1.setNode entry.2 ((st.1.nodes entry.2).withEdges [])) (st.1.nodes entry.2).Edges with
  | error e => rw [hw] at hr; cases hr
  | ok h2 =>
    rw [hw] at hr
    simp only [Except.ok.injEq] at hr
    subst hr
    rfl

/-- Visit of a service node: the invariant is kept and the node is reduced. -/
theorem reduceNode_service_visit (G : GraphLib) (h : Heap)
    (st st' : Heap × TrafficMap) (entry : String × Nat) (inv : ReduceInv h st.1)
    (hty : (h.nodes entry.2).NodeType = NodeTypeService)
    (hr : reduceNode G st entry = Except.ok st') :
    ReduceInv h st'.1 ∧ ServiceReduced h entry.2 (st'.1.nodes entry.2).Edges := by
  have hty' : (st.1.nodes entry.2).NodeType = NodeTypeService := by
    rw [inv.attrs.nodeType]; exact hty
  obtain ⟨fr, _, _⟩ := reduceNode_ok G st st' entry hr
  have v := reduceWorkloadEdges_visit G h st.1 st'.1 entry.2 inv hty
    (reduceNode_service_ok G st st' entry hty' hr)
  refine ⟨⟨inv.attrs.step fr, ?_, ?_⟩, v.reduced⟩
  · intro q hq
    have hne : q ≠ entry.2 := fun heq => hq (heq ▸ hty)
    rw [fr.edgesOther q hne]
    exact inv.nonService q hq
  · intro q hq
    by_cases hne : q = entry.2
    · rw [hne]
      exact Or.inr v.reduced
    · rw [fr.edgesOther q hne]
      exact inv.service q hq

/-- Visit of a node that is not a service node: the invariant is kept and a root node has
its edge list filtered. -/
theorem reduceNode_other_visit (G : GraphLib) (h : Heap) (st st' : Heap × TrafficMap)
    (entry : String × Nat) (inv : ReduceInv h st.1)
    (hty : (h.nodes entry.2).NodeType ≠ NodeTypeService)
    (hr : reduceNode G st entry = Except.ok st') :
    ReduceInv h st'.1 ∧ st'.1.edges = st.1.edges ∧
      ((h.nodes entry.2).Metadata IsRoot = some (Value.bool true) →
        (st'.1.nodes entry.2).Edges = serviceEdges h (h.nodes entry.2).Edges) ∧
      ((st.1.nodes entry.2).Edges = serviceEdges h (h.nodes entry.2).Edges →
        (st'.1.nodes entry.2).Edges = serviceEdges h (h.nodes entry.2).Edges) := by
  have hty' : (st.1.nodes entry.2).NodeType ≠ NodeTypeService := by
    rw [inv.attrs.nodeType]; exact hty
  obtain ⟨fr, _, _⟩ := reduceNode_ok G st st' entry hr
  have hfilt : serviceEdges st.1 (st.1.nodes entry.2).Edges =
      serviceEdges h (h.nodes entry.2).Edges := by
    rw [inv.attrs.toDest.serviceEdges_eq]
    rcases inv.nonService entry.2 hty with h1 | h1
    · rw [h1]
    · rw [h1, serviceEdges_idem]
  unfold reduceNode at hr
  rw [if_pos hty'] at hr
  rw [inv.attrs.metadata] at hr
  split at hr
  · next hroot =>
    cases hr
    exact ⟨inv, rfl, fun hc => (by rw [hroot] at hc; cases hc), fun hc => hc⟩
  · next hroot =>
    cases hr
    exact ⟨inv, rfl, fun hc => (by rw [hroot] at hc; cases hc), fun hc => hc⟩
  · next hroot =>
    simp only [Except.ok.injEq] at hr
    subst hr
    simp only at fr ⊢
    have hE : ((st.1.setNode entry.2 ((st.1.nodes entry.2).withEdges
        (serviceEdges st.1 (st.1.nodes entry.2).Edges))).nodes entry.2).Edges =
        serviceEdges h (h.nodes entry.2).Edges := by
      rw [Heap.setNode_get_same]
      exact hfilt
    refine ⟨⟨inv.attrs.step fr, ?_, ?_⟩, rfl, fun _ => hE, fun _ => hE⟩
    · intro q hq
      by_cases hne : q = entry.2
      · rw [hne]
        exact Or.inr hE
      · rw [fr.edgesOther q hne]
        exact inv.nonService q hq
    · intro q hq
      have hne : q ≠ entry.2 := fun heq => hty (heq ▸ hq)
      rw [fr.edgesOther q hne]
      exact inv.service q hq
  · cases hr

theorem reduceNode_reduced (G : GraphLib) (h : Heap)
    (st st' : Heap × TrafficMap) (entry : String × Nat) (inv : ReduceInv h st.1)
    (hr : reduceNode G st entry = Except.ok st') : Reduced h [entry] st.1 st'.1 := by
  obtain ⟨fr, _, _⟩ := reduceNode_ok G st st' entry hr
  by_cases hty : (h.nodes entry.2).NodeType = NodeTypeService
  · obtain ⟨inv', hred⟩ := reduceNode_service_visit G h st st' entry inv hty hr
    refine ⟨inv', ?_, ?_, ?_, ?_⟩
    · intro e he _
      rw [List.mem_singleton.mp he]
      exact hred
    · intro e he hne
      rw [List.mem_singleton.mp he] at hne
      exact absurd hty hne
    · intro q _ hq
      by_cases hqe : q = entry.2
      · rw [hqe]; exact hred
      · rw [fr.edgesOther q hqe]; exact hq
    · intro q hq hE
      have hqe : q ≠ entry.2 := fun heq => hq (heq ▸ hty)
      rw [fr.edgesOther q hqe]; exact hE
  · obtain ⟨inv', _, hroot, hkept⟩ := reduceNode_other_visit G h st st' entry inv hty hr
    refine ⟨inv', ?_, ?_, ?_, ?_⟩
    · intro e he hs
      rw [List.mem_singleton.mp he] at hs
      exact absurd hs hty
    · intro e he _ hr'
      rw [List.mem_singleton.mp he] at hr' ⊢
      exact hroot hr'
    · intro q hq hred
      have hqe : q ≠ entry.2 := fun heq => hty (heq ▸ hq)
      rw [fr.edgesOther q hqe]; exact hred
    · intro q _ hE
      by_cases hqe : q = entry.2
      · rw [hqe] at hE ⊢; exact hkept hE
      · rw [fr.edgesOther q hqe]; exact hE

theorem reduceLoop_reduced (G : GraphLib) (h : Heap) (tm : TrafficMap)
    (st st' : Heap × TrafficMap) (inv : ReduceInv h st.1)
    (hr : reduceLoop G st tm = Except.ok st') : Reduced h tm st.1 st'.1 := by
  induction tm generalizing st with
  | nil =>
    simp only [reduceLoop, Except.ok.injEq] at hr
    subst hr
    exact ⟨inv, fun _ he => by simp at he, fun _ he => by simp at he, fun _ _ hq => hq,
      fun _ _ hq => hq⟩
  | cons entry rest ih =>
    simp only [reduceLoop] at hr
    cases hstep : reduceNode G st entry with
    | error e => rw [hstep] at hr; cases hr
    | ok st1 =>
      rw [hstep] at hr
      have a := reduceNode_reduced G h st st1 entry inv hstep
      have b := ih st1 a.inv hr
      refine ⟨b.inv, ?_, ?_, fun q hq hred => b.serviceKept q hq (a.serviceKept q hq hred),
        fun q hq hE => b.rootKept q hq (a.rootKept q hq hE)⟩
      · intro e he hs
        rcases List.mem_cons.mp he with rfl | he'
        · exact b.serviceKept _ hs (a.service _ (List.mem_singleton.mpr rfl) hs)
        · exact b.service e he' hs
      · intro e he hns hroot
        rcases List.mem_cons.mp he with rfl | he'
        · exact b.rootKept _ hns (a.root _ (List.mem_singleton.mpr rfl) hns hroot)
        · exact b.root e he' hns hroot

/-! ## `ReduceToServiceGraph`: edge keys of the rebuilt service nodes -/

theorem keysStable_refl (h : Heap) : KeysStable h h :=
  ⟨fun _ => rfl, fun _ => rfl, fun _ => rfl⟩

theorem keysStable_trans {h1 h2 h3 : Heap} (a : KeysStable h1 h2) (b : KeysStable h2 h3) :
    KeysStable h1 h3 :=
  ⟨fun q => (b.id q).trans (a.id q), fun e => (b.dest e).trans (a.dest e),
    fun e => (b.proto e).trans (a.proto e)⟩

theorem KeysStable.edgeKey_eq {h h' : Heap} (s : KeysStable h h') : edgeKey h' = edgeKey h := by
  funext e
  simp [Kiali.edgeKey, s.dest, s.id, s.proto]

theorem KeysStable.ofFrame {n : Nat} {h h' : Heap} (f : ReduceFrame n h h')
    (hp : ∀ e, (h'.edges e).Metadata ProtocolKey = (h.edges e).Metadata ProtocolKey) :
    KeysStable h h' :=
  ⟨f.id, f.dest, hp⟩

theorem findServiceEdge_none (h : Heap) (childID : String) (proto : Option Value)
    (l : List Nat) :
    findServiceEdge h childID proto l = none ↔ (childID, proto) ∉ l.map (edgeKey h) := by
  induction l with
  | nil => simp [findServiceEdge]
  | cons e rest ih =>
    by_cases hk : childID = (h.nodes (h.edges e).Dest).ID ∧ proto = (h.edges e).Metadata ProtocolKey
    · have hke : (childID, proto) = edgeKey h e := by
        simp [edgeKey, hk.1.symm, hk.2.symm]
      unfold findServiceEdge
      rw [if_pos hk]
      constructor
      · intro hc
        cases hc
      · intro hc
        exact absurd (by rw [hke]; simp) hc
    · have hne : ¬ (childID, proto) = edgeKey h e := by
        intro heq
        simp only [edgeKey, Prod.mk.injEq] at heq
        exact hk heq
      simp only [findServiceEdge, hk, if_false, ih, List.map_cons, List.mem_cons, hne,
        false_or]

theorem findServiceEdge_some (h : Heap) (childID : String) (proto : Option Value)
    (l : List Nat) (e : Nat) (hf : findServiceEdge h childID proto l = some e) :
    e ∈ l ∧ edgeKey h e = (childID, proto) := by
  induction l with
  | nil => simp [findServiceEdge] at hf
  | cons x rest ih =>
    by_cases hk : childID = (h.nodes (h.edges x).Dest).ID ∧ proto = (h.edges x).Metadata ProtocolKey
    · simp only [findServiceEdge, hk, and_self, if_true, Option.some.injEq] at hf
      subst hf
      refine ⟨List.mem_cons_self _ _, ?_⟩
      simp [edgeKey, hk.1.symm, hk.2.symm]
    · simp only [findServiceEdge, hk, if_false] at hf
      exact ⟨List.mem_cons_of_mem _ (ih hf).1, (ih hf).2⟩

/-- One second-hop edge: the protocol of every edge is kept. -/
theorem reduceServiceEdge_proto (G : GraphLib) (hG : KeepsProtocol G) (n : Nat) (h : Heap)
    (se : Nat) (e : Nat) :
    ((reduceServiceEdge G n h se).edges e).Metadata ProtocolKey =
      (h.edges e).Metadata ProtocolKey := by
  unfold reduceServiceEdge
  split
  · rfl
  · split
    · rfl
    · next edge _ =>
      simp only [addServiceGraphTraffic, Heap.setEdge]
      by_cases he : e = edge
      · simp only [he, if_true]
        exact hG _ _
      · simp only [he, if_false]

theorem reduceServiceEdge_keys (G : GraphLib) (hG : KeepsProtocol G) (n : Nat) (h : Heap)
    (se : Nat) : FoldedKeys h n [se] (reduceServiceEdge G n h se) := by
  have st := KeysStable.ofFrame (reduceServiceEdge_frame G n h se)
    (reduceServiceEdge_proto G hG n h se)
  have hE := reduceServiceEdge_edges G n h se
  refine ⟨st, ?_, ?_⟩
  · intro e he
    obtain ⟨hmem, hty⟩ := (mem_serviceEdges h _ e).mp he
    rw [List.mem_singleton] at hmem
    subst hmem
    rw [hE]
    cases hf : findServiceEdge h (h.nodes (h.edges e).Dest).ID
        ((h.edges e).Metadata ProtocolKey) (h.nodes n).Edges with
    | none => simp [hty]
    | some edge =>
      obtain ⟨hmem, hkey⟩ := findServiceEdge_some h _ _ _ _ hf
      simp only [hty, true_and, reduceCtorEq, if_false]
      exact List.mem_map.mpr ⟨edge, hmem, hkey⟩
  · intro hnd
    rw [hE]
    split
    · next hc =>
      have hnot := (findServiceEdge_none h _ _ _).mp hc.2
      rw [List.map_append, List.nodup_append]
      refine ⟨hnd, by simp, ?_⟩
      intro a ha hb
      simp only [List.map_cons, List.map_nil, List.mem_singleton] at hb
      subst hb
      exact hnot ha
    · exact hnd

theorem FoldedKeys.appendKeys {h h1 h2 : Heap} {n : Nat} {ws1 ws2 : List Nat}
    (a : FoldedKeys h n ws1 h1) (a' : Folded h n ws1 h1) (b : FoldedKeys h1 n ws2 h2)
    (b' : Folded h1 n ws2 h2) : FoldedKeys h n (ws1 ++ ws2) h2 := by
  have hk := a.stable.edgeKey_eq
  refine ⟨keysStable_trans a.stable b.stable, ?_, ?_⟩
  · intro e he
    rw [serviceEdges_append] at he
    rcases List.mem_append.mp he with h1' | h1'
    · obtain ⟨x, hx, hxk⟩ := List.mem_map.mp (a.covers e h1')
      exact List.mem_map.mpr ⟨x, b'.keep x hx, hxk⟩
    · have hc := b.covers e (by rw [a'.frame.destStable.serviceEdges_eq]; exact h1')
      rw [hk] at hc
      exact hc
  · intro hnd
    have hc := b.nodup (by rw [hk]; exact a.nodup hnd)
    rw [hk] at hc
    exact hc

theorem reduceServiceEdges_keys (G : GraphLib) (hG : KeepsProtocol G) (n : Nat)
    (ws : List Nat) (h : Heap) : FoldedKeys h n ws (ws.foldl (reduceServiceEdge G n) h) := by
  induction ws generalizing h with
  | nil =>
    exact ⟨keysStable_refl h, fun e he => by simp [serviceEdges] at he, fun hnd => hnd⟩
  | cons se rest ih =>
    exact FoldedKeys.appendKeys (reduceServiceEdge_keys G hG n h se)
      (reduceServiceEdge_folded G n h se) (ih (reduceServiceEdge G n h se))
      (reduceServiceEdges_folded G n rest (reduceServiceEdge G n h se))

theorem reduceWorkloadEdges_keys (G : GraphLib) (hG : KeepsProtocol G) (n : Nat)
    (l : List Nat) (hs h2 : Heap) (hty : (hs.nodes n).NodeType = NodeTypeService)
    (hr : reduceWorkloadEdges G n hs l = Except.ok h2) : HoppedKeys hs n l h2 := by
  induction l generalizing hs with
  | nil =>
    simp only [reduceWorkloadEdges, Except.ok.injEq] at hr
    subst hr
    exact ⟨keysStable_refl _, fun e he => by simp [twoHopFrom] at he, fun hnd => hnd⟩
  | cons we rest ih =>
    have hop := reduceWorkloadEdges_hopped G n (we :: rest) hs h2 hty hr
    have hb : ¬ badDest hs we := hop.good we (List.mem_cons_self _ _)
    simp only [reduceWorkloadEdges, reduceWorkloadEdge_good G n hs we hb] at hr
    have a := reduceServiceEdges_keys G hG n (hs.nodes (hs.edges we).Dest).Edges hs
    have a' := reduceServiceEdges_folded G n (hs.nodes (hs.edges we).Dest).Edges hs
    have hty1 : ((List.foldl (reduceServiceEdge G n) hs
        (hs.nodes (hs.edges we).Dest).Edges).nodes n).NodeType = NodeTypeService := by
      rw [a'.frame.nodeType]; exact hty
    have b := ih _ hty1 hr
    have b' := reduceWorkloadEdges_hopped G n rest _ h2 hty1 hr
    have hk := a.stable.edgeKey_eq
    have htwo := twoHopFrom_after n hs _ a'.frame hty rest
      (fun x hx => hop.good x (List.mem_cons_of_mem _ hx))
    refine ⟨keysStable_trans a.stable b.stable, ?_, ?_⟩
    · intro e he
      simp only [twoHopFrom, List.mem_append] at he
      rcases he with h1 | h1
      · obtain ⟨x, hx, hxk⟩ := List.mem_map.mp (a.covers e h1)
        exact List.mem_map.mpr ⟨x, b'.keep x hx, hxk⟩
      · have hc := b.covers e (by rw [htwo]; exact h1)
        rw [hk] at hc
        exact hc
    · intro hnd
      have hc := b.nodup (by rw [hk]; exact a.nodup hnd)
      rw [hk] at hc
      exact hc

theorem reduceKeysInv_refl (h : Heap) : ReduceKeysInv h h :=
  ⟨fun _ => rfl, fun _ _ => Or.inl rfl⟩

/-- Visit of a service node: the keys of the reduced node. -/
theorem reduceNode_service_keys (G : GraphLib) (hG : KeepsProtocol G) (h : Heap)
    (st st' : Heap × TrafficMap) (entry : String × Nat) (inv : ReduceInv h st.1)
    (kinv : ReduceKeysInv h st.1) (hty : (h.nodes entry.2).NodeType = NodeTypeService)
    (hr : reduceNode G st entry = Except.ok st') :
    ReduceKeysInv h st'.1 ∧ ServiceKeys h entry.2 (st'.1.nodes entry.2).Edges := by
  have hty' : (st.1.nodes entry.2).NodeType = NodeTypeService := by
    rw [inv.attrs.nodeType]; exact hty
  obtain ⟨fr, _, _⟩ := reduceNode_ok G st st' entry hr
  have hw := reduceNode_service_ok G st st' entry hty' hr
  have v := reduceWorkloadEdges_visit G h st.1 st'.1 entry.2 inv hty hw
  have k := reduceWorkloadEdges_keys G hG entry.2 _ _ st'.1
    (by simp [Heap.setNode, Node.withEdges, hty']) hw
  have s0 : KeysStable h (st.1.setNode entry.2 ((st.1.nodes entry.2).withEdges [])) :=
    keysStable_trans ⟨inv.attrs.id, inv.attrs.dest, kinv.proto⟩
      (KeysStable.ofFrame (ReduceFrame.setEdges entry.2 st.1 []) (fun _ => rfl))
  have hk := s0.edgeKey_eq
  have hnil : ((st.1.setNode entry.2 ((st.1.nodes entry.2).withEdges [])).nodes entry.2).Edges
      = [] := by
    simp [Heap.setNode, Node.withEdges]
  have hkeys : ServiceKeys h entry.2 (st'.1.nodes entry.2).Edges := by
    rcases kinv.service entry.2 hty with hA | hB
    · refine ⟨?_, ?_⟩
      · have hc := k.nodup (by rw [hnil]; simp)
        rw [hk] at hc
        exact hc
      · intro e he
        have hc := k.covers e (by rw [v.twoHop, hA]; exact he)
        rw [hk] at hc
        exact hc
    · rcases inv.service entry.2 hty with hA | hB'
      · refine ⟨?_, ?_⟩
        · have hc := k.nodup (by rw [hnil]; simp)
          rw [hk] at hc
          exact hc
        · intro e he
          have hc := k.covers e (by rw [v.twoHop, hA]; exact he)
          rw [hk] at hc
          exact hc
      · have hempty := v.empty hB'
        have hout : (st'.1.nodes entry.2).Edges = [] := by
          apply List.eq_nil_iff_forall_not_mem.mpr
          intro e he
          rcases v.hop.new e he with h1 | h1
          · rw [hnil] at h1; simp at h1
          · rw [hempty] at h1; simp [twoHopFrom] at h1
        rw [hout]
        rw [hempty] at hB
        exact hB
  refine ⟨⟨?_, ?_⟩, hkeys⟩
  · intro e
    rw [k.stable.proto]
    exact kinv.proto e
  · intro q hq
    by_cases hne : q = entry.2
    · rw [hne]
      exact Or.inr hkeys
    · rw [fr.edgesOther q hne]
      exact kinv.service q hq

theorem reduceNode_keys (G : GraphLib) (hG : KeepsProtocol G) (h : Heap)
    (st st' : Heap × TrafficMap) (entry : String × Nat) (inv : ReduceInv h st.1)
    (kinv : ReduceKeysInv h st.1) (hr : reduceNode G st entry = Except.ok st') :
    ReducedKeys h [entry] st.1 st'.1 := by
  obtain ⟨fr, _, _⟩ := reduceNode_ok G st st' entry hr
  by_cases hty : (h.nodes entry.2).NodeType = NodeTypeService
  · obtain ⟨kinv', hkeys⟩ := reduceNode_service_keys G hG h st st' entry inv kinv hty hr
    refine ⟨kinv', ?_, ?_⟩
    · intro e he _
      rw [List.mem_singleton.mp he]
      exact hkeys
    · intro q _ hq
      by_cases hqe : q = entry.2
      · rw [hqe]; exact hkeys
      · rw [fr.edgesOther q hqe]; exact hq
  · obtain ⟨_, hedges, _, _⟩ := reduceNode_other_visit G h st st' entry inv hty hr
    have hother : ∀ q, (h.nodes q).NodeType = NodeTypeService →
        (st'.1.nodes q).Edges = (st.1.nodes q).Edges :=
      fun q hq => fr.edgesOther q (fun heq => hty (heq ▸ hq))
    refine ⟨⟨?_, ?_⟩, ?_, ?_⟩
    · intro e
      rw [hedges]
      exact kinv.proto e
    · intro q hq
      rw [hother q hq]
      exact kinv.service q hq
    · intro e he hs
      rw [List.mem_singleton.mp he] at hs
      exact absurd hs hty
    · intro q hq hkeys
      rw [hother q hq]
      exact hkeys

theorem reduceLoop_keys (G : GraphLib) (hG : KeepsProtocol G) (h : Heap) (tm : TrafficMap)
    (st st' : Heap × TrafficMap) (inv : ReduceInv h st.1) (kinv : ReduceKeysInv h st.1)
    (hr : reduceLoop G st tm = Except.ok st') : ReducedKeys h tm st.1 st'.1 := by
  induction tm generalizing st with
  | nil =>
    simp only [reduceLoop, Except.ok.injEq] at hr
    subst hr
    exact ⟨kinv, fun _ he => by simp at he, fun _ _ hq => hq⟩
  | cons entry rest ih =>
    simp only [reduceLoop] at hr
    cases hstep : reduceNode G st entry with
    | error e => rw [hstep] at hr; cases hr
    | ok st1 =>
      rw [hstep] at hr
      have a' := reduceNode_reduced G h st st1 entry inv hstep
      have a := reduceNode_keys G hG h st st1 entry inv kinv hstep
      have b := ih st1 a'.inv a.inv hr
      refine ⟨b.inv, ?_, fun q hq hk => b.serviceKept q hq (a.serviceKept q hq hk)⟩
      intro e he hs
      rcases List.mem_cons.mp he with rfl | he'
      · exact b.serviceKept _ hs (a.service _ (List.mem_singleton.mpr rfl) hs)
      · exact b.service e he' hs

/-! ## Claims on the reduced graph -/

theorem TrafficMap.mem_setAll (l acc : TrafficMap) (e : String × Nat)
    (he : e ∈ TrafficMap.setAll acc l) : e ∈ acc ∨ e ∈ l := by
  induction l generalizing acc with
  | nil => exact Or.inl he
  | cons x rest ih =>
    simp only [TrafficMap.setAll, List.foldl_cons] at he
    rcases ih (acc.set x.1 x.2) he with h1 | h1
    · rcases TrafficMap.mem_set acc x.1 x.2 e h1 with h2 | h2
      · exact Or.inr (h2 ▸ List.mem_cons_self _ _)
      · exact Or.inl h2
    · exact Or.inr (List.mem_cons_of_mem _ h1)

/-- Every entry of the returned map is a kept entry of the input. -/
theorem reduce_mem_out (G : GraphLib) (h : Heap) (tm : TrafficMap) (h' : Heap)
    (out : TrafficMap) (hr : ReduceToServiceGraph G h tm = Except.ok (h', out))
    (e : String × Nat) (he : e ∈ out) : e ∈ tm ∧ keptByReduce h e.2 = true := by
  unfold ReduceToServiceGraph at hr
  obtain ⟨_, hout⟩ := reduceLoop_ok G h tm (h, NewTrafficMap) (h', out) (sameAttrs_refl h) hr
  simp only at hout
  rw [hout] at he
  rcases TrafficMap.mem_setAll _ _ e he with h1 | h1
  · simp [NewTrafficMap] at h1
  · exact ⟨(List.mem_filter.mp h1).1, (List.mem_filter.mp h1).2⟩

/-- With distinct keys, the returned map is the list of kept entries. -/
theorem reduce_out_eq (G : GraphLib) (h : Heap) (tm : TrafficMap) (h' : Heap)
    (out : TrafficMap) (hkeys : tm.keys.Nodup)
    (hr : ReduceToServiceGraph G h tm = Except.ok (h', out)) :
    out = tm.filter (fun e => keptByReduce h e.2) := by
  unfold ReduceToServiceGraph at hr
  obtain ⟨_, hout⟩ := reduceLoop_ok G h tm (h, NewTrafficMap) (h', out) (sameAttrs_refl h) hr
  simp only at hout
  rw [hout, TrafficMap.setAll_of_nodup _ NewTrafficMap
    (by simpa [NewTrafficMap, TrafficMap.keys] using filter_keys_nodup tm _ hkeys)]
  rfl

theorem NodeTypeService_ne_Workload : NodeTypeService ≠ NodeTypeWorkload := by decide

/-- C11: when `ReduceToServiceGraph` completes on a map (with distinct keys), every node of
the input that is not a service node and carries `IsRoot = true` is in the returned map, with
its metadata unchanged and with its input edge list filtered, in the original order, to the
edges whose destination is a service node. -/
theorem C11_root_node_kept (G : GraphLib) (h : Heap) (tm : TrafficMap) (h' : Heap)
    (out : TrafficMap) (hkeys : tm.keys.Nodup)
    (hr : ReduceToServiceGraph G h tm = Except.ok (h', out)) (e : String × Nat) (he : e ∈ tm)
    (hty : (h.nodes e.2).NodeType ≠ NodeTypeService)
    (hroot : (h.nodes e.2).Metadata IsRoot = some (Value.bool true)) :
    e ∈ out ∧ (h'.nodes e.2).Metadata = (h.nodes e.2).Metadata ∧
      (h'.nodes e.2).Edges =
        (h.nodes e.2).Edges.filter
          (fun ed => decide ((h.nodes (h.edges ed).Dest).NodeType = NodeTypeService)) := by
  have hout := reduce_out_eq G h tm h' out hkeys hr
  unfold ReduceToServiceGraph at hr
  have red := reduceLoop_reduced G h tm (h, NewTrafficMap) (h', out) (reduceInv_refl h) hr
  refine ⟨?_, red.inv.attrs.metadata e.2, red.root e he hty hroot⟩
  rw [hout]
  exact List.mem_filter.mpr ⟨he, by simp [keptByReduce, hroot]⟩

/-- C11 at `rootOnlyMap`: the root workload whose only edge leads to a workload is kept with
no edge. -/
theorem C11_root_node_kept_witness :
    ("R", 0) ∈ reducedMap specLib rootOnlyHeap rootOnlyMap ∧
      ((reducedHeap specLib rootOnlyHeap rootOnlyMap).nodes 0).Edges = [] :=
  ⟨(C11_root_node_kept specLib rootOnlyHeap rootOnlyMap
      (reducedHeap specLib rootOnlyHeap rootOnlyMap) (reducedMap specLib rootOnlyHeap rootOnlyMap)
      (by decide) rfl ("R", 0) (by decide) (by decide) (by decide)).1,
    (C11_root_node_kept specLib rootOnlyHeap rootOnlyMap
      (reducedHeap specLib rootOnlyHeap rootOnlyMap) (reducedMap specLib rootOnlyHeap rootOnlyMap)
      (by decide) rfl ("R", 0) (by decide) (by decide) (by decide)).2.2.trans (by decide)⟩

/-- The edges of a node of the returned map are edges of the input that lead to a service
node: edges of the node itself for a root node, second-hop edges for a service node. -/
theorem reduce_out_edge (G : GraphLib) (h : Heap) (tm : TrafficMap) (h' : Heap)
    (out : TrafficMap) (hr : ReduceToServiceGraph G h tm = Except.ok (h', out))
    (e : String × Nat) (he : e ∈ out) (ed : Nat) (hed : ed ∈ (h'.nodes e.2).Edges) :
    (h.nodes (h.edges ed).Dest).NodeType = NodeTypeService ∧
      (ed ∈ (h.nodes e.2).Edges ∨
        ∃ we ∈ (h.nodes e.2).Edges, ed ∈ (h.nodes (h.edges we).Dest).Edges) := by
  obtain ⟨hin, hkept⟩ := reduce_mem_out G h tm h' out hr e he
  unfold ReduceToServiceGraph at hr
  have red := reduceLoop_reduced G h tm (h, NewTrafficMap) (h', out) (reduceInv_refl h) hr
  by_cases hty : (h.nodes e.2).NodeType = NodeTypeService
  · have hsub := (red.service e hin hty).sub ed hed
    unfold twoHopEdges at hsub
    obtain ⟨we, hwe, hmem⟩ := (mem_twoHopFrom h _ ed).mp hsub
    obtain ⟨h1, h2⟩ := (mem_serviceEdges h _ ed).mp hmem
    exact ⟨h2, Or.inr ⟨we, hwe, h1⟩⟩
  · have hroot : (h.nodes e.2).Metadata IsRoot = some (Value.bool true) := by
      simpa [keptByReduce, hty] using hkept
    rw [red.root e hin hty hroot] at hed
    obtain ⟨h1, h2⟩ := (mem_serviceEdges h _ ed).mp hed
    exact ⟨h2, Or.inl h1⟩

/-- C12: when `ReduceToServiceGraph` completes on a map (with distinct keys), every edge of
every node of the returned map has a service node as destination; and if every edge
destination of the input is a node of the input map, every edge destination of the
output is a node of the returned map. -/
theorem C12_reduced_edges_lead_to_services (G : GraphLib) (h : Heap) (tm : TrafficMap)
    (h' : Heap) (out : TrafficMap) (hkeys : tm.keys.Nodup)
    (hr : ReduceToServiceGraph G h tm = Except.ok (h', out)) :
    (∀ e ∈ out, ∀ ed ∈ (h'.nodes e.2).Edges,
        (h'.nodes (h'.edges ed).Dest).NodeType = NodeTypeService) ∧
      ((∀ e ∈ tm, ∀ ed ∈ (h.nodes e.2).Edges, (h.edges ed).Dest ∈ tm.map Prod.snd) →
        ∀ e ∈ out, ∀ ed ∈ (h'.nodes e.2).Edges, (h'.edges ed).Dest ∈ out.map Prod.snd) := by
  have hout := reduce_out_eq G h tm h' out hkeys hr
  have hattrs : SameAttrs h h' := by
    have hr' := hr
    unfold ReduceToServiceGraph at hr'
    exact (reduceLoop_ok G h tm (h, NewTrafficMap) (h', out) (sameAttrs_refl h) hr').1
  constructor
  · intro e he ed hed
    rw [hattrs.dest, hattrs.nodeType]
    exact (reduce_out_edge G h tm h' out hr e he ed hed).1
  · intro hclosed e he ed hed
    obtain ⟨hin, _⟩ := reduce_mem_out G h tm h' out hr e he
    obtain ⟨hty, hsrc⟩ := reduce_out_edge G h tm h' out hr e he ed hed
    have hdest : (h.edges ed).Dest ∈ tm.map Prod.snd := by
      rcases hsrc with h1 | ⟨we, hwe, h1⟩
      · exact hclosed e hin ed h1
      · obtain ⟨x, hx, hxe⟩ := List.mem_map.mp (hclosed e hin we hwe)
        have := hclosed x hx ed (by rw [hxe]; exact h1)
        exact this
    obtain ⟨x, hx, hxe⟩ := List.mem_map.mp hdest
    rw [hattrs.dest, hout]
    refine List.mem_map.mpr ⟨x, List.mem_filter.mpr ⟨hx, ?_⟩, hxe⟩
    simp [keptByReduce, hxe, hty]

/-- C12 at `reduceMap`, where every edge destination is a node of the map: after the
reduction every edge leads to a service node of the returned map. -/
theorem C12_reduced_edges_lead_to_services_witness :
    (∀ e ∈ reducedMap specLib reduceHeap reduceMap,
        ∀ ed ∈ ((reducedHeap specLib reduceHeap reduceMap).nodes e.2).Edges,
          ((reducedHeap specLib reduceHeap reduceMap).nodes
            ((reducedHeap specLib reduceHeap reduceMap).edges ed).Dest).NodeType =
            NodeTypeService) ∧
      ∀ e ∈ reducedMap specLib reduceHeap reduceMap,
        ∀ ed ∈ ((reducedHeap specLib reduceHeap reduceMap).nodes e.2).Edges,
          ((reducedHeap specLib reduceHeap reduceMap).edges ed).Dest ∈
            (reducedMap specLib reduceHeap reduceMap).map Prod.snd :=
  ⟨(C12_reduced_edges_lead_to_services specLib reduceHeap reduceMap
      (reducedHeap specLib reduceHeap reduceMap) (reducedMap specLib reduceHeap reduceMap)
      (by decide) rfl).1,
    (C12_reduced_edges_lead_to_services specLib reduceHeap reduceMap
      (reducedHeap specLib reduceHeap reduceMap) (reducedMap specLib reduceHeap reduceMap)
      (by decide) rfl).2 (by decide)⟩

theorem specLib_keepsProtocol : KeepsProtocol specLib := by
  intro fromMeta toMeta
  simp [specLib, specAggregateEdgeTraffic]

/-- C15: when `ReduceToServiceGraph` completes (with an aggregation that keeps the protocol
identifier of the target edge), the edges of every service node `S` of the returned map have
pairwise distinct `(Dest.ID, protocol)` keys; the set of these keys is the set of the keys of
the second edges of all two-hop paths `S -> W -> D` of the input with `D` a service node; and
no direct edge of `S` in the input is among its edges in the output. -/
theorem C15_service_edges_rebuilt (G : GraphLib) (hG : KeepsProtocol G) (h : Heap)
    (tm : TrafficMap) (h' : Heap) (out : TrafficMap)
    (hr : ReduceToServiceGraph G h tm = Except.ok (h', out)) (e : String × Nat) (he : e ∈ out)
    (hty : (h.nodes e.2).NodeType = NodeTypeService) :
    ((h'.nodes e.2).Edges.map (edgeKey h')).Nodup ∧
      (∀ key, key ∈ (h'.nodes e.2).Edges.map (edgeKey h') ↔
        key ∈ (twoHopEdges h e.2).map (edgeKey h)) ∧
      ∀ ed ∈ (h.nodes e.2).Edges, ed ∉ (h'.nodes e.2).Edges := by
  obtain ⟨hin, _⟩ := reduce_mem_out G h tm h' out hr e he
  unfold ReduceToServiceGraph at hr
  have red := reduceLoop_reduced G h tm (h, NewTrafficMap) (h', out) (reduceInv_refl h) hr
  have keys := reduceLoop_keys G hG h tm (h, NewTrafficMap) (h', out) (reduceInv_refl h)
    (reduceKeysInv_refl h) hr
  have hk : edgeKey h' = edgeKey h :=
    KeysStable.edgeKey_eq ⟨red.inv.attrs.id, red.inv.attrs.dest, keys.inv.proto⟩
  have hs := red.service e hin hty
  have hkeys := keys.service e hin hty
  rw [hk]
  refine ⟨hkeys.nodup, ?_, ?_⟩
  · intro key
    constructor
    · intro hmem
      obtain ⟨x, hx, hxk⟩ := List.mem_map.mp hmem
      exact List.mem_map.mpr ⟨x, hs.sub x hx, hxk⟩
    · intro hmem
      obtain ⟨x, hx, hxk⟩ := List.mem_map.mp hmem
      rw [← hxk]
      exact hkeys.keys x hx
  · intro ed hed hmem
    have h1 := hs.directOK ed hed
    have h2 := hs.sub ed hmem
    unfold twoHopEdges at h2
    obtain ⟨we, _, hwe⟩ := (mem_twoHopFrom h _ ed).mp h2
    have h3 := ((mem_serviceEdges h _ ed).mp hwe).2
    unfold badDest at h1
    rw [h3] at h1
    exact h1 NodeTypeService_ne_Workload

/-- C15 at `reduceMap`: `S1` has the single key `(S2, http)` of its two-hop paths through `W1`
and `W2`, and neither of its direct edges. -/
theorem C15_service_edges_rebuilt_witness :
    ((reducedHeap specLib reduceHeap reduceMap).nodes 0).Edges.map
        (edgeKey (reducedHeap specLib reduceHeap reduceMap)) = [("S2", some (Value.str "http"))] ∧
      (twoHopEdges reduceHeap 0).map (edgeKey reduceHeap) =
        [("S2", some (Value.str "http")), ("S2", some (Value.str "http"))] ∧
      (((reducedHeap specLib reduceHeap reduceMap).nodes 0).Edges.map
        (edgeKey (reducedHeap specLib reduceHeap reduceMap))).Nodup ∧
      0 ∉ ((reducedHeap specLib reduceHeap reduceMap).nodes 0).Edges :=
  ⟨by decide, by decide,
    (C15_service_edges_rebuilt specLib specLib_keepsProtocol reduceHeap reduceMap
      (reducedHeap specLib reduceHeap reduceMap) (reducedMap specLib reduceHeap reduceMap) rfl
      ("S1", 0) (by decide) (by decide)).1,
    (C15_service_edges_rebuilt specLib specLib_keepsProtocol reduceHeap reduceMap
      (reducedHeap specLib reduceHeap reduceMap) (reducedMap specLib reduceHeap reduceMap) rfl
      ("S1", 0) (by decide) (by decide)).2.2 0 (by decide)⟩

/-! ## Claims on the marking functions -/

theorem Metadata.set_of_eq (m : Metadata) (k : String) (v : Value) (hm : m k = some v) :
    m.set k v = m := by
  funext k'
  by_cases hk : k' = k
  · simp [Metadata.set, hk, hm]
  · simp [Metadata.set, hk]

theorem setFlag_of_true (n : Node) (k : String) (hn : n.Metadata k = some (Value.bool true)) :
    n.setFlag k = n := by
  cases n with
  | mk i t ns s es m =>
    simp only [Node.setFlag, Node.mk.injEq, true_and]
    exact Metadata.set_of_eq m k _ hn

theorem isInaccessible_congr (n n' : Node) (hns : n'.Namespace = n.Namespace)
    (acc : List (String × Nat)) : isInaccessible n' acc = isInaccessible n acc := by
  simp [isInaccessible, hns]

theorem isOutside_congr (n n' : Node) (hns : n'.Namespace = n.Namespace)
    (l : List (String × NamespaceInfo)) : isOutside n' l = isOutside n l := by
  have hloop : isOutsideLoop n' l = isOutsideLoop n l := by
    induction l with
    | nil => rfl
    | cons a rest ih =>
      obtain ⟨k, ns⟩ := a
      simp [isOutsideLoop, hns, ih]
  simp [isOutside, hns, hloop]

/-- The accessibility check applied to its own result changes nothing. -/
theorem markAccess_idem (m m1 : Node) (o : TelemetryOptions)
    (hr : markAccess m o = Except.ok m1) : markAccess m1 o = Except.ok m1 := by
  have hio := IsOutside_ne_IsInaccessible
  unfold markAccess at hr
  split at hr
  · next h0 =>
    cases hr
    simp [markAccess, h0]
  · next h0 =>
    cases hr
    simp [markAccess, h0]
  · next h0 =>
    split at hr
    · next v h1 =>
      cases hr
      simp [markAccess, h0, h1]
    · next h1 =>
      split at hr
      · cases hr
        have e1 : (m.setFlag IsInaccessible).Metadata IsOutside = some (Value.bool true) := by
          rw [setFlag_get_other m IsInaccessible IsOutside hio]
          exact h0
        have e2 := setFlag_get_same m IsInaccessible
        simp [markAccess, e1, e2]
      · next h2 =>
        cases hr
        simp [markAccess, h0, h1, h2]
  · cases hr

/-- The loop body applied to its own result changes nothing. -/
theorem markNode_idem (n n1 : Node) (o : TelemetryOptions)
    (hr : markNode n o = Except.ok n1) : markNode n1 o = Except.ok n1 := by
  have m := markNode_spec n n1 o hr
  have hsw : markSwitch n1 o = n1 := by
    by_cases ha : alwaysInaccessible n
    · rw [markSwitch_always n1 o ((alwaysInaccessible_marked m).mpr ha)]
      exact setFlag_of_true n1 _ (m.inaccessibleSet ha)
    · rw [markSwitch_other n1 o (fun hc => ha ((alwaysInaccessible_marked m).mp hc)),
        isOutside_congr n n1 m.namespace_]
      by_cases ho : isOutside n o.Namespaces = true
      · rw [if_pos ho]
        apply setFlag_of_true
        rw [m.outside, if_pos ⟨ha, ho⟩]
      · rw [if_neg ho]
  unfold markNode at hr ⊢
  rw [hsw]
  exact markAccess_idem _ _ o hr

/-- A node without flags after one pass of the loop body. -/
theorem markNode_fresh (n n1 : Node) (o : TelemetryOptions)
    (hr : markNode n o = Except.ok n1) (hout : n.Metadata IsOutside = none)
    (hinacc : n.Metadata IsInaccessible = none) :
    (n1.Metadata IsInaccessible = some (Value.bool true) ↔
      (alwaysInaccessible n ∨
        (n1.Metadata IsOutside = some (Value.bool true) ∧
          lookupAccessible o.AccessibleNamespaces n.Namespace = none))) := by
  have hio := IsOutside_ne_IsInaccessible
  have m := markNode_spec n n1 o hr
  by_cases ha : alwaysInaccessible n
  · simp [ha, m.inaccessibleSet ha]
  · have hsw := markSwitch_other n o ha
    unfold markNode at hr
    rw [hsw] at hr
    rw [m.outside]
    by_cases ho : isOutside n o.Namespaces = true
    · rw [if_pos ho] at hr
      have e1 := setFlag_get_same n IsOutside
      have e2 : (n.setFlag IsOutside).Metadata IsInaccessible = none := by
        rw [setFlag_get_other n IsOutside IsInaccessible hio.symm]
        exact hinacc
      have e3 : (n.setFlag IsOutside).Namespace = n.Namespace := rfl
      unfold markAccess at hr
      rw [e1] at hr
      simp only [e2] at hr
      cases hl : lookupAccessible o.AccessibleNamespaces n.Namespace with
      | none =>
        simp only [isInaccessible, e3, hl, if_true, Except.ok.injEq] at hr
        subst hr
        simp [ha, ho, setFlag_get_same]
      | some t =>
        simp only [isInaccessible, e3, hl, Bool.false_eq_true, if_false, Except.ok.injEq] at hr
        subst hr
        simp [ha, ho, e2]
    · rw [if_neg ho] at hr
      unfold markAccess at hr
      rw [hout] at hr
      simp only [Except.ok.injEq] at hr
      subst hr
      simp [ha, ho, hinacc, hout]

/-- After the call, every node of the map is the result of the loop body on its value on
entry, and every other node is untouched. -/
theorem markLoop_node (o : TelemetryOptions) (tm : TrafficMap) (h h' : Heap)
    (hr : MarkOutsideOrInaccessible h tm o = Except.ok h') (p : Nat) :
    (p ∈ tm.map Prod.snd → markNode (h.nodes p) o = Except.ok (h'.nodes p)) ∧
      (p ∉ tm.map Prod.snd → h'.nodes p = h.nodes p) := by
  induction tm generalizing h with
  | nil =>
    simp only [MarkOutsideOrInaccessible, Except.ok.injEq] at hr
    subst hr
    simp
  | cons entry rest ih =>
    obtain ⟨k, q⟩ := entry
    simp only [MarkOutsideOrInaccessible] at hr
    cases hstep : markNode (h.nodes q) o with
    | error e => rw [hstep] at hr; cases hr
    | ok n' =>
      rw [hstep] at hr
      obtain ⟨ih1, ih2⟩ := ih (h.setNode q n') hr
      by_cases hpq : p = q
      · subst hpq
        rw [Heap.setNode_get_same] at ih1 ih2
        refine ⟨fun _ => ?_, fun hc => absurd (by simp) hc⟩
        by_cases hin : p ∈ rest.map Prod.snd
        · have h1 := ih1 hin
          rw [markNode_idem _ _ o hstep] at h1
          simp only [Except.ok.injEq] at h1
          rw [← h1]
          exact hstep
        · rw [ih2 hin]
          exact hstep
      · rw [Heap.setNode_get_other _ _ _ _ hpq] at ih1 ih2
        constructor
        · intro hmem
          simp only [List.map_cons, List.mem_cons] at hmem
          rcases hmem with h1 | h1
          · exact absurd h1 hpq
          · exact ih1 h1
        · intro hmem
          apply ih2
          intro hc
          exact hmem (by simp [hc])

/-- The call changes nothing in a store whose map nodes are results of the loop body. -/
theorem markLoop_fix (o : TelemetryOptions) (tm : TrafficMap) (h : Heap)
    (hfix : ∀ e ∈ tm, markNode (h.nodes e.2) o = Except.ok (h.nodes e.2)) :
    MarkOutsideOrInaccessible h tm o = Except.ok h := by
  induction tm with
  | nil => rfl
  | cons entry rest ih =>
    obtain ⟨k, q⟩ := entry
    simp only [MarkOutsideOrInaccessible, hfix (k, q) (List.mem_cons_self _ _),
      Heap.setNode_self]
    exact ih (fun e he => hfix e (List.mem_cons_of_mem _ he))

/-- C13: for a node of the map that carries neither an `IsOutside` nor an `IsInaccessible`
entry on entry, after `MarkOutsideOrInaccessible` the node carries `IsInaccessible = true` if
and only if it is in the always-inaccessible class, or it was marked outside and its
namespace is not a key of the accessible-namespace map; so a node that is not outside and
not in that class is not marked inaccessible. -/
theorem C13_inaccessible_iff (h : Heap) (tm : TrafficMap) (o : TelemetryOptions) (h' : Heap)
    (hr : MarkOutsideOrInaccessible h tm o = Except.ok h') (e : String × Nat) (he : e ∈ tm)
    (hout : (h.nodes e.2).Metadata IsOutside = none)
    (hinacc : (h.nodes e.2).Metadata IsInaccessible = none) :
    ((h'.nodes e.2).Metadata IsInaccessible = some (Value.bool true) ↔
        (alwaysInaccessible (h.nodes e.2) ∨
          ((h'.nodes e.2).Metadata IsOutside = some (Value.bool true) ∧
            lookupAccessible o.AccessibleNamespaces (h.nodes e.2).Namespace = none))) ∧
      (¬ alwaysInaccessible (h.nodes e.2) →
        (h'.nodes e.2).Metadata IsOutside ≠ some (Value.bool true) →
        (h'.nodes e.2).Metadata IsInaccessible ≠ some (Value.bool true)) := by
  have hnode := (markLoop_node o tm h h' hr e.2).1 (List.mem_map_of_mem Prod.snd he)
  have hiff := markNode_fresh _ _ o hnode hout hinacc
  refine ⟨hiff, ?_⟩
  intro ha ho hc
  rcases hiff.mp hc with h1 | h1
  · exact ha h1
  · exact ho h1.1

/-- C13 at `classifyMap`: the workload of namespace ns9 is outside and not accessible, so
inaccessible; the workload of namespace ns2 is outside but accessible; the workload of the
requested namespace ns1 is not outside, so not inaccessible. -/
theorem C13_inaccessible_iff_witness :
    ((markedHeap classifyHeap classifyMap classifyOptions).nodes 5).Metadata IsInaccessible =
        some (Value.bool true) ∧
      ((markedHeap classifyHeap classifyMap classifyOptions).nodes 4).Metadata IsInaccessible ≠
        some (Value.bool true) ∧
      ((markedHeap classifyHeap classifyMap classifyOptions).nodes 3).Metadata IsInaccessible ≠
        some (Value.bool true) :=
  ⟨(C13_inaccessible_iff classifyHeap classifyMap classifyOptions
      (markedHeap classifyHeap classifyMap classifyOptions) rfl ("w9", 5) (by decide)
      (by decide) (by decide)).1.mpr (by decide),
    fun hc => absurd
      ((C13_inaccessible_iff classifyHeap classifyMap classifyOptions
        (markedHeap classifyHeap classifyMap classifyOptions) rfl ("w2", 4) (by decide)
        (by decide) (by decide)).1.mp hc) (by decide),
    (C13_inaccessible_iff classifyHeap classifyMap classifyOptions
      (markedHeap classifyHeap classifyMap classifyOptions) rfl ("w1", 3) (by decide)
      (by decide) (by decide)).2 (by decide) (by decide)⟩

/-- C16: `MarkTrafficGenerators` leaves every node without outgoing edges (of the map or
not) exactly as it was on entry, metadata and edges, whether or not an edge of the map
leads to it; so it is not given the `IsRoot` flag. -/
theorem C16_no_edges_untouched (h : Heap) (tm : TrafficMap) (p : Nat)
    (hno : (h.nodes p).Edges = []) :
    (MarkTrafficGenerators h tm).nodes p = h.nodes p ∧
      ((h.nodes p).Metadata IsRoot = none →
        ((MarkTrafficGenerators h tm).nodes p).Metadata IsRoot = none) := by
  have r := markGenerators_spec (buildDestMap h tm) tm h
  have hnode : (MarkTrafficGenerators h tm).nodes p = h.nodes p := by
    unfold MarkTrafficGenerators
    apply r.unmarked
    rintro ⟨_, hg⟩
    exact hg.1 hno
  exact ⟨hnode, fun h0 => by rw [hnode]; exact h0⟩

/-- C16 at `A -> B -> C`, where `C` has no edge and is untouched, and at two isolated service
nodes, where `S1` is the destination of no edge and still gets no `IsRoot` flag. -/
theorem C16_no_edges_untouched_witness :
    (MarkTrafficGenerators chainHeap chainMap).nodes 2 = chainHeap.nodes 2 ∧
      ((MarkTrafficGenerators isolatedHeap serviceOnlyMap).nodes 0).Metadata IsRoot = none :=
  ⟨(C16_no_edges_untouched chainHeap chainMap 2 (by decide)).1,
    (C16_no_edges_untouched isolatedHeap serviceOnlyMap 0 (by decide)).2 (by decide)⟩

/-- C19: on a map whose `IsOutside` entries are absent or booleans, `MarkOutsideOrInaccessible`
completes, and applying it again with the same options completes and changes nothing: the
store after the second call is the store after the first, so every node has the same
metadata. -/
theorem C19_mark_idempotent (h : Heap) (tm : TrafficMap) (o : TelemetryOptions)
    (hbool : ∀ e ∈ tm, boolOrAbsent (h.nodes e.2).Metadata IsOutside) :
    ∃ h1, MarkOutsideOrInaccessible h tm o = Except.ok h1 ∧
      MarkOutsideOrInaccessible h1 tm o = Except.ok h1 ∧
      ∀ h2, MarkOutsideOrInaccessible h1 tm o = Except.ok h2 →
        ∀ p, (h2.nodes p).Metadata = (h1.nodes p).Metadata := by
  obtain ⟨h1, hr⟩ := markLoop_completes o tm h hbool
  have hfix : MarkOutsideOrInaccessible h1 tm o = Except.ok h1 := by
    apply markLoop_fix
    intro e he
    exact markNode_idem _ _ o
      ((markLoop_node o tm h h1 hr e.2).1 (List.mem_map_of_mem Prod.snd he))
  refine ⟨h1, hr, hfix, ?_⟩
  intro h2 hr2 p
  rw [hfix] at hr2
  simp only [Except.ok.injEq] at hr2
  rw [hr2]

/-- C19 at `classifyMap`: the second call returns the store of the first. -/
theorem C19_mark_idempotent_witness :
    ∃ h1, MarkOutsideOrInaccessible classifyHeap classifyMap classifyOptions = Except.ok h1 ∧
      MarkOutsideOrInaccessible h1 classifyMap classifyOptions = Except.ok h1 ∧
      ∀ h2, MarkOutsideOrInaccessible h1 classifyMap classifyOptions = Except.ok h2 →
        ∀ p, (h2.nodes p).Metadata = (h1.nodes p).Metadata :=
  C19_mark_idempotent classifyHeap classifyMap classifyOptions (by decide)

/-- The loop of `MarkOutsideOrInaccessible` never writes an edge. -/
theorem markLoop_edges (o : TelemetryOptions) (tm : TrafficMap) (h h' : Heap)
    (hr : MarkOutsideOrInaccessible h tm o = Except.ok h') : h'.edges = h.edges := by
  induction tm generalizing h with
  | nil =>
    simp only [MarkOutsideOrInaccessible, Except.ok.injEq] at hr
    subst hr
    rfl
  | cons entry rest ih =>
    obtain ⟨k, q⟩ := entry
    simp only [MarkOutsideOrInaccessible] at hr
    cases hstep : markNode (h.nodes q) o with
    | error e => rw [hstep] at hr; cases hr
    | ok n' =>
      rw [hstep] at hr
      exact ih (h.setNode q n') hr

/-- C20: `MarkOutsideOrInaccessible` only adds flags: after the call every node has the ID,
type, namespace, service and edge list it had, every metadata entry other than `IsOutside`
and `IsInaccessible` is unchanged, no edge is changed, and an `IsOutside` or
`IsInaccessible` entry that was true on entry is still true. -/
theorem C20_mark_only_adds_flags (h : Heap) (tm : TrafficMap) (o : TelemetryOptions)
    (h' : Heap) (hr : MarkOutsideOrInaccessible h tm o = Except.ok h') :
    h'.edges = h.edges ∧
      ∀ p, (h'.nodes p).ID = (h.nodes p).ID ∧
        (h'.nodes p).NodeType = (h.nodes p).NodeType ∧
        (h'.nodes p).Namespace = (h.nodes p).Namespace ∧
        (h'.nodes p).Service = (h.nodes p).Service ∧
        (h'.nodes p).Edges = (h.nodes p).Edges ∧
        (∀ k, k ≠ IsOutside → k ≠ IsInaccessible →
          (h'.nodes p).Metadata k = (h.nodes p).Metadata k) ∧
        ((h.nodes p).Metadata IsOutside = some (Value.bool true) →
          (h'.nodes p).Metadata IsOutside = some (Value.bool true)) ∧
        ((h.nodes p).Metadata IsInaccessible = some (Value.bool true) →
          (h'.nodes p).Metadata IsInaccessible = some (Value.bool true)) := by
  refine ⟨markLoop_edges o tm h h' hr, ?_⟩
  intro p
  by_cases hp : p ∈ tm.map Prod.snd
  · have m := markNode_spec _ _ o ((markLoop_node o tm h h' hr p).1 hp)
    refine ⟨m.id, m.nodeType, m.namespace_, m.service, m.edges, m.metadata, ?_,
      m.inaccessibleKept⟩
    intro h0
    rw [m.outside, h0]
    simp
  · rw [(markLoop_node o tm h h' hr p).2 hp]
    exact ⟨rfl, rfl, rfl, rfl, rfl, fun _ _ _ => rfl, fun h0 => h0, fun h0 => h0⟩

/-- C20 at `staleMap`: the workload of the requested namespace ns1 keeps its stale
`IsOutside = true`, the workload of ns2 its stale `IsInaccessible = true`. -/
theorem C20_mark_only_adds_flags_witness :
    ((markedHeap staleHeap staleMap classifyOptions).nodes 0).Metadata IsOutside =
        some (Value.bool true) ∧
      ((markedHeap staleHeap staleMap classifyOptions).nodes 1).Metadata IsInaccessible =
        some (Value.bool true) :=
  ⟨((C20_mark_only_adds_flags staleHeap staleMap classifyOptions
      (markedHeap staleHeap staleMap classifyOptions) rfl).2 0).2.2.2.2.2.2.1 (by decide),
    ((C20_mark_only_adds_flags staleHeap staleMap classifyOptions
      (markedHeap staleHeap staleMap classifyOptions) rfl).2 1).2.2.2.2.2.2.2 (by decide)⟩

/-! ## Claims on merged duplicates and merge order -/

theorem mem_keys_newEdges (h : Heap) (donor resident : List Nat) (key : String × Option Value) :
    key ∈ (resident ++ newEdges h resident donor).map (edgeKey h) ↔
      key ∈ resident.map (edgeKey h) ∨ key ∈ donor.map (edgeKey h) := by
  induction donor generalizing resident with
  | nil => simp [newEdges]
  | cons e rest ih =>
    by_cases hany : resident.any (fun x => sameEdgeKey h e x) = true
    · have hmem := (any_sameEdgeKey_iff h e resident).mp hany
      simp only [newEdges, hany, if_true]
      rw [ih resident]
      simp only [List.map_cons, List.mem_cons]
      constructor
      · rintro (h1 | h1)
        · exact Or.inl h1
        · exact Or.inr (Or.inr h1)
      · rintro (h1 | h1 | h1)
        · exact Or.inl h1
        · exact Or.inl (h1 ▸ hmem)
        · exact Or.inr h1
    · simp only [newEdges, hany, Bool.false_eq_true, if_false]
      have := ih (resident ++ [e])
      rw [List.append_assoc, List.singleton_append] at this
      rw [this]
      simp only [List.map_append, List.map_cons, List.map_nil, List.mem_append, List.mem_cons,
        List.mem_singleton, List.not_mem_nil, or_false]
      constructor
      · rintro ((h1 | h1) | h1)
        · exact Or.inl h1
        · exact Or.inr (Or.inl h1)
        · exact Or.inr (Or.inr h1)
      · rintro (h1 | h1 | h1)
        · exact Or.inl (Or.inl h1)
        · exact Or.inl (Or.inr h1)
        · exact Or.inr h1

/-- A node ID whose key is new to the accumulator: no node with that ID is touched. -/
theorem mergeLoop_new_id (G : GraphLib) (ns : String) (l : TrafficMap) (st : Heap × TrafficMap)
    (hm : keyedByID st.1 st.2) (hl : keyedByID st.1 l) (hnd : l.keys.Nodup)
    (k : String) (hnew : st.2.get k = none) (q : Nat) (hq : (st.1.nodes q).ID = k) :
    (l.foldl (mergeNode G ns) st).1.nodes q = st.1.nodes q := by
  induction l generalizing st with
  | nil => rfl
  | cons entry rest ih =>
    simp only [TrafficMap.keys, List.map_cons, List.nodup_cons] at hnd
    have s := mergeNode_step G ns st entry hm (hl entry (List.mem_cons_self _ _))
    have hrest : keyedByID (mergeNode G ns st entry).1 rest :=
      keyedByID_congr s.id rest (fun e he => hl e (List.mem_cons_of_mem _ he))
    simp only [List.foldl_cons]
    by_cases hk : entry.1 = k
    · have r := mergeLoop_run G ns rest (mergeNode G ns st entry) s.keyed hrest
      rw [r.other q (by rw [s.id, hq, ← hk]; exact hnd.1)]
      simp [mergeNode, hk, hnew]
    · rw [ih (mergeNode G ns st entry) s.keyed hrest hnd.2
        (by rw [mergeNode_get_other G ns st entry k (fun hc => hk hc.symm)]; exact hnew)
        (by rw [s.id]; exact hq)]
      exact s.other q (by rw [hq]; exact fun hc => hk hc.symm)

/-- A node ID present in both maps: the resident `r` is stored and receives the new edges of
the donor `d`; no other node with that ID is touched. -/
theorem mergeLoop_dup (G : GraphLib) (ns : String) (l : TrafficMap) (st : Heap × TrafficMap)
    (hm : keyedByID st.1 st.2) (hl : keyedByID st.1 l) (hnd : l.keys.Nodup)
    (k : String) (pin pold r d : Nat) (hin : (k, pin) ∈ l) (hold : st.2.get k = some pold)
    (hrd : ((st.1.nodes pin).Namespace = ns ∧ r = pin ∧ d = pold) ∨
      ((st.1.nodes pin).Namespace ≠ ns ∧ r = pold ∧ d = pin)) :
    (l.foldl (mergeNode G ns) st).2.get k = some r ∧
      ((l.foldl (mergeNode G ns) st).1.nodes r).Edges =
        (st.1.nodes r).Edges ++ newEdges st.1 (st.1.nodes r).Edges (st.1.nodes d).Edges ∧
      ((l.foldl (mergeNode G ns) st).1.nodes r).Metadata =
        addOutgoing G st.1 (st.1.nodes r).Metadata
          (newEdges st.1 (st.1.nodes r).Edges (st.1.nodes d).Edges) ∧
      ∀ q, (st.1.nodes q).ID = k → q ≠ r →
        (l.foldl (mergeNode G ns) st).1.nodes q = st.1.nodes q := by
  induction l generalizing st with
  | nil => simp at hin
  | cons entry rest ih =>
    simp only [TrafficMap.keys, List.map_cons, List.nodup_cons] at hnd
    have s := mergeNode_step G ns st entry hm (hl entry (List.mem_cons_self _ _))
    have hrest : keyedByID (mergeNode G ns st entry).1 rest :=
      keyedByID_congr s.id rest (fun e he => hl e (List.mem_cons_of_mem _ he))
    have hpin : (st.1.nodes pin).ID = k := hl (k, pin) hin
    have hpold : (st.1.nodes pold).ID = k := hm _ (TrafficMap.mem_of_get _ _ _ hold)
    have hr : (st.1.nodes r).ID = k := by
      rcases hrd with ⟨_, h1, _⟩ | ⟨_, h1, _⟩ <;> rw [h1] <;> assumption
    have hd : (st.1.nodes d).ID = k := by
      rcases hrd with ⟨_, _, h1⟩ | ⟨_, _, h1⟩ <;> rw [h1] <;> assumption
    simp only [List.foldl_cons]
    rcases List.mem_cons.mp hin with heq | hin'
    · subst heq
      have run := mergeLoop_run G ns rest (mergeNode G ns st (k, pin)) s.keyed hrest
      have hk : (k, pin).1 ∉ TrafficMap.keys rest := hnd.1
      have hother : ∀ q, (st.1.nodes q).ID = k →
          (List.foldl (mergeNode G ns) (mergeNode G ns st (k, pin)) rest).1.nodes q =
            (mergeNode G ns st (k, pin)).1.nodes q :=
        fun q hq => run.other q (by rw [s.id, hq]; exact hk)
      rw [mergeLoop_get_other G ns rest _ k hk, hother r hr]
      have hstep : mergeNode G ns st (k, pin) =
          ((st.1.nodes d).Edges.foldl (mergeEdge G r) st.1,
            if (st.1.nodes pin).Namespace = ns then st.2.set k pin else st.2) := by
        rcases hrd with ⟨h1, h2, h3⟩ | ⟨h1, h2, h3⟩
        · simp [mergeNode, hold, h1, h2, h3]
        · simp [mergeNode, hold, h1, h2, h3]
      have hget : (mergeNode G ns st (k, pin)).2.get k = some r := by
        rw [hstep]
        rcases hrd with ⟨h1, h2, _⟩ | ⟨h1, h2, _⟩
        · simp only [h1, if_true, h2]
          exact TrafficMap.get_set_same _ _ _
        · simp only [h1, if_false, h2]
          exact hold
      obtain ⟨hE, hM⟩ := mergeEdges_node G r (st.1.nodes d).Edges st.1
      refine ⟨hget, ?_, ?_, ?_⟩
      · rw [hstep]; exact hE
      · rw [hstep]; exact hM
      · intro q hq hqr
        rw [hother q hq, hstep]
        exact (mergeEdges_frame G r (st.1.nodes d).Edges st.1).other q hqr
    · have hne : k ≠ entry.1 := by
        intro h
        exact hnd.1 (h ▸ List.mem_map_of_mem Prod.fst hin')
      have hget : (mergeNode G ns st entry).2.get k = some pold := by
        rw [mergeNode_get_other G ns st entry k hne]
        exact hold
      have hrd' : (((mergeNode G ns st entry).1.nodes pin).Namespace = ns ∧ r = pin ∧ d = pold) ∨
          (((mergeNode G ns st entry).1.nodes pin).Namespace ≠ ns ∧ r = pold ∧ d = pin) := by
        rw [s.namespace_]
        exact hrd
      obtain ⟨h1, h2, h3, h4⟩ := ih (mergeNode G ns st entry) s.keyed hrest hnd.2 hin' hget hrd'
      have e1 : (mergeNode G ns st entry).1.nodes r = st.1.nodes r :=
        s.other r (by rw [hr]; exact hne)
      have e2 : (mergeNode G ns st entry).1.nodes d = st.1.nodes d :=
        s.other d (by rw [hd]; exact hne)
      have ek := sameEdgeKey_congr s.edges s.id
      rw [e1, e2, newEdges_congr ek] at h2 h3
      rw [addOutgoing_congr G s.edges] at h3
      refine ⟨h1, h2, h3, ?_⟩
      intro q hq hqr
      rw [h4 q (by rw [s.id]; exact hq) hqr]
      exact s.other q (by rw [hq]; exact hne)

/-- C14: for maps keyed by node ID and a node ID present in both maps, let the resident be
the incoming instance when its namespace is the scope name and the existing instance
otherwise, and the donor the other one.  After `MergeTrafficMaps` the resident is stored under
that ID; its edge list is its original edge list followed, in donor order, by the donor edges
whose key occurs neither in that list nor among the donor edges appended before; so its set of
edge keys is the union of the edge keys of both instances. -/
theorem C14_duplicate_edges_merged (G : GraphLib) (h : Heap) (trafficMap : TrafficMap)
    (ns : String) (nsTrafficMap : TrafficMap) (nsID : String) (nsNode node : Nat)
    (hacc : keyedByID h trafficMap) (hpart : keyedByID h nsTrafficMap)
    (hkeys : nsTrafficMap.keys.Nodup) (hin : (nsID, nsNode) ∈ nsTrafficMap)
    (hdup : trafficMap.get nsID = some node) (resident donor : Nat)
    (hres : resident = if (h.nodes nsNode).Namespace = ns then nsNode else node)
    (hdon : donor = if (h.nodes nsNode).Namespace = ns then node else nsNode) :
    (MergeTrafficMaps G h trafficMap ns nsTrafficMap).2.get nsID = some resident ∧
      ((MergeTrafficMaps G h trafficMap ns nsTrafficMap).1.nodes resident).Edges =
        (h.nodes resident).Edges ++
          newEdges h (h.nodes resident).Edges (h.nodes donor).Edges ∧
      ∀ key, key ∈ keysOf (MergeTrafficMaps G h trafficMap ns nsTrafficMap).1 resident ↔
        key ∈ keysOf h resident ∨ key ∈ keysOf h donor := by
  have hrd : ((h.nodes nsNode).Namespace = ns ∧ resident = nsNode ∧ donor = node) ∨
      ((h.nodes nsNode).Namespace ≠ ns ∧ resident = node ∧ donor = nsNode) := by
    by_cases hns : (h.nodes nsNode).Namespace = ns
    · left
      simp only [hns, if_true] at hres hdon
      exact ⟨hns, hres, hdon⟩
    · right
      simp only [hns, if_false] at hres hdon
      exact ⟨hns, hres, hdon⟩
  obtain ⟨h1, h2, _, _⟩ := mergeLoop_dup G ns nsTrafficMap (h, trafficMap) hacc hpart hkeys
    nsID nsNode node resident donor hin hdup hrd
  have run := mergeLoop_run G ns nsTrafficMap (h, trafficMap) hacc hpart
  refine ⟨h1, h2, ?_⟩
  intro key
  unfold keysOf MergeTrafficMaps
  rw [edgeKey_congr run.edges run.id, h2]
  exact mem_keys_newEdges h _ _ key

/-- C14 at the merge example: the existing `A` stays (it is not of scope ns2) and gets no
second edge to `B`; the incoming `B` replaces the resident and keeps its edge to `C`. -/
theorem C14_duplicate_edges_merged_witness :
    (MergeTrafficMaps specLib mergeHeap ns1Map "ns2" ns2Map).2.get "A" = some 1 ∧
      ((MergeTrafficMaps specLib mergeHeap ns1Map "ns2" ns2Map).1.nodes 1).Edges = [1] ∧
      (MergeTrafficMaps specLib mergeHeap ns1Map "ns2" ns2Map).2.get "B" = some 4 ∧
      ((MergeTrafficMaps specLib mergeHeap ns1Map "ns2" ns2Map).1.nodes 4).Edges = [3] :=
  ⟨(C14_duplicate_edges_merged specLib mergeHeap ns1Map "ns2" ns2Map "A" 3 1 (by decide)
      (by decide) (by decide) (by decide) (by decide) 1 3 (by decide) (by decide)).1,
    (C14_duplicate_edges_merged specLib mergeHeap ns1Map "ns2" ns2Map "A" 3 1 (by decide)
      (by decide) (by decide) (by decide) (by decide) 1 3 (by decide) (by decide)).2.1.trans
      (by decide),
    (C14_duplicate_edges_merged specLib mergeHeap ns1Map "ns2" ns2Map "B" 4 2 (by decide)
      (by decide) (by decide) (by decide) (by decide) 4 2 (by decide) (by decide)).1,
    (C14_duplicate_edges_merged specLib mergeHeap ns1Map "ns2" ns2Map "B" 4 2 (by decide)
      (by decide) (by decide) (by decide) (by decide) 4 2 (by decide) (by decide)).2.1.trans
      (by decide)⟩

theorem TrafficMap.mem_unique (m : TrafficMap) (hnd : m.keys.Nodup) (k : String) (p q : Nat)
    (hp : (k, p) ∈ m) (hq : (k, q) ∈ m) : p = q := by
  have h1 := TrafficMap.get_of_mem m hnd k p hp
  have h2 := TrafficMap.get_of_mem m hnd k q hq
  rw [h1] at h2
  exact Option.some.inj h2

/-- What `MergeTrafficMaps` does to a single node: nothing, or it is the resident of its ID
and receives the new edges of the donor, which is one of the two instances of that ID. -/
theorem merge_node_cases (G : GraphLib) (h : Heap) (acc : TrafficMap) (ns : String)
    (part : TrafficMap) (hacc : keyedByID h acc) (hpart : keyedByID h part)
    (hnd : part.keys.Nodup) (q : Nat) :
    (MergeTrafficMaps G h acc ns part).1.nodes q = h.nodes q ∨
      ∃ pin pold d, ((h.nodes q).ID, pin) ∈ part ∧ acc.get (h.nodes q).ID = some pold ∧
        (d = pin ∨ d = pold) ∧
        ((MergeTrafficMaps G h acc ns part).1.nodes q).Edges =
          (h.nodes q).Edges ++ newEdges h (h.nodes q).Edges (h.nodes d).Edges := by
  unfold MergeTrafficMaps
  by_cases hk : (h.nodes q).ID ∈ part.keys
  · obtain ⟨x, hx, hxk⟩ := List.mem_map.mp hk
    obtain ⟨k, pin⟩ := x
    simp only at hxk
    subst hxk
    cases hget : acc.get (h.nodes q).ID with
    | none =>
      left
      exact mergeLoop_new_id G ns part (h, acc) hacc hpart hnd _ hget q rfl
    | some pold =>
      by_cases hns : (h.nodes pin).Namespace = ns
      · obtain ⟨_, h2, _, h4⟩ := mergeLoop_dup G ns part (h, acc) hacc hpart hnd _ pin pold
          pin pold hx hget (Or.inl ⟨hns, rfl, rfl⟩)
        by_cases hq : q = pin
        · right
          subst hq
          exact ⟨q, pold, pold, hx, rfl, Or.inr rfl, h2⟩
        · left
          exact h4 q rfl hq
      · obtain ⟨_, h2, _, h4⟩ := mergeLoop_dup G ns part (h, acc) hacc hpart hnd _ pin pold
          pold pin hx hget (Or.inr ⟨hns, rfl, rfl⟩)
        by_cases hq : q = pold
        · right
          subst hq
          exact ⟨pin, q, pin, hx, rfl, Or.inl rfl, h2⟩
        · left
          exact h4 q rfl hq
  · left
    exact (mergeLoop_run G ns part (h, acc) hacc hpart).other q hk

theorem merge_edgeKey (G : GraphLib) (h : Heap) (acc : TrafficMap) (ns : String)
    (part : TrafficMap) (hacc : keyedByID h acc) (hpart : keyedByID h part) :
    edgeKey (MergeTrafficMaps G h acc ns part).1 = edgeKey h := by
  have run := mergeLoop_run G ns part (h, acc) hacc hpart
  exact edgeKey_congr run.edges run.id

/-- Merging never removes an edge key from a node. -/
theorem merge_keys_mono (G : GraphLib) (h : Heap) (acc : TrafficMap) (ns : String)
    (part : TrafficMap) (hacc : keyedByID h acc) (hpart : keyedByID h part)
    (hnd : part.keys.Nodup) (q : Nat) (key : String × Option Value)
    (hkey : key ∈ keysOf h q) : key ∈ keysOf (MergeTrafficMaps G h acc ns part).1 q := by
  unfold keysOf at hkey ⊢
  rw [merge_edgeKey G h acc ns part hacc hpart]
  rcases merge_node_cases G h acc ns part hacc hpart hnd q with h1 | ⟨_, _, d, _, _, _, h1⟩
  · rw [h1]
    exact hkey
  · rw [h1]
    exact (mem_keys_newEdges h _ _ key).mpr (Or.inl hkey)

/-- Merging gives a node only keys of the instances of its own ID. -/
theorem merge_keys_bound (G : GraphLib) (h : Heap) (acc : TrafficMap) (ns : String)
    (part : TrafficMap) (hacc : keyedByID h acc) (hpart : keyedByID h part)
    (hnd : part.keys.Nodup) (q : Nat) (key : String × Option Value)
    (hkey : key ∈ keysOf (MergeTrafficMaps G h acc ns part).1 q) :
    key ∈ keysOf h q ∨ (∃ a, acc.get (h.nodes q).ID = some a ∧ key ∈ keysOf h a) ∨
      (∃ p, ((h.nodes q).ID, p) ∈ part ∧ key ∈ keysOf h p) := by
  unfold keysOf at hkey ⊢
  rw [merge_edgeKey G h acc ns part hacc hpart] at hkey
  rcases merge_node_cases G h acc ns part hacc hpart hnd q with
    h1 | ⟨pin, pold, d, hin, hold, hd, h1⟩
  · rw [h1] at hkey
    exact Or.inl hkey
  · rw [h1] at hkey
    rcases (mem_keys_newEdges h _ _ key).mp hkey with h2 | h2
    · exact Or.inl h2
    · rcases hd with rfl | rfl
      · exact Or.inr (Or.inr ⟨d, hin, h2⟩)
      · exact Or.inr (Or.inl ⟨d, hold, h2⟩)

/-- The edge keys of the node stored under `k` after a merge are those of the instances of
`k` in the two maps. -/
theorem merge_keys_stored (G : GraphLib) (h : Heap) (acc : TrafficMap) (ns : String)
    (part : TrafficMap) (hacc : keyedByID h acc) (hpart : keyedByID h part)
    (hnd : part.keys.Nodup) (k : String) (s : Nat)
    (hs : (MergeTrafficMaps G h acc ns part).2.get k = some s) (key : String × Option Value) :
    key ∈ keysOf (MergeTrafficMaps G h acc ns part).1 s ↔
      (∃ a, acc.get k = some a ∧ key ∈ keysOf h a) ∨
        (∃ p, (k, p) ∈ part ∧ key ∈ keysOf h p) := by
  have hek : edgeKey (List.foldl (mergeNode G ns) (h, acc) part).1 = edgeKey h :=
    merge_edgeKey G h acc ns part hacc hpart
  unfold MergeTrafficMaps at hs
  by_cases hk : k ∈ part.keys
  · obtain ⟨x, hx, hxk⟩ := List.mem_map.mp hk
    obtain ⟨k', pin⟩ := x
    simp only at hxk
    subst hxk
    have huniq : ∀ p, (k', p) ∈ part → p = pin :=
      fun p hp => TrafficMap.mem_unique part hnd k' p pin hp hx
    cases hget : acc.get k' with
    | none =>
      have hnew := mergeLoop_get_new G ns part (h, acc) hnd k' pin hx
        ((TrafficMap.get_eq_none_iff _ _).mp hget)
      rw [hnew] at hs
      have hsp : pin = s := Option.some.inj hs
      subst hsp
      have hnode := mergeLoop_new_id G ns part (h, acc) hacc hpart hnd k' hget pin
        (hpart (k', pin) hx)
      unfold keysOf MergeTrafficMaps
      rw [hek, hnode]
      constructor
      · intro h1
        exact Or.inr ⟨pin, hx, h1⟩
      · rintro (⟨a, ha, _⟩ | ⟨p, hp, h1⟩)
        · cases ha
        · rw [huniq p hp] at h1
          exact h1
    | some pold =>
      have key_iff : ∀ r d, (((h.nodes pin).Namespace = ns ∧ r = pin ∧ d = pold) ∨
          ((h.nodes pin).Namespace ≠ ns ∧ r = pold ∧ d = pin)) →
          (key ∈ keysOf (MergeTrafficMaps G h acc ns part).1 s ↔
            key ∈ keysOf h r ∨ key ∈ keysOf h d) := by
        intro r d hrd
        obtain ⟨h1, h2, _, _⟩ := mergeLoop_dup G ns part (h, acc) hacc hpart hnd k' pin pold
          r d hx hget hrd
        rw [h1] at hs
        have hsr : r = s := Option.some.inj hs
        subst hsr
        unfold keysOf MergeTrafficMaps
        rw [hek, h2]
        exact mem_keys_newEdges h _ _ key
      by_cases hns : (h.nodes pin).Namespace = ns
      · rw [key_iff pin pold (Or.inl ⟨hns, rfl, rfl⟩)]
        constructor
        · rintro (h1 | h1)
          · exact Or.inr ⟨pin, hx, h1⟩
          · exact Or.inl ⟨pold, rfl, h1⟩
        · rintro (⟨a, ha, h1⟩ | ⟨p, hp, h1⟩)
          · rw [← Option.some.inj ha] at h1
            exact Or.inr h1
          · rw [huniq p hp] at h1
            exact Or.inl h1
      · rw [key_iff pold pin (Or.inr ⟨hns, rfl, rfl⟩)]
        constructor
        · rintro (h1 | h1)
          · exact Or.inl ⟨pold, rfl, h1⟩
          · exact Or.inr ⟨pin, hx, h1⟩
        · rintro (⟨a, ha, h1⟩ | ⟨p, hp, h1⟩)
          · rw [← Option.some.inj ha] at h1
            exact Or.inl h1
          · rw [huniq p hp] at h1
            exact Or.inr h1
  · rw [mergeLoop_get_other G ns part (h, acc) k hk] at hs
    have hid : (h.nodes s).ID = k := hacc _ (TrafficMap.mem_of_get _ _ _ hs)
    have hnode := (mergeLoop_run G ns part (h, acc) hacc hpart).other s (by rw [hid]; exact hk)
    unfold keysOf MergeTrafficMaps
    rw [hek, hnode]
    constructor
    · intro h1
      exact Or.inl ⟨s, hs, h1⟩
    · rintro (⟨a, ha, h1⟩ | ⟨p, hp, _⟩)
      · simp only at hs
        rw [hs] at ha
        rw [Option.some.inj ha]
        exact h1
      · exact absurd (List.mem_map_of_mem Prod.fst hp) hk

/-- The edge keys of the node stored under `k` after two merges are those of the instances
of `k` in the three maps. -/
theorem merge_twice_keys (G : GraphLib) (h : Heap) (acc : TrafficMap) (s1 : String)
    (p1 : TrafficMap) (s2 : String) (p2 : TrafficMap) (hacc : keyedByID h acc)
    (h1 : keyedByID h p1) (h2 : keyedByID h p2) (hn1 : p1.keys.Nodup) (hn2 : p2.keys.Nodup)
    (k : String) (s : Nat)
    (hs : (MergeTrafficMaps G (MergeTrafficMaps G h acc s1 p1).1
      (MergeTrafficMaps G h acc s1 p1).2 s2 p2).2.get k = some s)
    (key : String × Option Value) :
    key ∈ keysOf (MergeTrafficMaps G (MergeTrafficMaps G h acc s1 p1).1
        (MergeTrafficMaps G h acc s1 p1).2 s2 p2).1 s ↔
      (∃ a, acc.get k = some a ∧ key ∈ keysOf h a) ∨
        (∃ p, (k, p) ∈ p1 ∧ key ∈ keysOf h p) ∨ (∃ p, (k, p) ∈ p2 ∧ key ∈ keysOf h p) := by
  have run := mergeLoop_run G s1 p1 (h, acc) hacc h1
  have hkeyed1 : keyedByID (MergeTrafficMaps G h acc s1 p1).1 (MergeTrafficMaps G h acc s1 p1).2 :=
    run.keyed
  have hkeyed2 : keyedByID (MergeTrafficMaps G h acc s1 p1).1 p2 :=
    keyedByID_congr run.id p2 h2
  rw [merge_keys_stored G _ _ s2 p2 hkeyed1 hkeyed2 hn2 k s hs key]
  constructor
  · rintro (⟨a, ha, hk⟩ | ⟨p, hp, hk⟩)
    · rcases (merge_keys_stored G h acc s1 p1 hacc h1 hn1 k a ha key).mp hk with h3 | h3
      · exact Or.inl h3
      · exact Or.inr (Or.inl h3)
    · have hid : (h.nodes p).ID = k := h2 (k, p) hp
      rcases merge_keys_bound G h acc s1 p1 hacc h1 hn1 p key hk with h3 | h3 | h3
      · exact Or.inr (Or.inr ⟨p, hp, h3⟩)
      · rw [hid] at h3
        exact Or.inl h3
      · rw [hid] at h3
        exact Or.inr (Or.inl h3)
  · have hstored : k ∈ acc.keys ∨ k ∈ p1.keys →
        ∃ a, (MergeTrafficMaps G h acc s1 p1).2.get k = some a := by
      intro hk
      apply (TrafficMap.get_isSome_iff _ _).mpr
      unfold MergeTrafficMaps
      exact (mergeLoop_mem_keys G s1 p1 (h, acc) k).mpr hk
    rintro (⟨a, ha, hk⟩ | ⟨p, hp, hk⟩ | ⟨p, hp, hk⟩)
    · obtain ⟨b, hb⟩ := hstored (Or.inl ((TrafficMap.get_isSome_iff _ _).mp ⟨a, ha⟩))
      exact Or.inl ⟨b, hb,
        (merge_keys_stored G h acc s1 p1 hacc h1 hn1 k b hb key).mpr (Or.inl ⟨a, ha, hk⟩)⟩
    · obtain ⟨b, hb⟩ := hstored (Or.inr (List.mem_map_of_mem Prod.fst hp))
      exact Or.inl ⟨b, hb,
        (merge_keys_stored G h acc s1 p1 hacc h1 hn1 k b hb key).mpr (Or.inr ⟨p, hp, hk⟩)⟩
    · exact Or.inr ⟨p, hp, merge_keys_mono G h acc s1 p1 hacc h1 hn1 p key hk⟩

/-- C17: for maps keyed by node ID, merging `p1` (scope `s1`) and then `p2` (scope `s2`) into
an accumulator, or `p2` and then `p1`, gives maps with the same keys, and under every key a
node with the same set of `(Dest.ID, protocol)` edge keys.  (It is not needed that the two
merged-in maps share no node object.) -/
theorem C17_merge_order_independent (G : GraphLib) (h : Heap) (acc : TrafficMap) (s1 : String)
    (p1 : TrafficMap) (s2 : String) (p2 : TrafficMap) (hacc : keyedByID h acc)
    (h1 : keyedByID h p1) (h2 : keyedByID h p2) (hn1 : p1.keys.Nodup) (hn2 : p2.keys.Nodup) :
    (∀ k, k ∈ (MergeTrafficMaps G (MergeTrafficMaps G h acc s1 p1).1
          (MergeTrafficMaps G h acc s1 p1).2 s2 p2).2.keys ↔
        k ∈ (MergeTrafficMaps G (MergeTrafficMaps G h acc s2 p2).1
          (MergeTrafficMaps G h acc s2 p2).2 s1 p1).2.keys) ∧
      ∀ k a b,
        (MergeTrafficMaps G (MergeTrafficMaps G h acc s1 p1).1
          (MergeTrafficMaps G h acc s1 p1).2 s2 p2).2.get k = some a →
        (MergeTrafficMaps G (MergeTrafficMaps G h acc s2 p2).1
          (MergeTrafficMaps G h acc s2 p2).2 s1 p1).2.get k = some b →
        ∀ key,
          key ∈ keysOf (MergeTrafficMaps G (MergeTrafficMaps G h acc s1 p1).1
              (MergeTrafficMaps G h acc s1 p1).2 s2 p2).1 a ↔
            key ∈ keysOf (MergeTrafficMaps G (MergeTrafficMaps G h acc s2 p2).1
              (MergeTrafficMaps G h acc s2 p2).2 s1 p1).1 b := by
  constructor
  · intro k
    unfold MergeTrafficMaps
    rw [mergeLoop_mem_keys, mergeLoop_mem_keys, mergeLoop_mem_keys, mergeLoop_mem_keys]
    simp only
    tauto
  · intro k a b ha hb key
    rw [merge_twice_keys G h acc s1 p1 s2 p2 hacc h1 h2 hn1 hn2 k a ha key,
      merge_twice_keys G h acc s2 p2 s1 p1 hacc h2 h1 hn2 hn1 k b hb key]
    exact or_congr Iff.rfl or_comm

/-- C17 at the merge example with the ns2 and ns3 maps: in either order the node stored under
`B` has the keys `(C, http)` and `(D, tcp)`. -/
theorem C17_merge_order_independent_witness :
    (MergeTrafficMaps specLib (MergeTrafficMaps specLib mergeHeap3 ns1Map "ns2" ns2Map).1
        (MergeTrafficMaps specLib mergeHeap3 ns1Map "ns2" ns2Map).2 "ns3" ns3Map).2.get "B" =
        some 4 ∧
      (MergeTrafficMaps specLib (MergeTrafficMaps specLib mergeHeap3 ns1Map "ns3" ns3Map).1
        (MergeTrafficMaps specLib mergeHeap3 ns1Map "ns3" ns3Map).2 "ns2" ns2Map).2.get "B" =
        some 4 ∧
      ∀ key,
        key ∈ keysOf (MergeTrafficMaps specLib
            (MergeTrafficMaps specLib mergeHeap3 ns1Map "ns2" ns2Map).1
            (MergeTrafficMaps specLib mergeHeap3 ns1Map "ns2" ns2Map).2 "ns3" ns3Map).1 4 ↔
          key ∈ keysOf (MergeTrafficMaps specLib
            (MergeTrafficMaps specLib mergeHeap3 ns1Map "ns3" ns3Map).1
            (MergeTrafficMaps specLib mergeHeap3 ns1Map "ns3" ns3Map).2 "ns2" ns2Map).1 4 :=
  ⟨by decide, by decide,
    (C17_merge_order_independent specLib mergeHeap3 ns1Map "ns2" ns2Map "ns3" ns3Map
      (by decide) (by decide) (by decide) (by decide) (by decide)).2 "B" 4 4 (by decide)
      (by decide)⟩

/-! ## Roots and cycles -/

/-- A map whose edges all lead to a node of higher rank has no cycle. -/
theorem acyclic_of_rank (h : Heap) (tm : TrafficMap) (rank : String → Nat)
    (hr : ∀ x ∈ tm, ∀ e ∈ (h.nodes x.2).Edges,
      rank (h.nodes x.2).ID < rank (h.nodes (h.edges e).Dest).ID) : acyclic h tm := by
  have hstep : ∀ a b, edgeRel h tm a b → rank a < rank b := by
    rintro a b ⟨x, hx, rfl, e, he, rfl⟩
    exact hr x hx e he
  have htrans : ∀ a b, Relation.TransGen (edgeRel h tm) a b → rank a < rank b := by
    intro a b hab
    induction hab with
    | single h1 => exact hstep _ _ h1
    | tail _ h2 ih => exact lt_trans ih (hstep _ _ h2)
  intro a ha
  exact lt_irrefl _ (htrans a a ha)

/-- A node whose ID is the destination of an edge of the map is left as it is. -/
theorem markGenerators_destination (h : Heap) (tm : TrafficMap) (p : Nat)
    (hdest : ∃ x ∈ tm, ∃ e ∈ (h.nodes x.2).Edges,
      (h.nodes (h.edges e).Dest).ID = (h.nodes p).ID) :
    (MarkTrafficGenerators h tm).nodes p = h.nodes p := by
  have r := markGenerators_spec (buildDestMap h tm) tm h
  unfold MarkTrafficGenerators
  apply r.unmarked
  rintro ⟨_, hg⟩
  obtain ⟨x, hx, e, he, hid⟩ := hdest
  exact (buildDestMap_get_none h tm _).mp hg.2 x hx e he hid

/-- A node on a cycle of the edge relation is the destination of an edge of the map. -/
theorem destination_of_cycle (h : Heap) (tm : TrafficMap) (a : String)
    (hc : Relation.TransGen (edgeRel h tm) a a) :
    ∃ x ∈ tm, ∃ e ∈ (h.nodes x.2).Edges, (h.nodes (h.edges e).Dest).ID = a := by
  obtain ⟨b, _, x, hx, _, e, he, hid⟩ := Relation.TransGen.tail'_iff.mp hc
  exact ⟨x, hx, e, he, hid⟩

/-- In a map without cycle that has an edge, some node with an edge is the destination of no
edge. -/
theorem exists_source (h : Heap) (tm : TrafficMap) (hac : acyclic h tm)
    (hedge : ∃ x ∈ tm, (h.nodes x.2).Edges ≠ []) :
    ∃ x ∈ tm, (h.nodes x.2).Edges ≠ [] ∧
      ∀ y ∈ tm, ∀ e ∈ (h.nodes y.2).Edges,
        (h.nodes (h.edges e).Dest).ID ≠ (h.nodes x.2).ID := by
  let r : Fin tm.length → Fin tm.length → Prop := fun i j =>
    ∃ e ∈ (h.nodes (List.get tm i).2).Edges,
      (h.nodes (h.edges e).Dest).ID = (h.nodes (List.get tm j).2).ID
  have hlift : ∀ i j, Relation.TransGen r i j →
      Relation.TransGen (edgeRel h tm) (h.nodes (List.get tm i).2).ID (h.nodes (List.get tm j).2).ID := by
    intro i j hij
    apply Relation.TransGen.lift (fun i => (h.nodes (List.get tm i).2).ID) _ hij
    rintro a b ⟨e, he, hid⟩
    exact ⟨List.get tm a, List.get_mem _ _ _, rfl, e, he, hid⟩
  haveI : IsIrrefl (Fin tm.length) (Relation.TransGen r) :=
    ⟨fun i hi => hac _ (hlift i i hi)⟩
  have hwf : WellFounded (Relation.TransGen r) :=
    Finite.wellFounded_of_trans_of_irrefl (Relation.TransGen r)
  obtain ⟨x, hx, hxe⟩ := hedge
  obtain ⟨i, hi⟩ := List.mem_iff_get.mp hx
  obtain ⟨m, hm, hmin⟩ := hwf.has_min {j | (h.nodes (List.get tm j).2).Edges ≠ []}
    ⟨i, by rw [Set.mem_setOf_eq, hi]; exact hxe⟩
  refine ⟨List.get tm m, List.get_mem _ _ _, hm, ?_⟩
  intro y hy e he hid
  obtain ⟨j, hj⟩ := List.mem_iff_get.mp hy
  subst hj
  have hjs : j ∈ {j | (h.nodes (List.get tm j).2).Edges ≠ []} := by
    intro hnil
    rw [hnil] at he
    simp at he
  exact hmin j hjs (Relation.TransGen.single ⟨e, he, hid⟩)

/-- C18: on a map that has at least one edge and whose edge relation on node IDs has no
cycle, `MarkTrafficGenerators` sets `IsRoot = true` on at least one node of the map.
Conversely a node that lies on a cycle of the edge relation is left as it is, and on a map
in which every node with an outgoing edge lies on a cycle no node at all is changed, so
the map gets no root.  (That the keys are the node IDs is not needed.) -/
theorem C18_root_exists_iff_acyclic (h : Heap) (tm : TrafficMap) :
    (acyclic h tm → (∃ x ∈ tm, (h.nodes x.2).Edges ≠ []) →
        ∃ x ∈ tm, ((MarkTrafficGenerators h tm).nodes x.2).Metadata IsRoot =
          some (Value.bool true)) ∧
      (∀ p, Relation.TransGen (edgeRel h tm) (h.nodes p).ID (h.nodes p).ID →
        (MarkTrafficGenerators h tm).nodes p = h.nodes p) ∧
      ((∀ x ∈ tm, (h.nodes x.2).Edges ≠ [] →
          Relation.TransGen (edgeRel h tm) (h.nodes x.2).ID (h.nodes x.2).ID) →
        ∀ p, (MarkTrafficGenerators h tm).nodes p = h.nodes p) := by
  have r := markGenerators_spec (buildDestMap h tm) tm h
  refine ⟨?_, ?_, ?_⟩
  · intro hac hedge
    obtain ⟨x, hx, hxe, hsrc⟩ := exists_source h tm hac hedge
    refine ⟨x, hx, ?_⟩
    unfold MarkTrafficGenerators
    exact r.marked x.2 (List.mem_map_of_mem Prod.snd hx)
      ⟨hxe, (buildDestMap_get_none h tm _).mpr hsrc⟩
  · intro p hc
    exact markGenerators_destination h tm p (destination_of_cycle h tm _ hc)
  · intro hall p
    unfold MarkTrafficGenerators
    apply r.unmarked
    rintro ⟨hmem, hg⟩
    obtain ⟨x, hx, hxp⟩ := List.mem_map.mp hmem
    have hc := hall x hx (by rw [hxp]; exact hg.1)
    obtain ⟨y, hy, e, he, hid⟩ := destination_of_cycle h tm _ hc
    rw [hxp] at hid
    exact (buildDestMap_get_none h tm _).mp hg.2 y hy e he hid

/-- C18 at the chain `A -> B -> C`, which has no cycle and gets a root, and at the cycle
`A -> B -> A`, where no node is given the flag. -/
theorem C18_root_exists_iff_acyclic_witness :
    (∃ x ∈ chainMap, ((MarkTrafficGenerators chainHeap chainMap).nodes x.2).Metadata IsRoot =
        some (Value.bool true)) ∧
      (MarkTrafficGenerators cycleHeap cycleMap).nodes 0 = cycleHeap.nodes 0 ∧
      ∀ x ∈ cycleMap, ((MarkTrafficGenerators cycleHeap cycleMap).nodes x.2).Metadata IsRoot ≠
        some (Value.bool true) :=
  ⟨(C18_root_exists_iff_acyclic chainHeap chainMap).1
      (acyclic_of_rank chainHeap chainMap chainRank (by decide)) ⟨("A", 0), by decide, by decide⟩,
    (C18_root_exists_iff_acyclic cycleHeap cycleMap).2.1 0
      (Relation.TransGen.tail
        (Relation.TransGen.single ⟨("A", 0), by decide, rfl, 0, by decide, rfl⟩)
        ⟨("B", 1), by decide, rfl, 1, by decide, rfl⟩),
    by decide⟩

end Kiali
